import Mathlib

/-!
# The AST printer of the Solidity optimiser plugin

A shallow embedding of `printer/printer.go` and theorems about it.

The printer walks a graph of AST nodes owned by an external library.  Nodes are
Go interface values compared by pointer identity, and the graph may share nodes
or contain reference cycles.  The embedding therefore keeps all nodes in an
arena (`Heap`) and refers to a node by its index (`NodeId`); an index outside
the arena plays the part of Go's nil interface value.

The Go methods mutate the receiver; here every method takes the printer state
and returns the new one.  A run-time panic (failed type assertion, nil
dereference) and exhaustion of the recursion budget are the two `Fault`s.
-/

namespace printer

/-! ## Data model -/

/-- Identity of a node: its index in the arena (pointer identity in the source). -/
abbrev NodeId := Nat

/-- Modelled from the spec: the kind discriminator `ast_pb.NodeType`, declared in an
external library.  The eleven kinds `visitNode` tests for are constructors of their own;
every other value of the enumeration is `OTHER`, carrying the text its `String()` method
returns. -/
inductive NodeType where
  | SOURCE_UNIT
  | PRAGMA_DIRECTIVE
  | IMPORT_DIRECTIVE
  | MODIFIER_DEFINITION
  | FUNCTION_DEFINITION
  | CONTRACT_DEFINITION
  | STRUCT_DEFINITION
  | VARIABLE_DECLARATION
  | FUNCTION_CALL
  | ELEMENTARY_TYPE_NAME
  | IDENTIFIER
  | OTHER (name : String)
  deriving DecidableEq, Repr

/-- Modelled from the spec: `NodeType.String()`, the name of a kind. -/
def NodeType.String : NodeType → String
  | .SOURCE_UNIT => "SOURCE_UNIT"
  | .PRAGMA_DIRECTIVE => "PRAGMA_DIRECTIVE"
  | .IMPORT_DIRECTIVE => "IMPORT_DIRECTIVE"
  | .MODIFIER_DEFINITION => "MODIFIER_DEFINITION"
  | .FUNCTION_DEFINITION => "FUNCTION_DEFINITION"
  | .CONTRACT_DEFINITION => "CONTRACT_DEFINITION"
  | .STRUCT_DEFINITION => "STRUCT_DEFINITION"
  | .VARIABLE_DECLARATION => "VARIABLE_DECLARATION"
  | .FUNCTION_CALL => "FUNCTION_CALL"
  | .ELEMENTARY_TYPE_NAME => "ELEMENTARY_TYPE_NAME"
  | .IDENTIFIER => "IDENTIFIER"
  | .OTHER name => name

/-- Modelled from the spec: the visibility attribute `ast_pb.Visibility` of a function;
`OTHER` stands for every value that is not one of the four `inferVisibility` tests for. -/
inductive Visibility where
  | PUBLIC
  | INTERNAL
  | PRIVATE
  | EXTERNAL
  | OTHER (code : Nat)
  deriving DecidableEq, Repr

/-- Modelled from the spec: `ast.BaseName`, of which the printer reads the field `Name`. -/
structure BaseName where
  Name : String
  deriving DecidableEq, Repr

/-- Modelled from the spec: `ast.BaseContract`; `BaseName` is a pointer and may be nil. -/
structure BaseContract where
  BaseName : Option printer.BaseName
  deriving DecidableEq, Repr

/-- Modelled from the spec: the concrete (dynamic) Go type of a node together with the
fields of that type.  The printer reads the name fields, the visibility, the base
contracts, `Contract.Nodes`, `StructDefinition.Members`, the `TypeName` pointer of the
two variable declarations and `FunctionCall.Expression`; the parameter lists of a
function and the arguments of a call exist but are never read.  Pointers to nodes are
`NodeId`s, a nil pointer is `none`.  `Other` is every concrete type the printer never
asserts. -/
inductive Form where
  | SourceUnit
  | Pragma (Text : String)
  | Import (Name : String)
  | ModifierDefinition (Name : String)
  | Function (Name : String) (Visibility : printer.Visibility)
      (Parameters ReturnParameters : List NodeId)
  | Contract (Name : String) (BaseContracts : List (Option BaseContract))
      (Nodes : List NodeId)
  | StructDefinition (Name : String) (Members : List NodeId)
  | StateVariableDeclaration (Name : String) (TypeName : Option NodeId)
  | Parameter (Name : String) (TypeName : Option NodeId)
  | FunctionCall (Expression : Option NodeId) (Arguments : List NodeId)
  | TypeName (Name : String)
  | PrimaryExpression (Name : String)
  | Other
  deriving DecidableEq, Repr

/-- Modelled from the spec: a value of the interface `ast.Node`: what `GetType()` and
`GetNodes()` return, and the concrete form a type assertion inspects. -/
structure Node where
  GetType : NodeType
  form : Form
  GetNodes : List NodeId
  deriving DecidableEq, Repr

/-- The arena holding every node; a `NodeId` is an index into it. -/
abbrev Heap := List Node

/-- The node a reference points to; `none` for a nil reference. -/
def Heap.node (h : Heap) (id : NodeId) : Option Node := h.get? id

/-- The child list `node.GetNodes()` of a reference. -/
def Heap.GetNodes (h : Heap) (id : NodeId) : List NodeId :=
  match h.node id with
  | some n => n.GetNodes
  | none => []

/-- Modelled from the spec: `ast.RootNode`, of which `Print` reads `GetNodes()`. -/
structure RootNode where
  GetNodes : List NodeId
  deriving DecidableEq, Repr

/-- The printer state.  `output` and `visited` are the two fields of the Go struct
(`visited` is a map to `bool` whose entries are only ever set to `true`, so it is a set).
`calls` is a ghost field that no operation reads: the log of the invocations of
`visitNode`, as pairs of node and depth, in call order. -/
structure Printer where
  output : String
  visited : Finset NodeId
  calls : List (NodeId × Nat)
  deriving DecidableEq

/-- The two ways a call can fail to return: a Go run-time panic, or the recursion budget
of the embedding being used up. -/
inductive Fault where
  | panic
  | outOfFuel
  deriving DecidableEq, Repr

/-- Outcome of a call on the printer. -/
abbrev Result := Except Fault Printer

/-! ## Operations -/

/-- Go's `strings.Repeat`. -/
def Repeat (s : String) : Nat → String
  | 0 => ""
  | n + 1 => s ++ Repeat s n

/-- The constructor `New()`. -/
def New : Printer := { output := "", visited := ∅, calls := [] }

/-- The accessor `Output()`. -/
def Printer.Output (p : Printer) : String := p.output

/-- The statement `p.output += s`. -/
def Printer.write (p : Printer) (s : String) : Printer :=
  { p with output := p.output ++ s }

/-- The statement `p.visited[node] = true`. -/
def Printer.mark (p : Printer) (node : NodeId) : Printer :=
  { p with visited := insert node p.visited }

/-- Ghost step: record an invocation of `visitNode`. -/
def Printer.log (p : Printer) (node : NodeId) (depth : Nat) : Printer :=
  { p with calls := p.calls ++ [(node, depth)] }

/-- `VisitSourceUnit` returns at once. -/
def VisitSourceUnit (_depth : Nat) (p : Printer) : Printer := p

/-- `VisitPragma`. -/
def VisitPragma (Text : String) (depth : Nat) (p : Printer) : Printer :=
  p.write (Repeat "  " depth ++ Text ++ "\n")

/-- `VisitImport`. -/
def VisitImport (Name : String) (depth : Nat) (p : Printer) : Printer :=
  p.write (Repeat "  " depth ++ "Import: " ++ Name ++ "\n")

/-- `VisitModifierDefinition`. -/
def VisitModifierDefinition (Name : String) (depth : Nat) (p : Printer) : Printer :=
  p.write (Repeat "  " depth ++ "Modifier: " ++ Name ++ "\n")

/-- `inferVisibility`. -/
def inferVisibility : Visibility → String
  | .PUBLIC => "public"
  | .INTERNAL => "internal"
  | .PRIVATE => "private"
  | .EXTERNAL => "external"
  | _ => "unknown"

/-- `VisitFunctionDefinition`. -/
def VisitFunctionDefinition (Name : String) (vis : Visibility) (depth : Nat)
    (p : Printer) : Printer :=
  p.write (Repeat "  " depth ++ "function " ++ Name ++ "() " ++ inferVisibility vis ++ " \x7b\n")

/-- The loop of `VisitContractDefinition` over the base contracts, from index `i` on:
a separator before every element but the first, then `base.BaseName.Name`, which
panics when `base` or `base.BaseName` is nil. -/
def writeBaseContracts : List (Option BaseContract) → Nat → Printer → Result
  | [], _, p => .ok p
  | base :: rest, i, p =>
    let p1 := if i > 0 then p.write ", " else p
    match base with
    | some b =>
      match b.BaseName with
      | some bn => writeBaseContracts rest (i + 1) (p1.write bn.Name)
      | none => .error .panic
    | none => .error .panic

/-- `VisitContractDefinition`; `trav` is the method `traverseNodes` it calls. -/
def VisitContractDefinition (trav : List NodeId → Nat → Printer → Result)
    (Name : String) (BaseContracts : List (Option BaseContract)) (Nodes : List NodeId)
    (depth : Nat) (p : Printer) : Result := do
  let indent := Repeat "  " depth
  let p := p.write (indent ++ "Contract " ++ Name)
  let p ← writeBaseContracts BaseContracts 0 p
  let p := p.write " \x7b\n"
  let p ← trav Nodes (depth + 1) p
  pure (p.write (indent ++ "\x7d\n"))

/-- `VisitStructDefinition`; `trav` is the method `traverseNodes` it calls. -/
def VisitStructDefinition (trav : List NodeId → Nat → Printer → Result)
    (Name : String) (Members : List NodeId) (depth : Nat) (p : Printer) : Result := do
  let indent := Repeat "  " depth
  let p := p.write (indent ++ "struct " ++ Name ++ " \x7b\n")
  let p ← trav Members (depth + 1) p
  pure (p.write (indent ++ "\x7d\n"))

/-- The expression `variable.TypeName.Name`: a nil pointer panics.  In Go the pointer has
the static type `*ast.TypeName`; a reference to a node of another form cannot be built
there and is treated like nil. -/
def typeNameName (h : Heap) (TypeName : Option NodeId) : Option String :=
  match TypeName with
  | none => none
  | some t =>
    match h.node t with
    | some n =>
      match n.form with
      | .TypeName Name => some Name
      | _ => none
    | none => none

/-- `VisitVariableDeclaration` (a parameter-level declaration). -/
def VisitVariableDeclaration (h : Heap) (Name : String) (TypeName : Option NodeId)
    (depth : Nat) (p : Printer) : Result :=
  let indent := Repeat "  " depth
  match TypeName, typeNameName h TypeName with
  | some t, some typeName =>
    .ok ((p.mark t).write (indent ++ typeName ++ " " ++ Name ++ "; \n"))
  | _, _ => .error .panic

/-- `VisitStateVariableDeclaration` (a state-level declaration). -/
def VisitStateVariableDeclaration (h : Heap) (Name : String) (TypeName : Option NodeId)
    (depth : Nat) (p : Printer) : Result :=
  let indent := Repeat "  " depth
  match TypeName, typeNameName h TypeName with
  | some t, some typeName =>
    .ok ((p.mark t).write (indent ++ typeName ++ " " ++ Name ++ "; \n"))
  | _, _ => .error .panic

/-- `VisitTypeName`. -/
def VisitTypeName (Name : String) (depth : Nat) (p : Printer) : Printer :=
  p.write (Repeat "  " depth ++ "TypeName: " ++ Name ++ "\n")

/-- The callee name `visitFunctionCall` computes: the name of `Expression` when that is a
`*ast.PrimaryExpression`, the empty string otherwise (also for nil). -/
def calleeName (h : Heap) (Expression : Option NodeId) : String :=
  match Expression with
  | none => ""
  | some e =>
    match h.node e with
    | some n =>
      match n.form with
      | .PrimaryExpression Name => Name
      | _ => ""
    | none => ""

/-- `visitFunctionCall`. -/
def visitFunctionCall (h : Heap) (Expression : Option NodeId) (depth : Nat)
    (p : Printer) : Printer :=
  let fn := calleeName h Expression
  let indent := Repeat "  " depth
  p.write (indent ++ fn ++ "(args) \n")

/-- `visitNode`: dispatch on `node.GetType()`, then a type assertion to the concrete form
the formatter takes.  The one-valued assertions panic on another form; the two assertions
of the variable-declaration case are of the two-valued kind and fall through.  `trav` is
the method `traverseNodes` that the contract and struct formatters call. -/
def visitNode (trav : List NodeId → Nat → Printer → Result) (h : Heap) (node : NodeId)
    (depth : Nat) (p : Printer) : Result :=
  let p := p.log node depth
  match h.node node with
  | none => .error .panic
  | some n =>
    match n.GetType with
    | .SOURCE_UNIT =>
      match n.form with
      | .SourceUnit => .ok (VisitSourceUnit depth p)
      | _ => .error .panic
    | .PRAGMA_DIRECTIVE =>
      match n.form with
      | .Pragma Text => .ok (VisitPragma Text depth p)
      | _ => .error .panic
    | .IMPORT_DIRECTIVE =>
      match n.form with
      | .Import Name => .ok (VisitImport Name depth p)
      | _ => .error .panic
    | .MODIFIER_DEFINITION =>
      match n.form with
      | .ModifierDefinition Name => .ok (VisitModifierDefinition Name depth p)
      | _ => .error .panic
    | .FUNCTION_DEFINITION =>
      match n.form with
      | .Function Name vis _ _ => .ok (VisitFunctionDefinition Name vis depth p)
      | _ => .error .panic
    | .CONTRACT_DEFINITION =>
      match n.form with
      | .Contract Name BaseContracts Nodes =>
        VisitContractDefinition trav Name BaseContracts Nodes depth p
      | _ => .error .panic
    | .STRUCT_DEFINITION =>
      match n.form with
      | .StructDefinition Name Members => VisitStructDefinition trav Name Members depth p
      | _ => .error .panic
    | .VARIABLE_DECLARATION =>
      match n.form with
      | .StateVariableDeclaration Name TypeName =>
        VisitStateVariableDeclaration h Name TypeName depth p
      | .Parameter Name TypeName => VisitVariableDeclaration h Name TypeName depth p
      | _ => .ok p
    | .FUNCTION_CALL =>
      match n.form with
      | .FunctionCall Expression _ => .ok (visitFunctionCall h Expression depth p)
      | _ => .error .panic
    | .ELEMENTARY_TYPE_NAME =>
      match n.form with
      | .TypeName Name => .ok (VisitTypeName Name depth p)
      | _ => .error .panic
    | .IDENTIFIER =>
      match n.form with
      | .PrimaryExpression Name => .ok (p.write Name)
      | _ => .error .panic
    | .OTHER name =>
      .ok (p.write (Repeat "  " depth ++ "Unknown Node: " ++ (NodeType.OTHER name).String ++ "\n"))

/-- The body of the `for` loop shared by `traverseNodes` and `traverseStructMembers`:
skip a visited node; otherwise mark it, format it, and walk its child list one level
deeper when that list is not empty.  `visitTrav` is the traversal the formatters call,
`childTrav` the one the loop itself recurses with. -/
def traverseBody (visitTrav childTrav : List NodeId → Nat → Printer → Result) (h : Heap)
    (depth : Nat) (p : Printer) (node : NodeId) : Result :=
  if node ∈ p.visited then .ok p
  else do
    let p ← visitNode visitTrav h node depth (p.mark node)
    let childNodes := h.GetNodes node
    if childNodes.length > 0 then childTrav childNodes (depth + 1) p else pure p

/-- `traverseNodes`.  The first argument bounds the nesting of calls: a call with budget
`fuel + 1` runs the loop and gives every call it makes the budget `fuel`. -/
def traverseNodes (h : Heap) : Nat → List NodeId → Nat → Printer → Result
  | 0, _, _, _ => .error .outOfFuel
  | fuel + 1, nodes, depth, p =>
    nodes.foldlM (traverseBody (traverseNodes h fuel) (traverseNodes h fuel) h depth) p

/-- `traverseStructMembers`, with the same budget discipline. -/
def traverseStructMembers (h : Heap) : Nat → List NodeId → Nat → Printer → Result
  | 0, _, _, _ => .error .outOfFuel
  | fuel + 1, structMembers, depth, p =>
    structMembers.foldlM
      (traverseBody (traverseNodes h fuel) (traverseStructMembers h fuel) h depth) p

/-- `Print`. -/
def Printer.Print (h : Heap) (fuel : Nat) (root : RootNode) (p : Printer) : Result :=
  traverseNodes h fuel root.GetNodes 0 p

/-- The three shapes of the state `q` a formatter returns when started in `p0` (the state
after the ghost step): some text appended; a node marked and text appended; or text, a
nested traversal one level deeper, and more text. -/
inductive VisitShape (trav : List NodeId → Nat → Printer → Result) (d : Nat)
    (p0 q : Printer) : Prop where
  | leaf (s : String) (hq : q = p0.write s)
  | marking (t : NodeId) (s : String) (hq : q = (p0.mark t).write s)
  | block (s1 : String) (ns : List NodeId) (a : Printer) (s2 : String)
      (ha : trav ns (d + 1) (p0.write s1) = .ok a) (hq : q = a.write s2)

/-- The state `q` extends the state `p`: the emitted-set has grown, text has been appended,
and the formatter invocations logged in between are of pairwise different nodes, none of
them emitted in `p` and all of them emitted in `q`. -/
structure Ext (p q : Printer) : Prop where
  visited : p.visited ⊆ q.visited
  output : ∃ t, q.output = p.output ++ t
  calls : ∃ new, q.calls = p.calls ++ new ∧ (new.map Prod.fst).Nodup ∧
    ∀ c ∈ new, c.1 ∉ p.visited ∧ c.1 ∈ q.visited

/-- A run of `Print` calls on one printer instance, each with its arena, recursion budget
and root. -/
def printAll : List (Heap × Nat × RootNode) → Printer → Result
  | [], p => .ok p
  | (h, fuel, root) :: rest, p => p.Print h fuel root >>= printAll rest

/-- The eleven kinds `visitNode` has a case for. -/
def recognised : List NodeType :=
  [.SOURCE_UNIT, .PRAGMA_DIRECTIVE, .IMPORT_DIRECTIVE, .MODIFIER_DEFINITION,
   .FUNCTION_DEFINITION, .CONTRACT_DEFINITION, .STRUCT_DEFINITION, .VARIABLE_DECLARATION,
   .FUNCTION_CALL, .ELEMENTARY_TYPE_NAME, .IDENTIFIER]

/-- A text of `n` spaces. -/
def spaces (n : Nat) : String := String.mk (List.replicate n ' ')

/-- A base contract whose pointer and whose `BaseName` pointer are both present. -/
def basePresent : Option BaseContract → Bool
  | some b => b.BaseName.isSome
  | none => false

/-- A node is well formed in an arena when its concrete form is the one `visitNode`
asserts for its kind (any form for a variable declaration and for a kind without a case),
the pointers its formatter dereferences are present (the type node of a state-level or
parameter-level declaration, every base contract and its base name), and every node
reference in its child list, contract body or member list points into the arena.
Names and texts are unconstrained. -/
def Node.wellFormed (h : Heap) (n : Node) : Bool :=
  n.GetNodes.all (fun c => decide (c < h.length)) &&
  match n.GetType, n.form with
  | .SOURCE_UNIT, .SourceUnit => true
  | .PRAGMA_DIRECTIVE, .Pragma _ => true
  | .IMPORT_DIRECTIVE, .Import _ => true
  | .MODIFIER_DEFINITION, .ModifierDefinition _ => true
  | .FUNCTION_DEFINITION, .Function _ _ _ _ => true
  | .CONTRACT_DEFINITION, .Contract _ bs ns =>
    bs.all basePresent && ns.all (fun c => decide (c < h.length))
  | .STRUCT_DEFINITION, .StructDefinition _ ms => ms.all (fun c => decide (c < h.length))
  | .VARIABLE_DECLARATION, .StateVariableDeclaration _ t => (typeNameName h t).isSome
  | .VARIABLE_DECLARATION, .Parameter _ t => (typeNameName h t).isSome
  | .VARIABLE_DECLARATION, _ => true
  | .FUNCTION_CALL, .FunctionCall _ _ => true
  | .ELEMENTARY_TYPE_NAME, .TypeName _ => true
  | .IDENTIFIER, .PrimaryExpression _ => true
  | .OTHER _, _ => true
  | _, _ => false

/-- An arena all of whose nodes are well formed. -/
def Heap.WellFormed (h : Heap) : Prop := ∀ n ∈ h, n.wellFormed h = true

instance (h : Heap) : Decidable h.WellFormed := by
  unfold Heap.WellFormed; infer_instance

/-- The number of nodes of the arena that are not yet in the emitted-set. -/
def unvisited (h : Heap) (p : Printer) : Nat := (Finset.range h.length \ p.visited).card

/-- A pragma node whose concrete form is an import. -/
def wrongFormHeap : Heap := [⟨.PRAGMA_DIRECTIVE, .Import "x", []⟩]

/-- A parameter declaration without a type node. -/
def noTypeHeap : Heap := [⟨.VARIABLE_DECLARATION, .Parameter "x" none, []⟩]

/-- An import with an empty name. -/
def emptyNameHeap : Heap := [⟨.IMPORT_DIRECTIVE, .Import "", []⟩]

/-- Two concrete forms agree on the attributes the formatters print: they are the same
kind of form with the same name or text, the same printed visibility, the same base
contracts, the same body, member and type references, the same type name and the same
callee name.  The parameter lists of a function and the arguments of a call are not
compared. -/
def Form.agree (h1 h2 : Heap) : Form → Form → Bool
  | .SourceUnit, .SourceUnit => true
  | .Pragma a, .Pragma b => decide (a = b)
  | .Import a, .Import b => decide (a = b)
  | .ModifierDefinition a, .ModifierDefinition b => decide (a = b)
  | .Function n1 v1 _ _, .Function n2 v2 _ _ =>
    decide (n1 = n2) && decide (inferVisibility v1 = inferVisibility v2)
  | .Contract n1 b1 ns1, .Contract n2 b2 ns2 =>
    decide (n1 = n2) && decide (b1 = b2) && decide (ns1 = ns2)
  | .StructDefinition n1 m1, .StructDefinition n2 m2 => decide (n1 = n2) && decide (m1 = m2)
  | .StateVariableDeclaration n1 t1, .StateVariableDeclaration n2 t2 =>
    decide (n1 = n2) && decide (t1 = t2) && decide (typeNameName h1 t1 = typeNameName h2 t2)
  | .Parameter n1 t1, .Parameter n2 t2 =>
    decide (n1 = n2) && decide (t1 = t2) && decide (typeNameName h1 t1 = typeNameName h2 t2)
  | .FunctionCall e1 _, .FunctionCall e2 _ => decide (calleeName h1 e1 = calleeName h2 e2)
  | .TypeName a, .TypeName b => decide (a = b)
  | .PrimaryExpression a, .PrimaryExpression b => decide (a = b)
  | .Other, .Other => true
  | _, _ => false

/-- Two nodes of equal identity agree on kind, child list and formatted attributes. -/
def Node.agree (h1 h2 : Heap) (a b : Node) : Bool :=
  decide (a.GetType = b.GetType) && decide (a.GetNodes = b.GetNodes) &&
    Form.agree h1 h2 a.form b.form

/-- Two arenas agree position by position: they hold the same number of nodes, and the
nodes of equal identity agree on kind, child list, references and printed attributes.  This
is the relation `Renaming` for the identity renaming, in decidable form. -/
def Heap.agree (h1 h2 : Heap) : Bool :=
  decide (h1.length = h2.length) && (List.zip h1 h2).all (fun ab => Node.agree h1 h2 ab.1 ab.2)

/-- The base-contract list of a contract whose bases and base names are all present, from
the list of the base names. -/
def basesOf (bs : List String) : List (Option BaseContract) :=
  bs.map (fun b => some ⟨some ⟨b⟩⟩)

/-- The line a variable declaration of type name `T` and name `n` gives at depth `d`. -/
def variableLine (d : Nat) (T n : String) : String :=
  spaces (2 * d) ++ T ++ " " ++ n ++ "; \n"

/-- A struct field: the member node, its type name, its name and its type node. -/
structure Field where
  node : NodeId
  T : String
  n : String
  t : NodeId

/-- The member `f.node` is, in the arena, a parameter-level declaration named `f.n` whose
type node `f.t` has the name `f.T`, and its child list holds nothing but the type node. -/
def IsField (h : Heap) (f : Field) : Prop :=
  ∃ nm nt, h.node f.node = some nm ∧ nm.GetType = .VARIABLE_DECLARATION ∧
    nm.form = .Parameter f.n (some f.t) ∧ (∀ c ∈ nm.GetNodes, c = f.t) ∧
    h.node f.t = some nt ∧ nt.form = .TypeName f.T

/-- The text holds no newline. -/
def noNewline (s : String) : Prop := '\n' ∉ s.data

instance (s : String) : Decidable (noNewline s) := by
  unfold noNewline; infer_instance

/-- A text that can follow the indentation of a line: it holds no newline and does not
start with a space. -/
def LineBody (s : String) : Prop := noNewline s ∧ s.data.head? ≠ some ' '

instance (s : String) : Decidable (LineBody s) := by
  unfold LineBody; infer_instance

/-- A line of the output: the node whose formatter wrote it, the depth of that node, and
the text between the indentation and the newline. -/
structure Line where
  node : NodeId
  depth : Nat
  body : String

/-- The text of a line at depth `d`: `2 * d` spaces, the body, a newline. -/
def lineText (d : Nat) (body : String) : String := spaces (2 * d) ++ body ++ "\n"

/-- The text of a sequence of lines. -/
def render (ls : List Line) : String := String.join (ls.map (fun l => lineText l.depth l.body))

/-- The name of a base contract, when it is present. -/
def baseNameOf : Option BaseContract → Option String
  | some b => b.BaseName.map BaseName.Name
  | none => none

/-- The names and texts a form carries. -/
def Form.texts : Form → List String
  | .Pragma Text => [Text]
  | .Import Name => [Name]
  | .ModifierDefinition Name => [Name]
  | .Function Name _ _ _ => [Name]
  | .Contract Name bs _ => Name :: bs.filterMap baseNameOf
  | .StructDefinition Name _ => [Name]
  | .StateVariableDeclaration Name _ => [Name]
  | .Parameter Name _ => [Name]
  | .TypeName Name => [Name]
  | .PrimaryExpression Name => [Name]
  | _ => []

/-- The name of a kind without a case, the one kind name the printer writes. -/
def kindTexts : NodeType → List String
  | .OTHER name => [name]
  | _ => []

/-- A type name is not empty. -/
def Form.typeNamed : Form → Bool
  | .TypeName Name => decide (Name ≠ "")
  | _ => true

/-- A node is line safe when it is not of the identifier kind, its names and texts hold no
newline and do not start with a space, and, being a type node, its name is not empty. -/
def Node.lineSafe (n : Node) : Bool :=
  decide (n.GetType ≠ .IDENTIFIER) &&
    (kindTexts n.GetType ++ n.form.texts).all (fun s => decide (LineBody s)) &&
    n.form.typeNamed

/-- An arena all of whose nodes are line safe. -/
def Heap.LineSafe (h : Heap) : Prop := ∀ n ∈ h, n.lineSafe = true

instance (h : Heap) : Decidable h.LineSafe := by
  unfold Heap.LineSafe; infer_instance

/-- A call of `g` with the identifier `g` as its child. -/
def identifierHeap : Heap :=
  [ ⟨.FUNCTION_CALL, .FunctionCall (some 1) [], [1]⟩,
    ⟨.IDENTIFIER, .PrimaryExpression "g", []⟩ ]

/-- A parameter `x` whose type node has the empty name. -/
def emptyTypeHeap : Heap :=
  [ ⟨.VARIABLE_DECLARATION, .Parameter "x" (some 1), [1]⟩,
    ⟨.ELEMENTARY_TYPE_NAME, .TypeName "", []⟩ ]

/-- The example program without the identifier node. -/
def lineHeap : Heap :=
  [ ⟨.CONTRACT_DEFINITION,
      .Contract "A" [some ⟨some ⟨"B"⟩⟩, some ⟨some ⟨"C"⟩⟩] [1, 2, 3], [1, 2, 3]⟩,
    ⟨.VARIABLE_DECLARATION, .StateVariableDeclaration "x" (some 2), [2]⟩,
    ⟨.ELEMENTARY_TYPE_NAME, .TypeName "uint256", []⟩,
    ⟨.OTHER "IF_STATEMENT", .Other, [0, 4]⟩,
    ⟨.FUNCTION_CALL, .FunctionCall none [], []⟩,
    ⟨.PRAGMA_DIRECTIVE, .Pragma "", []⟩ ]

/-- The shapes of the state `q` a formatter returns for a node at depth `d` of a line-safe
arena, started in `p0` (the state after the ghost step): nothing written; one line at
depth `d`; a node marked and one line at depth `d`; or an opening line at depth `d`, a
nested traversal at depth `d + 1`, and the closing line at depth `d`. -/
inductive LineShape (trav : List NodeId → Nat → Printer → Result) (d : Nat)
    (p0 q : Printer) : Prop where
  | silent (hq : q = p0)
  | leaf (body : String) (hb : LineBody body) (hq : q = p0.write (lineText d body))
  | marking (t : NodeId) (body : String) (hb : LineBody body)
      (hq : q = (p0.mark t).write (lineText d body))
  | block (body : String) (ns : List NodeId) (a : Printer) (hb : LineBody body)
      (ha : trav ns (d + 1) (p0.write (lineText d body)) = .ok a)
      (hq : q = a.write (lineText d "\x7d"))

/-- The output of `q` is a sequence of whole lines, each of `2 * d` spaces followed by a
body that does not start with a space, where `d` is the depth at which the formatter of
the line's node was invoked. -/
def Indented (q : Printer) : Prop :=
  ∃ ls : List Line, q.output = render ls ∧
    ∀ l ∈ ls, LineBody l.body ∧ (l.node, l.depth) ∈ q.calls

/-- Between `p` and `q` the state was extended and whole lines were appended, each at a
depth of at least `d` at which the formatter of its node was invoked. -/
def Lined (d : Nat) (p q : Printer) : Prop :=
  Ext p q ∧ ∃ ls : List Line, q.output = p.output ++ render ls ∧
    ∀ l ∈ ls, LineBody l.body ∧ d ≤ l.depth ∧ (l.node, l.depth) ∈ q.calls

/-- The opening brace. -/
def lbrace : Char := Char.ofNat 123

/-- The closing brace. -/
def rbrace : Char := Char.ofNat 125

/-- A node is a source unit without children. -/
def IsEmptySourceUnit (h : Heap) (node : NodeId) : Prop :=
  ∃ nd, h.node node = some nd ∧ nd.GetType = .SOURCE_UNIT ∧ nd.form = .SourceUnit ∧
    nd.GetNodes = []

/-- Two source units without children. -/
def sourceUnitHeap : Heap :=
  [ ⟨.SOURCE_UNIT, .SourceUnit, []⟩, ⟨.SOURCE_UNIT, .SourceUnit, []⟩ ]

/-- A variable-declaration-kind node whose concrete form is neither of the two
declarations, with a pragma as child. -/
def otherDeclarationHeap : Heap :=
  [ ⟨.VARIABLE_DECLARATION, .Other, [1]⟩, ⟨.PRAGMA_DIRECTIVE, .Pragma "p", []⟩ ]

/-- The traversal `t2` returns what `t1` returns wherever `t1` does not run out of
budget. -/
def Below (t1 t2 : List NodeId → Nat → Printer → Result) : Prop :=
  ∀ ns d p, t1 ns d p ≠ .error .outOfFuel → t2 ns d p = t1 ns d p

/-- Two nodes in a reference cycle, the second also its own child. -/
def cycleHeap : Heap :=
  [ ⟨.OTHER "LOOP_A", .Other, [1]⟩, ⟨.OTHER "LOOP_B", .Other, [0, 1]⟩ ]

/-- Two calls of `g` that differ only in their argument, `g(a)` and `g(b)`; the child list
of a call holds the callee and the arguments. -/
def callsHeap : Heap :=
  [ ⟨.FUNCTION_CALL, .FunctionCall (some 2) [3], [2, 3]⟩,
    ⟨.FUNCTION_CALL, .FunctionCall (some 2) [4], [2, 4]⟩,
    ⟨.IDENTIFIER, .PrimaryExpression "g", []⟩,
    ⟨.IDENTIFIER, .PrimaryExpression "a", []⟩,
    ⟨.IDENTIFIER, .PrimaryExpression "b", []⟩ ]

/-- The number of occurrences of a character in a text. -/
def cnt (c : Char) (s : String) : Nat := s.data.count c

/-- The text holds neither brace. -/
def braceFree (s : String) : Prop := lbrace ∉ s.data ∧ rbrace ∉ s.data

instance (s : String) : Decidable (braceFree s) := by
  unfold braceFree; infer_instance

/-- A node none of whose names and texts, kind name included, holds a brace. -/
def Node.braceSafe (n : Node) : Bool :=
  (kindTexts n.GetType ++ n.form.texts).all (fun s => decide (braceFree s))

/-- An arena all of whose nodes are brace safe. -/
def Heap.BraceSafe (h : Heap) : Prop := ∀ n ∈ h, n.braceSafe = true

instance (h : Heap) : Decidable h.BraceSafe := by
  unfold Heap.BraceSafe; infer_instance

/-- The node is of the function-definition kind. -/
def isFunction (h : Heap) (node : NodeId) : Bool :=
  match h.node node with
  | some n => decide (n.GetType = .FUNCTION_DEFINITION)
  | none => false

/-- The number of logged formatter invocations for function-definition nodes. -/
def functionCalls (h : Heap) (calls : List (NodeId × Nat)) : Nat :=
  (calls.filter (fun c => isFunction h c.1)).length

/-- The shapes of the state `q` a formatter returns in a brace-safe arena, started in `p0`
(the state after the ghost step): for a function, a text with one opening brace and no
closing one; for a contract or struct, a text with one opening brace, a nested traversal,
and a text with one closing brace; for every other node a text without braces. -/
inductive BraceShape (h : Heap) (trav : List NodeId → Nat → Printer → Result)
    (node : NodeId) (d : Nat) (p0 q : Printer) : Prop where
  | plain (s : String) (ho : cnt lbrace s = 0) (hc : cnt rbrace s = 0)
      (hf : isFunction h node = false) (hout : q.output = p0.output ++ s)
      (hcalls : q.calls = p0.calls)
  | function (s : String) (ho : cnt lbrace s = 1) (hc : cnt rbrace s = 0)
      (hf : isFunction h node = true) (hout : q.output = p0.output ++ s)
      (hcalls : q.calls = p0.calls)
  | block (s1 : String) (ns : List NodeId) (a : Printer) (s2 : String)
      (ho1 : cnt lbrace s1 = 1) (hc1 : cnt rbrace s1 = 0)
      (ho2 : cnt lbrace s2 = 0) (hc2 : cnt rbrace s2 = 1)
      (hf : isFunction h node = false)
      (ha : trav ns (d + 1) (p0.write s1) = .ok a) (hq : q = a.write s2)

/-- Between `p` and `q` text was appended and formatter invocations were logged, and the
appended text holds as many opening braces as closing braces and logged invocations for
function definitions together. -/
def Braced (h : Heap) (p q : Printer) : Prop :=
  ∃ t new, q.output = p.output ++ t ∧ q.calls = p.calls ++ new ∧
    cnt lbrace t = cnt rbrace t + functionCalls h new

/-- The state `q` keeps what `p` had: the text of `p` is a prefix of the text of `q` and
the emitted-set of `p` a subset of that of `q`. -/
def Keeps (p q : Printer) : Prop := p.output.data <+: q.output.data ∧ p.visited ⊆ q.visited

/-- A struct whose one member, the parameter `uint8 a`, has a second child beside its type
node. -/
def extraChildHeap : Heap :=
  [ ⟨.STRUCT_DEFINITION, .StructDefinition "S" [1], [1]⟩,
    ⟨.VARIABLE_DECLARATION, .Parameter "a" (some 2), [2, 3]⟩,
    ⟨.ELEMENTARY_TYPE_NAME, .TypeName "uint8", []⟩,
    ⟨.OTHER "COMMENT", .Other, []⟩ ]

/-- The printer state with every node identity renamed by `f`. -/
def Printer.rename (f : NodeId → NodeId) (p : Printer) : Printer :=
  { output := p.output, visited := p.visited.image f,
    calls := p.calls.map (fun c => (f c.1, c.2)) }

/-- The result of a call with every node identity in the state renamed by `f`. -/
def renameResult (f : NodeId → NodeId) : Result → Result
  | .ok p => .ok (p.rename f)
  | .error e => .error e

/-- Two concrete forms agree, under the renaming `f` of node identities, on the attributes
the formatters print: they are the same kind of form with the same name or text, the same
printed visibility, the same base contracts, body, member and type references that
correspond under `f`, the same type name and the same callee name.  The parameter lists of
a function and the arguments of a call are not compared. -/
def Form.agreeVia (f : NodeId → NodeId) (h1 h2 : Heap) : Form → Form → Bool
  | .SourceUnit, .SourceUnit => true
  | .Pragma a, .Pragma b => decide (a = b)
  | .Import a, .Import b => decide (a = b)
  | .ModifierDefinition a, .ModifierDefinition b => decide (a = b)
  | .Function n1 v1 _ _, .Function n2 v2 _ _ =>
    decide (n1 = n2) && decide (inferVisibility v1 = inferVisibility v2)
  | .Contract n1 b1 ns1, .Contract n2 b2 ns2 =>
    decide (n1 = n2) && decide (b1 = b2) && decide (ns2 = ns1.map f)
  | .StructDefinition n1 m1, .StructDefinition n2 m2 =>
    decide (n1 = n2) && decide (m2 = m1.map f)
  | .StateVariableDeclaration n1 t1, .StateVariableDeclaration n2 t2 =>
    decide (n1 = n2) && decide (t2 = t1.map f) &&
      decide (typeNameName h1 t1 = typeNameName h2 t2)
  | .Parameter n1 t1, .Parameter n2 t2 =>
    decide (n1 = n2) && decide (t2 = t1.map f) &&
      decide (typeNameName h1 t1 = typeNameName h2 t2)
  | .FunctionCall e1 _, .FunctionCall e2 _ => decide (calleeName h1 e1 = calleeName h2 e2)
  | .TypeName a, .TypeName b => decide (a = b)
  | .PrimaryExpression a, .PrimaryExpression b => decide (a = b)
  | .Other, .Other => true
  | _, _ => false

/-- Two nodes agree, under the renaming `f`, on kind, child list and formatted
attributes. -/
def Node.agreeVia (f : NodeId → NodeId) (h1 h2 : Heap) (a b : Node) : Bool :=
  decide (a.GetType = b.GetType) && decide (b.GetNodes = a.GetNodes.map f) &&
    Form.agreeVia f h1 h2 a.form b.form

/-- The body list of a contract, the member list of a struct. -/
def bodyOf (n : Node) : List NodeId :=
  match n.form with
  | .Contract _ _ ns => ns
  | .StructDefinition _ ms => ms
  | _ => []

/-- The type node a declaration refers to. -/
def typeRefOf (n : Node) : List NodeId :=
  match n.form with
  | .StateVariableDeclaration _ (some t) => [t]
  | .Parameter _ (some t) => [t]
  | _ => []

/-- The references through which the printer goes from a node to other nodes: the child
list, the body or member list and the type node. -/
def Node.refs (n : Node) : List NodeId := n.GetNodes ++ bodyOf n ++ typeRefOf n

/-- The forest that the arena `h1` holds on the identities `S` corresponds, under the
renaming `f`, to a forest of the arena `h2`: `S` holds with each node the nodes it refers
to, `f` is one-to-one on `S`, a nil reference corresponds to a nil reference, and a node of
`h1` to a node of `h2` that agrees with it.  Two forests so related have the same kinds,
nesting, order and printed attributes, and the same nodes shared.  Nothing is asked of the
nodes outside `S`. -/
structure Renaming (f : NodeId → NodeId) (S : Set NodeId) (h1 h2 : Heap) : Prop where
  inj : ∀ a ∈ S, ∀ b ∈ S, f a = f b → a = b
  absent : ∀ i ∈ S, h1.node i = none → h2.node (f i) = none
  closed : ∀ i ∈ S, ∀ n1, h1.node i = some n1 → ∀ r ∈ n1.refs, r ∈ S
  present : ∀ i ∈ S, ∀ n1, h1.node i = some n1 →
    ∃ n2, h2.node (f i) = some n2 ∧ Node.agreeVia f h1 h2 n1 n2 = true

/-- A small program: contract `A is B, C` with a state variable whose type node is also in
the contract's own node list, and a statement of a kind the printer has no case for whose
child list leads back to the contract; a struct with two fields; a function whose body
holds a call of `g`; a pragma. -/
def demoHeap : Heap :=
  [ ⟨.CONTRACT_DEFINITION,
      .Contract "A" [some ⟨some ⟨"B"⟩⟩, some ⟨some ⟨"C"⟩⟩] [1, 2, 3], [1, 2, 3]⟩,
    ⟨.VARIABLE_DECLARATION, .StateVariableDeclaration "x" (some 2), [2]⟩,
    ⟨.ELEMENTARY_TYPE_NAME, .TypeName "uint256", []⟩,
    ⟨.OTHER "IF_STATEMENT", .Other, [0]⟩,
    ⟨.STRUCT_DEFINITION, .StructDefinition "S" [5, 6], [5, 6]⟩,
    ⟨.VARIABLE_DECLARATION, .Parameter "a" (some 7), [7]⟩,
    ⟨.VARIABLE_DECLARATION, .Parameter "b" (some 8), [8]⟩,
    ⟨.ELEMENTARY_TYPE_NAME, .TypeName "uint8", []⟩,
    ⟨.ELEMENTARY_TYPE_NAME, .TypeName "uint16", []⟩,
    ⟨.FUNCTION_DEFINITION, .Function "f" .PUBLIC [] [], [10]⟩,
    ⟨.FUNCTION_CALL, .FunctionCall (some 11) [], [11]⟩,
    ⟨.IDENTIFIER, .PrimaryExpression "g", []⟩,
    ⟨.PRAGMA_DIRECTIVE, .Pragma "pragma solidity ^0.8.0;", []⟩ ]

/-! ## Basic lemmas -/

theorem bind_eq_ok {x : Result} {f : Printer → Result} {q : Printer} :
    (x >>= f) = .ok q ↔ ∃ a, x = .ok a ∧ f a = .ok q := by
  cases x with
  | error e => simp [bind, Except.bind]
  | ok a => simp [bind, Except.bind]

@[simp] theorem ok_bind (a : Printer) (f : Printer → Result) :
    ((Except.ok a : Result) >>= f) = f a := rfl

@[simp] theorem error_bind (e : Fault) (f : Printer → Result) :
    ((Except.error e : Result) >>= f) = .error e := rfl

@[simp] theorem pure_eq_ok (a : Printer) : (pure a : Result) = .ok a := rfl

@[simp] theorem write_output (p : Printer) (s : String) :
    (p.write s).output = p.output ++ s := rfl
@[simp] theorem write_visited (p : Printer) (s : String) :
    (p.write s).visited = p.visited := rfl
@[simp] theorem write_calls (p : Printer) (s : String) : (p.write s).calls = p.calls := rfl
@[simp] theorem mark_output (p : Printer) (n : NodeId) : (p.mark n).output = p.output := rfl
@[simp] theorem mark_visited (p : Printer) (n : NodeId) :
    (p.mark n).visited = insert n p.visited := rfl
@[simp] theorem mark_calls (p : Printer) (n : NodeId) : (p.mark n).calls = p.calls := rfl
@[simp] theorem log_output (p : Printer) (n : NodeId) (d : Nat) :
    (p.log n d).output = p.output := rfl
@[simp] theorem log_visited (p : Printer) (n : NodeId) (d : Nat) :
    (p.log n d).visited = p.visited := rfl
@[simp] theorem log_calls (p : Printer) (n : NodeId) (d : Nat) :
    (p.log n d).calls = p.calls ++ [(n, d)] := rfl

theorem write_write (p : Printer) (s t : String) :
    (p.write s).write t = p.write (s ++ t) := by
  simp [Printer.write, String.append_assoc]

theorem write_empty (p : Printer) : p.write "" = p := by
  cases p; simp [Printer.write]

/-- The text `strings.Repeat("  ", depth)` is `2 * depth` spaces. -/
theorem Repeat_spaces (d : Nat) : Repeat "  " d = String.mk (List.replicate (2 * d) ' ') := by
  induction d with
  | zero => rfl
  | succ n ih =>
    have h2 : 2 * (n + 1) = 2 + 2 * n := by ring
    rw [Repeat, ih, h2, List.replicate_add]
    rfl

theorem traverseNodes_succ (h : Heap) (fuel : Nat) (nodes : List NodeId) (d : Nat)
    (p : Printer) :
    traverseNodes h (fuel + 1) nodes d p =
      nodes.foldlM (traverseBody (traverseNodes h fuel) (traverseNodes h fuel) h d) p := rfl

theorem traverseNodes_single (h : Heap) (fuel : Nat) (node : NodeId) (d : Nat)
    (p : Printer) :
    traverseNodes h (fuel + 1) [node] d p =
      traverseBody (traverseNodes h fuel) (traverseNodes h fuel) h d p node := by
  rw [traverseNodes_succ, List.foldlM_cons]
  cases traverseBody (traverseNodes h fuel) (traverseNodes h fuel) h d p node <;> rfl

theorem traverseBody_visited {vt ct : List NodeId → Nat → Printer → Result} {h : Heap}
    {d : Nat} {p : Printer} {node : NodeId} (hv : node ∈ p.visited) :
    traverseBody vt ct h d p node = .ok p := by
  simp [traverseBody, hv]

theorem traverseBody_fresh {vt ct : List NodeId → Nat → Printer → Result} {h : Heap}
    {d : Nat} {p : Printer} {node : NodeId} (hv : node ∉ p.visited) :
    traverseBody vt ct h d p node =
      (visitNode vt h node d (p.mark node) >>= fun p1 =>
        if (h.GetNodes node).length > 0 then ct (h.GetNodes node) (d + 1) p1 else .ok p1) := by
  simp [traverseBody, hv]

/-! ## Shape of a successful call of a formatter -/

theorem writeBaseContracts_ok {bs : List (Option BaseContract)} {i : Nat} {p q : Printer}
    (hq : writeBaseContracts bs i p = .ok q) : ∃ s, q = p.write s := by
  induction bs generalizing i p with
  | nil =>
    simp [writeBaseContracts] at hq
    exact ⟨"", by rw [← hq, write_empty]⟩
  | cons b rest ih =>
    rcases b with _ | ⟨_ | bn⟩
    · simp [writeBaseContracts] at hq
    · simp [writeBaseContracts] at hq
    · simp only [writeBaseContracts] at hq
      obtain ⟨s, hs⟩ := ih hq
      by_cases hi : i > 0
      · refine ⟨", " ++ bn.Name ++ s, ?_⟩
        rw [hs]; simp [hi, write_write, String.append_assoc]
      · refine ⟨bn.Name ++ s, ?_⟩
        rw [hs]; simp [hi, write_write]

theorem VisitVariableDeclaration_ok {h : Heap} {Name : String} {TypeName : Option NodeId}
    {d : Nat} {p q : Printer} (hq : VisitVariableDeclaration h Name TypeName d p = .ok q) :
    ∃ t s, q = (p.mark t).write s := by
  unfold VisitVariableDeclaration at hq
  split at hq
  · next t typeName _ => exact ⟨t, _, (Except.ok.inj hq).symm⟩
  · simp at hq

theorem VisitStateVariableDeclaration_ok {h : Heap} {Name : String}
    {TypeName : Option NodeId} {d : Nat} {p q : Printer}
    (hq : VisitStateVariableDeclaration h Name TypeName d p = .ok q) :
    ∃ t s, q = (p.mark t).write s := by
  unfold VisitStateVariableDeclaration at hq
  split at hq
  · next t typeName _ => exact ⟨t, _, (Except.ok.inj hq).symm⟩
  · simp at hq

theorem VisitContractDefinition_ok {trav : List NodeId → Nat → Printer → Result}
    {Name : String} {bs : List (Option BaseContract)} {ns : List NodeId} {d : Nat}
    {p q : Printer} (hq : VisitContractDefinition trav Name bs ns d p = .ok q) :
    ∃ s1 a, trav ns (d + 1) (p.write s1) = .ok a ∧ q = a.write (Repeat "  " d ++ "\x7d\n") := by
  unfold VisitContractDefinition at hq
  obtain ⟨b, hb, hq⟩ := bind_eq_ok.mp hq
  obtain ⟨a, ha, hq⟩ := bind_eq_ok.mp hq
  obtain ⟨s, hs⟩ := writeBaseContracts_ok hb
  rw [hs, write_write, write_write] at ha
  exact ⟨_, a, ha, (Except.ok.inj hq).symm⟩

theorem VisitStructDefinition_ok {trav : List NodeId → Nat → Printer → Result}
    {Name : String} {ms : List NodeId} {d : Nat}
    {p q : Printer} (hq : VisitStructDefinition trav Name ms d p = .ok q) :
    ∃ a, trav ms (d + 1) (p.write (Repeat "  " d ++ "struct " ++ Name ++ " \x7b\n")) = .ok a ∧
      q = a.write (Repeat "  " d ++ "\x7d\n") := by
  unfold VisitStructDefinition at hq
  obtain ⟨a, ha, hq⟩ := bind_eq_ok.mp hq
  exact ⟨a, ha, (Except.ok.inj hq).symm⟩

theorem visitNode_ok {trav : List NodeId → Nat → Printer → Result} {h : Heap}
    {node : NodeId} {d : Nat} {p q : Printer} (hq : visitNode trav h node d p = .ok q) :
    VisitShape trav d (p.log node d) q := by
  unfold visitNode at hq
  cases hn : h.node node with
  | none => simp [hn] at hq
  | some n =>
    simp only [hn] at hq
    rcases n with ⟨ty, form, ch⟩
    cases ty
    case CONTRACT_DEFINITION =>
      cases form <;> simp only [reduceCtorEq] at hq
      obtain ⟨s1, a, ha, hqa⟩ := VisitContractDefinition_ok hq
      exact .block s1 _ a _ ha hqa
    case STRUCT_DEFINITION =>
      cases form <;> simp only [reduceCtorEq] at hq
      obtain ⟨a, ha, hqa⟩ := VisitStructDefinition_ok hq
      exact .block _ _ a _ ha hqa
    case VARIABLE_DECLARATION =>
      cases form
      case StateVariableDeclaration =>
        obtain ⟨t, s, hts⟩ := VisitStateVariableDeclaration_ok hq
        exact .marking t s hts
      case Parameter =>
        obtain ⟨t, s, hts⟩ := VisitVariableDeclaration_ok hq
        exact .marking t s hts
      all_goals exact .leaf "" (by rw [write_empty]; exact (Except.ok.inj hq).symm)
    case SOURCE_UNIT =>
      cases form <;> simp only [reduceCtorEq] at hq
      exact .leaf "" (by rw [write_empty]; exact (Except.ok.inj hq).symm)
    all_goals
      first
      | exact .leaf _ (Except.ok.inj hq).symm
      | (cases form <;> simp only [reduceCtorEq] at hq
         exact .leaf _ (Except.ok.inj hq).symm)

/-! ## Induction over a traversal -/

/-- Induction principle for `traverseNodes`: a relation between the state before and the
state after that is reflexive, transitive, passes from a child walk to the level above,
and is established by the marking and formatting of one fresh node, holds of every
traversal that returns. -/
theorem traverseNodes_induct (h : Heap) (R : Nat → Printer → Printer → Prop)
    (hrefl : ∀ d p, R d p p)
    (htrans : ∀ d p q r, R d p q → R d q r → R d p r)
    (hlift : ∀ d p q, R (d + 1) p q → R d p q)
    (hvisit : ∀ (trav : List NodeId → Nat → Printer → Result) (node : NodeId) (d : Nat)
      (p q : Printer), node ∉ p.visited →
      (∀ ns a b, trav ns (d + 1) a = .ok b → R (d + 1) a b) →
      visitNode trav h node d (p.mark node) = .ok q → R d p q) :
    ∀ (fuel : Nat) (nodes : List NodeId) (d : Nat) (p q : Printer),
      traverseNodes h fuel nodes d p = .ok q → R d p q := by
  intro fuel
  induction fuel with
  | zero => intro nodes d p q hq; simp [traverseNodes] at hq
  | succ fuel ih =>
    intro nodes
    induction nodes with
    | nil =>
      intro d p q hq
      simp [traverseNodes_succ] at hq
      subst hq
      exact hrefl d p
    | cons node rest ihr =>
      intro d p q hq
      rw [traverseNodes_succ, List.foldlM_cons] at hq
      obtain ⟨a, ha, hrest⟩ := bind_eq_ok.mp hq
      have hR : R d p a := by
        by_cases hv : node ∈ p.visited
        · rw [traverseBody_visited hv] at ha
          cases ha
          exact hrefl d p
        · rw [traverseBody_fresh hv] at ha
          obtain ⟨b, hb, hc⟩ := bind_eq_ok.mp ha
          have h1 := hvisit _ node d p b hv (fun ns x y hxy => ih ns (d + 1) x y hxy) hb
          split at hc
          · exact htrans _ _ _ _ h1 (hlift _ _ _ (ih _ _ _ _ hc))
          · cases hc
            exact h1
      exact htrans _ _ _ _ hR (ihr d a q (by rw [traverseNodes_succ]; exact hrest))

/-! ## The state only grows -/

theorem Ext.refl (p : Printer) : Ext p p :=
  ⟨Finset.Subset.refl _, ⟨"", by simp⟩, ⟨[], by simp⟩⟩

theorem Ext.trans {p q r : Printer} (h1 : Ext p q) (h2 : Ext q r) : Ext p r := by
  obtain ⟨v1, ⟨t1, o1⟩, ⟨n1, c1, d1, m1⟩⟩ := h1
  obtain ⟨v2, ⟨t2, o2⟩, ⟨n2, c2, d2, m2⟩⟩ := h2
  refine ⟨v1.trans v2, ⟨t1 ++ t2, by rw [o2, o1, String.append_assoc]⟩, ⟨n1 ++ n2, ?_, ?_, ?_⟩⟩
  · rw [c2, c1, List.append_assoc]
  · rw [List.map_append, List.nodup_append]
    refine ⟨d1, d2, ?_⟩
    intro x hx1 hx2
    obtain ⟨c, hc, rfl⟩ := List.mem_map.mp hx1
    obtain ⟨c2, hc2, hcc⟩ := List.mem_map.mp hx2
    exact (m2 c2 hc2).1 (hcc ▸ (m1 c hc).2)
  · intro c hc
    rcases List.mem_append.mp hc with hc | hc
    · exact ⟨(m1 c hc).1, v2 (m1 c hc).2⟩
    · exact ⟨fun hp => (m2 c hc).1 (v1 hp), (m2 c hc).2⟩

theorem Ext.write (p : Printer) (s : String) : Ext p (p.write s) :=
  ⟨Finset.Subset.refl _, ⟨s, rfl⟩, ⟨[], by simp⟩⟩

theorem Ext.mark (p : Printer) (t : NodeId) : Ext p (p.mark t) :=
  ⟨Finset.subset_insert _ _, ⟨"", by simp⟩, ⟨[], by simp⟩⟩

theorem Ext.enter {p : Printer} {node : NodeId} (d : Nat) (hv : node ∉ p.visited) :
    Ext p ((p.mark node).log node d) :=
  ⟨Finset.subset_insert _ _, ⟨"", by simp⟩, ⟨[(node, d)], by simp [hv]⟩⟩

/-- Marking and formatting one fresh node extends the state, when the traversal the
formatters call does. -/
theorem visitNode_ext {trav : List NodeId → Nat → Printer → Result} {h : Heap}
    {node : NodeId} {d : Nat} {p q : Printer} (hv : node ∉ p.visited)
    (htrav : ∀ ns a b, trav ns (d + 1) a = .ok b → Ext a b)
    (hq : visitNode trav h node d (p.mark node) = .ok q) : Ext p q := by
  have h0 := Ext.enter d hv
  cases visitNode_ok hq with
  | leaf s hs => rw [hs]; exact h0.trans (Ext.write _ _)
  | marking t s hs => rw [hs]; exact (h0.trans (Ext.mark _ _)).trans (Ext.write _ _)
  | block s1 ns a s2 ha hs =>
    rw [hs]
    exact ((h0.trans (Ext.write _ _)).trans (htrav _ _ _ ha)).trans (Ext.write _ _)

/-- Every traversal that returns has extended the state. -/
theorem traverseNodes_ext {h : Heap} {fuel : Nat} {nodes : List NodeId} {d : Nat}
    {p q : Printer} (hq : traverseNodes h fuel nodes d p = .ok q) : Ext p q :=
  traverseNodes_induct h (fun _ a b => Ext a b) (fun _ a => Ext.refl a)
    (fun _ _ _ _ h1 h2 => h1.trans h2) (fun _ _ _ hab => hab)
    (fun _ _ _ _ _ hv htrav hvis => visitNode_ext hv htrav hvis) fuel nodes d p q hq

/-- A formatter never removes a node from the emitted-set. -/
theorem visitNode_visited {trav : List NodeId → Nat → Printer → Result} {h : Heap}
    {node : NodeId} {d : Nat} {p q : Printer}
    (htrav : ∀ ns a b, trav ns (d + 1) a = .ok b → Ext a b)
    (hq : visitNode trav h node d p = .ok q) : p.visited ⊆ q.visited := by
  cases visitNode_ok hq with
  | leaf s hs => rw [hs]; simp
  | marking t s hs => rw [hs]; simp
  | block s1 ns a s2 ha hs =>
    rw [hs]
    exact (htrav _ _ _ ha).visited

/-- One turn of the loop extends the state and leaves its node emitted. -/
theorem traverseBody_ext {h : Heap} {fuel : Nat} {node : NodeId} {d : Nat} {p q : Printer}
    (hq : traverseBody (traverseNodes h fuel) (traverseNodes h fuel) h d p node = .ok q) :
    Ext p q ∧ node ∈ q.visited := by
  by_cases hv : node ∈ p.visited
  · rw [traverseBody_visited hv] at hq
    cases hq
    exact ⟨Ext.refl _, hv⟩
  · rw [traverseBody_fresh hv] at hq
    obtain ⟨b, hb, hc⟩ := bind_eq_ok.mp hq
    have h1 : Ext p b := visitNode_ext hv (fun _ _ _ hx => traverseNodes_ext hx) hb
    have h2 : node ∈ b.visited :=
      visitNode_visited (fun _ _ _ hx => traverseNodes_ext hx) hb (by simp)
    split at hc
    · have h3 := traverseNodes_ext hc
      exact ⟨h1.trans h3, h3.visited h2⟩
    · cases hc
      exact ⟨h1, h2⟩

/-- After a traversal that returns, every node of the list is in the emitted-set. -/
theorem traverseNodes_marks {h : Heap} {fuel : Nat} {nodes : List NodeId} {d : Nat}
    {p q : Printer} (hq : traverseNodes h fuel nodes d p = .ok q) :
    ∀ n ∈ nodes, n ∈ q.visited := by
  cases fuel with
  | zero => simp [traverseNodes] at hq
  | succ fuel =>
    induction nodes generalizing p with
    | nil => simp
    | cons node rest ih =>
      rw [traverseNodes_succ, List.foldlM_cons] at hq
      obtain ⟨a, ha, hrest⟩ := bind_eq_ok.mp hq
      have hrest2 : traverseNodes h (fuel + 1) rest d a = .ok q := hrest
      intro n hn
      rcases List.mem_cons.mp hn with rfl | hn
      · exact (traverseNodes_ext hrest2).visited (traverseBody_ext ha).2
      · exact ih hrest2 n hn

/-- A traversal of a list whose nodes are all emitted already changes nothing. -/
theorem traverseNodes_all_visited {h : Heap} (fuel : Nat) {nodes : List NodeId} (d : Nat)
    {p : Printer} (hall : ∀ n ∈ nodes, n ∈ p.visited) :
    traverseNodes h (fuel + 1) nodes d p = .ok p := by
  induction nodes with
  | nil => rfl
  | cons node rest ih =>
    rw [traverseNodes_succ, List.foldlM_cons,
      traverseBody_visited (hall node (List.mem_cons_self _ _))]
    exact ih (fun n hn => hall n (List.mem_cons_of_mem _ hn))

/-- The invocations logged so far are of pairwise different nodes, all of them emitted. -/
theorem Ext.calls_nodup {p q : Printer} (hpq : Ext p q)
    (hp : (p.calls.map Prod.fst).Nodup ∧ ∀ c ∈ p.calls, c.1 ∈ p.visited) :
    (q.calls.map Prod.fst).Nodup ∧ ∀ c ∈ q.calls, c.1 ∈ q.visited := by
  obtain ⟨v, _, ⟨new, hc, hd, hm⟩⟩ := hpq
  rw [hc]
  constructor
  · rw [List.map_append, List.nodup_append]
    refine ⟨hp.1, hd, ?_⟩
    intro x hx1 hx2
    obtain ⟨c, hc1, rfl⟩ := List.mem_map.mp hx1
    obtain ⟨c2, hc2, hcc⟩ := List.mem_map.mp hx2
    exact (hm c2 hc2).1 (hcc ▸ hp.2 c hc1)
  · intro c hc
    rcases List.mem_append.mp hc with hc | hc
    · exact v (hp.2 c hc)
    · exact (hm c hc).2

theorem printAll_calls_nodup (runs : List (Heap × Nat × RootNode)) (p q : Printer)
    (hp : (p.calls.map Prod.fst).Nodup ∧ ∀ c ∈ p.calls, c.1 ∈ p.visited)
    (hq : printAll runs p = .ok q) :
    (q.calls.map Prod.fst).Nodup ∧ ∀ c ∈ q.calls, c.1 ∈ q.visited := by
  induction runs generalizing p with
  | nil =>
    simp [printAll] at hq
    subst hq
    exact hp
  | cons r rest ih =>
    obtain ⟨h, fuel, root⟩ := r
    simp only [printAll] at hq
    obtain ⟨a, ha, hrest⟩ := bind_eq_ok.mp hq
    exact ih a ((traverseNodes_ext ha).calls_nodup hp) hrest

/-! ## Well-formed arenas: the traversal returns -/

theorem unvisited_mono {h : Heap} {p q : Printer} (hpq : p.visited ⊆ q.visited) :
    unvisited h q ≤ unvisited h p :=
  Finset.card_le_card (Finset.sdiff_subset_sdiff (Finset.Subset.refl _) hpq)

theorem unvisited_mark_lt {h : Heap} {p : Printer} {node : NodeId} (hn : node < h.length)
    (hv : node ∉ p.visited) : unvisited h (p.mark node) < unvisited h p := by
  apply Finset.card_lt_card
  rw [mark_visited, Finset.ssubset_iff_of_subset
    (Finset.sdiff_subset_sdiff (Finset.Subset.refl _) (Finset.subset_insert _ _))]
  exact ⟨node, by simp [hn, hv], by simp⟩

theorem unvisited_le (h : Heap) (p : Printer) : unvisited h p ≤ h.length := by
  have := Finset.card_le_card (Finset.sdiff_subset : Finset.range h.length \ p.visited ⊆ _)
  simpa [unvisited] using this

theorem writeBaseContracts_total {bs : List (Option BaseContract)}
    (hbs : bs.all basePresent = true) (i : Nat) (p : Printer) :
    ∃ s, writeBaseContracts bs i p = .ok (p.write s) := by
  induction bs generalizing i p with
  | nil => exact ⟨"", by simp [writeBaseContracts, write_empty]⟩
  | cons b rest ih =>
    simp only [List.all_cons, Bool.and_eq_true] at hbs
    rcases b with _ | ⟨_ | bn⟩
    · simp [basePresent] at hbs
    · simp [basePresent] at hbs
    · simp only [writeBaseContracts]
      obtain ⟨s, hs⟩ := ih hbs.2 (i + 1) ((if i > 0 then p.write ", " else p).write bn.Name)
      rw [hs]
      by_cases hi : i > 0
      · exact ⟨", " ++ bn.Name ++ s, by simp [hi, write_write, String.append_assoc]⟩
      · exact ⟨bn.Name ++ s, by simp [hi, write_write]⟩

theorem Heap.node_of_lt {h : Heap} {node : NodeId} (hn : node < h.length) :
    ∃ n, h.node node = some n ∧ n ∈ h := by
  refine ⟨h.get ⟨node, hn⟩, ?_, List.get_mem _ _ _⟩
  simp [Heap.node, List.get?_eq_get hn]

theorem visitNode_contract {trav : List NodeId → Nat → Printer → Result} {h : Heap}
    {node : NodeId} {Name : String} {bs : List (Option BaseContract)} {ns ch : List NodeId}
    (hn : h.node node = some ⟨.CONTRACT_DEFINITION, .Contract Name bs ns, ch⟩) (d : Nat)
    (p : Printer) :
    visitNode trav h node d p = VisitContractDefinition trav Name bs ns d (p.log node d) := by
  simp [visitNode, hn]

theorem visitNode_struct {trav : List NodeId → Nat → Printer → Result} {h : Heap}
    {node : NodeId} {Name : String} {ms ch : List NodeId}
    (hn : h.node node = some ⟨.STRUCT_DEFINITION, .StructDefinition Name ms, ch⟩) (d : Nat)
    (p : Printer) :
    visitNode trav h node d p = VisitStructDefinition trav Name ms d (p.log node d) := by
  simp [visitNode, hn]

theorem visitNode_stateVariable {trav : List NodeId → Nat → Printer → Result} {h : Heap}
    {node : NodeId} {Name : String} {t : Option NodeId} {ch : List NodeId}
    (hn : h.node node = some ⟨.VARIABLE_DECLARATION, .StateVariableDeclaration Name t, ch⟩)
    (d : Nat) (p : Printer) :
    visitNode trav h node d p = VisitStateVariableDeclaration h Name t d (p.log node d) := by
  simp [visitNode, hn]

theorem visitNode_parameter {trav : List NodeId → Nat → Printer → Result} {h : Heap}
    {node : NodeId} {Name : String} {t : Option NodeId} {ch : List NodeId}
    (hn : h.node node = some ⟨.VARIABLE_DECLARATION, .Parameter Name t, ch⟩)
    (d : Nat) (p : Printer) :
    visitNode trav h node d p = VisitVariableDeclaration h Name t d (p.log node d) := by
  simp [visitNode, hn]

theorem VisitVariableDeclaration_eq {h : Heap} {t : NodeId} {T : String}
    (ht : typeNameName h (some t) = some T) (Name : String) (d : Nat) (p : Printer) :
    VisitVariableDeclaration h Name (some t) d p =
      .ok ((p.mark t).write (Repeat "  " d ++ T ++ " " ++ Name ++ "; \n")) := by
  simp [VisitVariableDeclaration, ht]

theorem VisitStateVariableDeclaration_eq {h : Heap} {t : NodeId} {T : String}
    (ht : typeNameName h (some t) = some T) (Name : String) (d : Nat) (p : Printer) :
    VisitStateVariableDeclaration h Name (some t) d p =
      .ok ((p.mark t).write (Repeat "  " d ++ T ++ " " ++ Name ++ "; \n")) := by
  simp [VisitStateVariableDeclaration, ht]

theorem typeNameName_isSome {h : Heap} {t : Option NodeId}
    (ht : (typeNameName h t).isSome = true) :
    ∃ t0 T, t = some t0 ∧ typeNameName h (some t0) = some T := by
  cases t with
  | none => simp [typeNameName] at ht
  | some t0 =>
    obtain ⟨T, hT⟩ := Option.isSome_iff_exists.mp ht
    exact ⟨t0, T, rfl, hT⟩

/-- In a well-formed arena a formatter returns whenever the traversal it calls returns on
lists of nodes of the arena. -/
theorem visitNode_total {trav : List NodeId → Nat → Printer → Result} {h : Heap}
    (hwf : h.WellFormed) {node : NodeId} (hn : node < h.length) (d : Nat) (p : Printer)
    (htrav : ∀ ns a, (∀ n ∈ ns, n < h.length) → a.visited = p.visited →
      ∃ b, trav ns (d + 1) a = .ok b) :
    ∃ q, visitNode trav h node d p = .ok q := by
  obtain ⟨n, hnode, hmem⟩ := Heap.node_of_lt hn
  have hw := hwf n hmem
  rcases n with ⟨ty, form, ch⟩
  cases ty <;> cases form <;>
    simp only [Node.wellFormed, Bool.and_eq_true, Bool.and_false, Bool.false_eq_true,
      and_false, and_true, Bool.and_true] at hw
  case CONTRACT_DEFINITION.Contract Name bs ns =>
    rw [visitNode_contract hnode]
    obtain ⟨s, hs⟩ := writeBaseContracts_total hw.2.1 0
      ((p.log node d).write (Repeat "  " d ++ "Contract " ++ Name))
    obtain ⟨b, hb⟩ := htrav ns (((p.log node d).write (Repeat "  " d ++ "Contract " ++ Name)).write s
      |>.write " \x7b\n") (by simpa using hw.2.2) rfl
    exact ⟨b.write (Repeat "  " d ++ "\x7d\n"), by simp [VisitContractDefinition, hs, hb]⟩
  case STRUCT_DEFINITION.StructDefinition Name ms =>
    rw [visitNode_struct hnode]
    obtain ⟨b, hb⟩ := htrav ms ((p.log node d).write (Repeat "  " d ++ "struct " ++ Name ++ " \x7b\n"))
      (by simpa using hw.2) rfl
    exact ⟨b.write (Repeat "  " d ++ "\x7d\n"), by simp [VisitStructDefinition, hb]⟩
  case VARIABLE_DECLARATION.StateVariableDeclaration Name t =>
    obtain ⟨t0, T, rfl, hT⟩ := typeNameName_isSome hw.2
    rw [visitNode_stateVariable hnode, VisitStateVariableDeclaration_eq hT]
    exact ⟨_, rfl⟩
  case VARIABLE_DECLARATION.Parameter Name t =>
    obtain ⟨t0, T, rfl, hT⟩ := typeNameName_isSome hw.2
    rw [visitNode_parameter hnode, VisitVariableDeclaration_eq hT]
    exact ⟨_, rfl⟩
  all_goals
    simp only [visitNode, hnode]
    exact ⟨_, rfl⟩

/-- In a well-formed arena a traversal of nodes of the arena returns when its budget
exceeds the number of nodes not yet emitted. -/
theorem traverseNodes_total {h : Heap} (hwf : h.WellFormed) :
    ∀ (fuel : Nat) (nodes : List NodeId) (d : Nat) (p : Printer),
      (∀ n ∈ nodes, n < h.length) → unvisited h p < fuel →
      ∃ q, traverseNodes h fuel nodes d p = .ok q := by
  intro fuel
  induction fuel with
  | zero => intro nodes d p _ hf; omega
  | succ fuel ih =>
    intro nodes
    induction nodes with
    | nil => intro d p _ _; exact ⟨p, rfl⟩
    | cons node rest ihr =>
      intro d p hin hf
      have hnode : node < h.length := hin node (List.mem_cons_self _ _)
      have hrest : ∀ n ∈ rest, n < h.length := fun n hn => hin n (List.mem_cons_of_mem _ hn)
      have hstep : ∃ a, traverseBody (traverseNodes h fuel) (traverseNodes h fuel) h d p node
          = .ok a := by
        by_cases hv : node ∈ p.visited
        · exact ⟨p, traverseBody_visited hv⟩
        · have hlt : unvisited h (p.mark node) < fuel := by
            have := unvisited_mark_lt hnode hv
            omega
          have htr : ∀ ns a, (∀ n ∈ ns, n < h.length) → a.visited = (p.mark node).visited →
              ∃ b, traverseNodes h fuel ns (d + 1) a = .ok b := by
            intro ns a hns ha
            have : unvisited h a = unvisited h (p.mark node) := by simp [unvisited, ha]
            exact ih ns (d + 1) a hns (by omega)
          obtain ⟨b, hb⟩ := visitNode_total hwf hnode d (p.mark node) htr
          rw [traverseBody_fresh hv, hb]
          simp only [ok_bind]
          split
          · obtain ⟨nn, hnn, hmem⟩ := Heap.node_of_lt hnode
            have hw := hwf nn hmem
            have hch : ∀ c ∈ h.GetNodes node, c < h.length := by
              simp only [Heap.GetNodes, hnn]
              simp only [Node.wellFormed, Bool.and_eq_true, List.all_eq_true,
                decide_eq_true_eq] at hw
              exact hw.1
            have hsub : (p.mark node).visited ⊆ b.visited :=
              visitNode_visited (fun _ _ _ hx => traverseNodes_ext hx) hb
            exact ih _ (d + 1) b hch (lt_of_le_of_lt (unvisited_mono hsub) hlt)
          · exact ⟨b, rfl⟩
      obtain ⟨a, ha⟩ := hstep
      have hext := (traverseBody_ext ha).1
      obtain ⟨q, hq⟩ := ihr d a hrest (lt_of_le_of_lt (unvisited_mono hext.visited) hf)
      refine ⟨q, ?_⟩
      rw [traverseNodes_succ, List.foldlM_cons, ha]
      exact hq

/-! ## Arenas that agree position by position -/

theorem Heap.agree_node {h1 h2 : Heap} (hag : Heap.agree h1 h2 = true) (i : NodeId) :
    (h1.node i = none ∧ h2.node i = none) ∨
      ∃ n1 n2, h1.node i = some n1 ∧ h2.node i = some n2 ∧ Node.agree h1 h2 n1 n2 = true := by
  simp only [Heap.agree, Bool.and_eq_true, decide_eq_true_eq, List.all_eq_true] at hag
  obtain ⟨hlen, hall⟩ := hag
  by_cases hi : i < h1.length
  · right
    have hi2 : i < h2.length := hlen ▸ hi
    refine ⟨h1.get ⟨i, hi⟩, h2.get ⟨i, hi2⟩, ?_, ?_, ?_⟩
    · simp [Heap.node, List.get?_eq_get hi]
    · simp [Heap.node, List.get?_eq_get hi2]
    · apply hall (h1.get ⟨i, hi⟩, h2.get ⟨i, hi2⟩)
      have hz : (List.zip h1 h2).get? i = some (h1.get ⟨i, hi⟩, h2.get ⟨i, hi2⟩) := by
        rw [List.get?_zip_eq_some]
        simp [List.get?_eq_get hi, List.get?_eq_get hi2]
      exact List.get?_mem hz
  · left
    have hi1 : h1.length ≤ i := Nat.le_of_not_lt hi
    have hi2 : h2.length ≤ i := le_trans (le_of_eq hlen.symm) hi1
    exact ⟨List.get?_eq_none.mpr hi1, List.get?_eq_none.mpr hi2⟩

theorem visitNode_agree {h1 h2 : Heap} (hag : Heap.agree h1 h2 = true)
    (trav : List NodeId → Nat → Printer → Result) (node : NodeId) (d : Nat) (p : Printer) :
    visitNode trav h1 node d p = visitNode trav h2 node d p := by
  rcases Heap.agree_node hag node with ⟨e1, e2⟩ | ⟨n1, n2, e1, e2, hn⟩
  · simp [visitNode, e1, e2]
  · rcases n1 with ⟨ty1, f1, c1⟩
    rcases n2 with ⟨ty2, f2, c2⟩
    simp only [Node.agree, Bool.and_eq_true, decide_eq_true_eq] at hn
    obtain ⟨⟨rfl, rfl⟩, hf⟩ := hn
    cases f1 <;> cases f2 <;>
      simp only [Form.agree, Bool.and_eq_true, decide_eq_true_eq, Bool.false_eq_true] at hf
    case StateVariableDeclaration.StateVariableDeclaration =>
      obtain ⟨⟨rfl, rfl⟩, ht⟩ := hf
      cases ty1 <;> simp [visitNode, e1, e2, ht, VisitStateVariableDeclaration]
    case Parameter.Parameter =>
      obtain ⟨⟨rfl, rfl⟩, ht⟩ := hf
      cases ty1 <;> simp [visitNode, e1, e2, ht, VisitVariableDeclaration]
    all_goals
      cases ty1 <;>
        simp [visitNode, e1, e2, hf, VisitFunctionDefinition, visitFunctionCall]

theorem Heap.agree_GetNodes {h1 h2 : Heap} (hag : Heap.agree h1 h2 = true) (node : NodeId) :
    h1.GetNodes node = h2.GetNodes node := by
  rcases Heap.agree_node hag node with ⟨e1, e2⟩ | ⟨n1, n2, e1, e2, hn⟩
  · simp [Heap.GetNodes, e1, e2]
  · simp only [Node.agree, Bool.and_eq_true, decide_eq_true_eq] at hn
    simp [Heap.GetNodes, e1, e2, hn.1.2]

/-- Arenas that agree position by position are traversed alike. -/
theorem traverseNodes_agree {h1 h2 : Heap} (hag : Heap.agree h1 h2 = true) (fuel : Nat) :
    traverseNodes h1 fuel = traverseNodes h2 fuel := by
  induction fuel with
  | zero => rfl
  | succ k ih =>
    funext nodes d p
    rw [traverseNodes_succ, traverseNodes_succ, ih]
    congr 1
    funext q node
    simp only [traverseBody, visitNode_agree hag, Heap.agree_GetNodes hag]

/-! ## Variable declarations -/

theorem typeNameName_of_node {h : Heap} {t : NodeId} {nt : Node} {T : String}
    (ht : h.node t = some nt) (hT : nt.form = .TypeName T) :
    typeNameName h (some t) = some T := by
  simp [typeNameName, ht, hT]

/-- The formatter of a state-level or parameter-level declaration with a type node. -/
theorem visitNode_variable {trav : List NodeId → Nat → Printer → Result} {h : Heap}
    {v t : NodeId} {nv : Node} {n T : String}
    (hv : h.node v = some nv) (hk : nv.GetType = .VARIABLE_DECLARATION)
    (hf : nv.form = .StateVariableDeclaration n (some t) ∨ nv.form = .Parameter n (some t))
    (hT : typeNameName h (some t) = some T) (d : Nat) (p : Printer) :
    visitNode trav h v d p =
      .ok (((p.log v d).mark t).write (Repeat "  " d ++ T ++ " " ++ n ++ "; \n")) := by
  rcases nv with ⟨ty, form, ch⟩
  simp only at hk hf
  subst hk
  rcases hf with rfl | rfl
  · rw [visitNode_stateVariable hv, VisitStateVariableDeclaration_eq hT]
  · rw [visitNode_parameter hv, VisitVariableDeclaration_eq hT]

/-- One turn of the loop on a fresh declaration whose child list holds nothing but its
type node: one line, and the type node is skipped. -/
theorem traverseBody_variable {h : Heap} {v t : NodeId} {nv : Node} {n T : String}
    (hv : h.node v = some nv) (hk : nv.GetType = .VARIABLE_DECLARATION)
    (hf : nv.form = .StateVariableDeclaration n (some t) ∨ nv.form = .Parameter n (some t))
    (hT : typeNameName h (some t) = some T) (hch : ∀ c ∈ nv.GetNodes, c = t)
    (fuel d : Nat) {p : Printer} (hfresh : v ∉ p.visited) :
    traverseBody (traverseNodes h (fuel + 1)) (traverseNodes h (fuel + 1)) h d p v =
      .ok ((((p.mark v).log v d).mark t).write (Repeat "  " d ++ T ++ " " ++ n ++ "; \n")) := by
  rw [traverseBody_fresh hfresh, visitNode_variable hv hk hf hT]
  simp only [ok_bind]
  split
  · apply traverseNodes_all_visited
    intro c hc
    have hc2 : c ∈ nv.GetNodes := by simpa [Heap.GetNodes, hv] using hc
    rw [hch c hc2]
    simp
  · rfl

/-- A traversal from a state in which a node is emitted logs no invocation for it. -/
theorem traverseNodes_no_call {h : Heap} {fuel : Nat} {nodes : List NodeId} {d : Nat}
    {q r : Printer} {t : NodeId} (ht : t ∈ q.visited)
    (hr : traverseNodes h fuel nodes d q = .ok r) :
    t ∈ r.visited ∧ r.calls.filter (fun c => c.1 = t) = q.calls.filter (fun c => c.1 = t) := by
  obtain ⟨hvis, _, ⟨new, hc, _, hm⟩⟩ := traverseNodes_ext hr
  refine ⟨hvis ht, ?_⟩
  rw [hc, List.filter_append]
  have hnil : new.filter (fun c => c.1 = t) = [] := by
    rw [List.filter_eq_nil_iff]
    intro c hcn
    have := (hm c hcn).1
    simp only [decide_eq_true_eq]
    intro hct
    exact this (hct ▸ ht)
  rw [hnil, List.append_nil]

/-! ## Contracts and structs -/

theorem foldl_append_acc (acc : String) (xs : List String) :
    List.foldl (fun r s => r ++ s) acc xs = acc ++ List.foldl (fun r s => r ++ s) "" xs := by
  induction xs generalizing acc with
  | nil => simp
  | cons x rest ih =>
    rw [List.foldl_cons, ih, List.foldl_cons, ih ("" ++ x)]
    simp [String.append_assoc]

theorem join_nil : String.join [] = "" := rfl

theorem join_cons (x : String) (xs : List String) :
    String.join (x :: xs) = x ++ String.join xs := by
  simp only [String.join, List.foldl_cons]
  rw [foldl_append_acc]
  simp

theorem intercalate_go (acc sep : String) (xs : List String) :
    String.intercalate.go acc sep xs = acc ++ String.join (xs.map (fun x => sep ++ x)) := by
  induction xs generalizing acc with
  | nil => simp [String.intercalate.go, join_nil]
  | cons x rest ih =>
    rw [String.intercalate.go, ih, List.map_cons, join_cons]
    simp [String.append_assoc]

theorem writeBaseContracts_tail (bs : List String) (i : Nat) (hi : 0 < i) (p : Printer) :
    writeBaseContracts (basesOf bs) i p =
      .ok (p.write (String.join (bs.map (fun b => ", " ++ b)))) := by
  induction bs generalizing i p with
  | nil => simp [basesOf, writeBaseContracts, join_nil, write_empty]
  | cons b rest ih =>
    have := ih (i + 1) (Nat.succ_pos i) ((p.write ", ").write b)
    simp only [basesOf, List.map_cons, writeBaseContracts, hi, if_true] at this ⊢
    rw [this, join_cons]
    simp [write_write, String.append_assoc]

/-- The loop over base contracts that are all present appends their names joined by a
comma and a space. -/
theorem writeBaseContracts_names (bs : List String) (p : Printer) :
    writeBaseContracts (basesOf bs) 0 p = .ok (p.write (", ".intercalate bs)) := by
  cases bs with
  | nil => simp [basesOf, writeBaseContracts, String.intercalate, write_empty]
  | cons b rest =>
    have := writeBaseContracts_tail rest 1 Nat.one_pos (p.write b)
    simp only [basesOf, List.map_cons, writeBaseContracts] at this ⊢
    simp only [gt_iff_lt, Nat.lt_irrefl, if_false, Nat.zero_add]
    rw [this, String.intercalate, intercalate_go, write_write]

/-- The formatter of a contract whose base contracts are all present. -/
theorem visitNode_contract_names {trav : List NodeId → Nat → Printer → Result} {h : Heap}
    {c : NodeId} {n : String} {bs : List String} {ns ch : List NodeId}
    (hc : h.node c = some ⟨.CONTRACT_DEFINITION, .Contract n (basesOf bs) ns, ch⟩) (d : Nat)
    (p : Printer) :
    visitNode trav h c d p =
      (trav ns (d + 1)
          ((p.log c d).write
            (spaces (2 * d) ++ "Contract " ++ n ++ ", ".intercalate bs ++ " \x7b\n")) >>=
        fun a => .ok (a.write (spaces (2 * d) ++ "\x7d\n"))) := by
  rw [visitNode_contract hc]
  simp only [VisitContractDefinition, writeBaseContracts_names, ok_bind, write_write,
    spaces, Repeat_spaces]
  rfl

/-- The struct-member traversal is the general traversal. -/
theorem traverseStructMembers_eq (h : Heap) (fuel : Nat) :
    traverseStructMembers h fuel = traverseNodes h fuel := by
  induction fuel with
  | zero => rfl
  | succ k ih =>
    funext ms d p
    rw [traverseNodes_succ, traverseStructMembers, ih]

/-- The traversal of pairwise different, not yet emitted fields gives one line for each,
in order. -/
theorem traverseNodes_fields {h : Heap} (fuel d : Nat) (fs : List Field) (p : Printer)
    (hnd : (fs.map Field.node).Nodup)
    (hfs : ∀ f ∈ fs, f.node ∉ p.visited ∧ IsField h f) :
    ∃ q, traverseNodes h (fuel + 2) (fs.map Field.node) d p = .ok q ∧
      q.output = p.output ++ String.join (fs.map (fun f => variableLine d f.T f.n)) ∧
      p.visited ⊆ q.visited := by
  induction fs generalizing p with
  | nil => exact ⟨p, rfl, by simp [join_nil], Finset.Subset.refl _⟩
  | cons f rest ih =>
    obtain ⟨hfresh, nm, nt, hm, hk, hform, hch, ht, hT⟩ := hfs f (List.mem_cons_self _ _)
    have hTn := typeNameName_of_node ht hT
    have hstep := traverseBody_variable hm hk (Or.inr hform) hTn hch fuel d hfresh
    rw [List.map_cons, List.nodup_cons] at hnd
    obtain ⟨q, hq, hout, hsub⟩ := ih
      ((((p.mark f.node).log f.node d).mark f.t).write
        (Repeat "  " d ++ f.T ++ " " ++ f.n ++ "; \n")) hnd.2 (by
        intro g hg
        obtain ⟨hgfresh, hgf⟩ := hfs g (List.mem_cons_of_mem _ hg)
        refine ⟨?_, hgf⟩
        obtain ⟨gm, gt, hgm, _, hgform, _, _, _⟩ := hgf
        simp only [write_visited, mark_visited, log_visited, Finset.mem_insert, not_or]
        refine ⟨?_, ?_, hgfresh⟩
        · intro heq
          rw [heq, ht] at hgm
          cases hgm
          rw [hT] at hgform
          cases hgform
        · intro heq
          exact hnd.1 (heq ▸ List.mem_map_of_mem _ hg))
    refine ⟨q, ?_, ?_, ?_⟩
    · rw [List.map_cons, traverseNodes_succ, List.foldlM_cons, hstep]
      exact hq
    · rw [hout, List.map_cons, join_cons]
      simp [variableLine, spaces, Repeat_spaces, String.append_assoc]
    · intro x hx
      apply hsub
      simp [hx]

/-! ## Lines and indentation -/

theorem noNewline_append {a b : String} (ha : noNewline a) (hb : noNewline b) :
    noNewline (a ++ b) := by
  simp only [noNewline, String.data_append, List.mem_append, not_or] at *
  exact ⟨ha, hb⟩

theorem LineBody.append_nonempty {a b : String} (ha : LineBody a) (hne : a ≠ "")
    (hb : noNewline b) : LineBody (a ++ b) := by
  refine ⟨noNewline_append ha.1 hb, ?_⟩
  have hd : a.data ≠ [] := fun hnil => hne (String.ext hnil)
  rw [String.data_append]
  cases hda : a.data with
  | nil => exact absurd hda hd
  | cons c cs =>
    have := ha.2
    rw [hda] at this
    simpa using this

theorem LineBody.append {a b : String} (ha : LineBody a) (hb : LineBody b) :
    LineBody (a ++ b) := by
  by_cases hne : a = ""
  · subst hne
    simpa using hb
  · exact ha.append_nonempty hne hb.1

theorem noNewline_inferVisibility (v : Visibility) : noNewline (inferVisibility v) := by
  cases v
  case OTHER code => show noNewline "unknown"; decide
  all_goals decide

theorem lineText_eq (d : Nat) (body : String) :
    Repeat "  " d ++ body ++ "\n" = lineText d body := by
  simp [lineText, spaces, Repeat_spaces]

theorem writeBaseContracts_noNewline {bs : List (Option BaseContract)} {i : Nat}
    {p q : Printer} (hbs : ∀ s ∈ bs.filterMap baseNameOf, noNewline s)
    (hq : writeBaseContracts bs i p = .ok q) : ∃ s, noNewline s ∧ q = p.write s := by
  induction bs generalizing i p with
  | nil =>
    simp [writeBaseContracts] at hq
    exact ⟨"", by decide, by rw [← hq, write_empty]⟩
  | cons b rest ih =>
    rcases b with _ | ⟨_ | bn⟩
    · simp [writeBaseContracts] at hq
    · simp [writeBaseContracts] at hq
    · simp only [writeBaseContracts] at hq
      have hbn : noNewline bn.Name := hbs bn.Name (by simp [baseNameOf])
      have hrest : ∀ s ∈ rest.filterMap baseNameOf, noNewline s := by
        intro s hs
        exact hbs s (by simp only [List.filterMap_cons]; split <;> simp [hs])
      obtain ⟨s, hsn, hs⟩ := ih hrest hq
      by_cases hi : i > 0
      · refine ⟨", " ++ bn.Name ++ s, ?_, ?_⟩
        · exact noNewline_append (noNewline_append (by decide) hbn) hsn
        · rw [hs]; simp [hi, write_write, String.append_assoc]
      · refine ⟨bn.Name ++ s, noNewline_append hbn hsn, ?_⟩
        rw [hs]; simp [hi, write_write]

theorem typeNameName_mem {h : Heap} {t : Option NodeId} {T : String}
    (hT : typeNameName h t = some T) : ∃ n ∈ h, n.form = .TypeName T := by
  unfold typeNameName at hT
  split at hT
  · cases hT
  · next t0 =>
    split at hT
    · next n hn =>
      split at hT
      · next Name hform =>
        cases hT
        exact ⟨n, List.get?_mem hn, hform⟩
      · cases hT
    · cases hT

theorem calleeName_cases (h : Heap) (e : Option NodeId) :
    calleeName h e = "" ∨ ∃ n ∈ h, n.form = .PrimaryExpression (calleeName h e) := by
  unfold calleeName
  split
  · exact Or.inl rfl
  · split
    · next n hn =>
      split
      · next Name hform => exact Or.inr ⟨n, List.get?_mem hn, hform⟩
      · exact Or.inl rfl
    · exact Or.inl rfl

theorem Heap.LineSafe.texts {h : Heap} (hsafe : h.LineSafe) {n : Node} (hn : n ∈ h) :
    n.GetType ≠ .IDENTIFIER ∧ (∀ s ∈ kindTexts n.GetType, LineBody s) ∧
      (∀ s ∈ n.form.texts, LineBody s) ∧ n.form.typeNamed = true := by
  have := hsafe n hn
  simp only [Node.lineSafe, Bool.and_eq_true, decide_eq_true_eq, List.all_eq_true,
    List.mem_append] at this
  exact ⟨this.1.1, fun s hs => this.1.2 s (Or.inl hs), fun s hs => this.1.2 s (Or.inr hs),
    this.2⟩

theorem LineBody_typeName {h : Heap} (hsafe : h.LineSafe) {t : Option NodeId} {T : String}
    (hT : typeNameName h t = some T) : LineBody T ∧ T ≠ "" := by
  obtain ⟨n, hn, hform⟩ := typeNameName_mem hT
  obtain ⟨_, _, htx, htn⟩ := hsafe.texts hn
  rw [hform] at htx htn
  exact ⟨htx T (by simp [Form.texts]), by simpa [Form.typeNamed] using htn⟩

theorem LineBody_calleeName {h : Heap} (hsafe : h.LineSafe) (e : Option NodeId) :
    LineBody (calleeName h e) := by
  rcases calleeName_cases h e with h0 | ⟨n, hn, hform⟩
  · rw [h0]; decide
  · obtain ⟨_, _, htx, _⟩ := hsafe.texts hn
    rw [hform] at htx
    exact htx _ (by simp [Form.texts])

theorem closing_line (d : Nat) : Repeat "  " d ++ "\x7d\n" = lineText d "\x7d" := by
  rw [← lineText_eq, String.append_assoc]
  rfl

theorem variable_line (d : Nat) (T Name : String) :
    Repeat "  " d ++ T ++ " " ++ Name ++ "; \n" = lineText d (T ++ (" " ++ Name ++ "; ")) := by
  rw [← lineText_eq]
  simp only [String.append_assoc]
  rfl

theorem LineBody_variable {T Name : String} (hT : LineBody T ∧ T ≠ "") (hN : LineBody Name) :
    LineBody (T ++ (" " ++ Name ++ "; ")) :=
  hT.1.append_nonempty hT.2
    (noNewline_append (noNewline_append (by decide) hN.1) (by decide))

/-- In a line-safe arena every formatter writes whole lines at the depth of its node. -/
theorem visitNode_lines {trav : List NodeId → Nat → Printer → Result} {h : Heap}
    (hsafe : h.LineSafe) {node : NodeId} {d : Nat} {p q : Printer}
    (hq : visitNode trav h node d p = .ok q) : LineShape trav d (p.log node d) q := by
  cases hn : h.node node with
  | none => simp [visitNode, hn] at hq
  | some n =>
    obtain ⟨hid, hkt, htx, -⟩ := hsafe.texts (List.get?_mem hn)
    rcases n with ⟨ty, form, ch⟩
    simp only at hid hkt htx
    cases ty
    case IDENTIFIER => exact absurd rfl hid
    case OTHER name =>
      have hb : LineBody name := hkt name (by simp [kindTexts])
      have hq2 : q = (p.log node d).write
          (Repeat "  " d ++ "Unknown Node: " ++ name ++ "\n") := by
        simp only [visitNode, hn] at hq
        exact (Except.ok.inj hq).symm
      refine .leaf ("Unknown Node: " ++ name)
        (LineBody.append_nonempty (by decide) (by decide) hb.1) ?_
      rw [hq2, ← lineText_eq, String.append_assoc (Repeat "  " d)]
    case SOURCE_UNIT =>
      cases form <;> simp only [visitNode, hn, reduceCtorEq] at hq
      exact .silent (Except.ok.inj hq).symm
    case PRAGMA_DIRECTIVE =>
      cases form <;> simp only [visitNode, hn, reduceCtorEq] at hq
      case Pragma Text =>
        refine .leaf Text (htx Text (by simp [Form.texts])) ?_
        rw [← lineText_eq]
        exact (Except.ok.inj hq).symm
    case IMPORT_DIRECTIVE =>
      cases form <;> simp only [visitNode, hn, reduceCtorEq] at hq
      case Import Name =>
        have hb := htx Name (by simp [Form.texts])
        refine .leaf ("Import: " ++ Name)
          (LineBody.append_nonempty (by decide) (by decide) hb.1) ?_
        rw [← lineText_eq, ← String.append_assoc (Repeat "  " d)]
        exact (Except.ok.inj hq).symm
    case MODIFIER_DEFINITION =>
      cases form <;> simp only [visitNode, hn, reduceCtorEq] at hq
      case ModifierDefinition Name =>
        have hb := htx Name (by simp [Form.texts])
        refine .leaf ("Modifier: " ++ Name)
          (LineBody.append_nonempty (by decide) (by decide) hb.1) ?_
        rw [← lineText_eq, ← String.append_assoc (Repeat "  " d)]
        exact (Except.ok.inj hq).symm
    case ELEMENTARY_TYPE_NAME =>
      cases form <;> simp only [visitNode, hn, reduceCtorEq] at hq
      case TypeName Name =>
        have hb := htx Name (by simp [Form.texts])
        refine .leaf ("TypeName: " ++ Name)
          (LineBody.append_nonempty (by decide) (by decide) hb.1) ?_
        rw [← lineText_eq, ← String.append_assoc (Repeat "  " d)]
        exact (Except.ok.inj hq).symm
    case FUNCTION_DEFINITION =>
      cases form <;> simp only [visitNode, hn, reduceCtorEq] at hq
      case Function Name vis ps rs =>
        have hb := htx Name (by simp [Form.texts])
        refine .leaf ("function " ++ (Name ++ ("() " ++ (inferVisibility vis ++ " \x7b"))))
          (LineBody.append_nonempty (by decide) (by decide)
            (noNewline_append hb.1 (noNewline_append (by decide)
              (noNewline_append (noNewline_inferVisibility vis) (by decide))))) ?_
        rw [← lineText_eq, ← (Except.ok.inj hq)]
        simp only [VisitFunctionDefinition, String.append_assoc]
        rfl
    case FUNCTION_CALL =>
      cases form <;> simp only [visitNode, hn, reduceCtorEq] at hq
      case FunctionCall e args =>
        refine .leaf (calleeName h e ++ "(args) ")
          ((LineBody_calleeName hsafe e).append (by decide)) ?_
        rw [← lineText_eq, ← (Except.ok.inj hq)]
        simp only [visitFunctionCall, String.append_assoc]
        rfl
    case VARIABLE_DECLARATION =>
      cases form
      case StateVariableDeclaration Name t =>
        have hb := htx Name (by simp [Form.texts])
        rw [visitNode_stateVariable hn] at hq
        unfold VisitStateVariableDeclaration at hq
        split at hq
        · next _ _ t0 T hT =>
          refine .marking t0 _ (LineBody_variable (LineBody_typeName hsafe hT) hb) ?_
          rw [← variable_line]
          exact (Except.ok.inj hq).symm
        · cases hq
      case Parameter Name t =>
        have hb := htx Name (by simp [Form.texts])
        rw [visitNode_parameter hn] at hq
        unfold VisitVariableDeclaration at hq
        split at hq
        · next _ _ t0 T hT =>
          refine .marking t0 _ (LineBody_variable (LineBody_typeName hsafe hT) hb) ?_
          rw [← variable_line]
          exact (Except.ok.inj hq).symm
        · cases hq
      all_goals
        simp only [visitNode, hn] at hq
        exact .silent (Except.ok.inj hq).symm
    case STRUCT_DEFINITION =>
      cases form <;> simp only [visitNode, hn, reduceCtorEq] at hq
      case StructDefinition Name ms =>
        have hb := htx Name (by simp [Form.texts])
        obtain ⟨a, ha, hqa⟩ := VisitStructDefinition_ok hq
        refine .block ("struct " ++ (Name ++ " \x7b")) ms a
          (LineBody.append_nonempty (by decide) (by decide)
            (noNewline_append hb.1 (by decide))) ?_ ?_
        · rw [← lineText_eq]
          simp only [String.append_assoc] at ha ⊢
          exact ha
        · rw [← closing_line]
          exact hqa
    case CONTRACT_DEFINITION =>
      cases form <;> simp only [visitNode, hn, reduceCtorEq] at hq
      case Contract Name bs ns =>
        have hb := htx Name (by simp [Form.texts])
        unfold VisitContractDefinition at hq
        obtain ⟨b, hbw, hq⟩ := bind_eq_ok.mp hq
        obtain ⟨a, ha, hq⟩ := bind_eq_ok.mp hq
        obtain ⟨s, hsn, hs⟩ := writeBaseContracts_noNewline
          (fun x hx => (htx x (by simp only [Form.texts]; exact List.mem_cons_of_mem _ hx)).1) hbw
        refine .block ("Contract " ++ (Name ++ (s ++ " \x7b"))) ns a
          (LineBody.append_nonempty (by decide) (by decide)
            (noNewline_append hb.1 (noNewline_append hsn (by decide)))) ?_ ?_
        · rw [hs, write_write, write_write] at ha
          rw [← lineText_eq]
          simp only [String.append_assoc] at ha ⊢
          exact ha
        · rw [← closing_line]
          exact (Except.ok.inj hq).symm

theorem join_append (xs ys : List String) :
    String.join (xs ++ ys) = String.join xs ++ String.join ys := by
  induction xs with
  | nil => simp [join_nil]
  | cons x rest ih => rw [List.cons_append, join_cons, join_cons, ih, String.append_assoc]

theorem render_nil : render [] = "" := rfl

theorem render_cons (l : Line) (ls : List Line) :
    render (l :: ls) = lineText l.depth l.body ++ render ls := by
  simp [render, join_cons]

theorem render_append (xs ys : List Line) : render (xs ++ ys) = render xs ++ render ys := by
  simp [render, join_append]

theorem Ext.calls_subset {p q : Printer} (hpq : Ext p q) {c : NodeId × Nat}
    (hc : c ∈ p.calls) : c ∈ q.calls := by
  obtain ⟨new, hn, _⟩ := hpq.calls
  rw [hn]
  exact List.mem_append_left _ hc

theorem Lined.same (d : Nat) (p : Printer) : Lined d p p :=
  ⟨Ext.refl p, [], by simp [render_nil], by simp⟩

theorem Lined.chain {d : Nat} {p q r : Printer} (h1 : Lined d p q) (h2 : Lined d q r) :
    Lined d p r := by
  obtain ⟨e1, l1, o1, m1⟩ := h1
  obtain ⟨e2, l2, o2, m2⟩ := h2
  refine ⟨e1.trans e2, l1 ++ l2, ?_, ?_⟩
  · rw [o2, o1, render_append, String.append_assoc]
  · intro l hl
    rcases List.mem_append.mp hl with hl | hl
    · exact ⟨(m1 l hl).1, (m1 l hl).2.1, e2.calls_subset (m1 l hl).2.2⟩
    · exact m2 l hl

theorem Lined.lift {d : Nat} {p q : Printer} (h1 : Lined (d + 1) p q) : Lined d p q := by
  obtain ⟨e1, l1, o1, m1⟩ := h1
  exact ⟨e1, l1, o1, fun l hl => ⟨(m1 l hl).1, by have := (m1 l hl).2.1; omega, (m1 l hl).2.2⟩⟩

/-- Marking and formatting one fresh node of a line-safe arena appends whole lines. -/
theorem visitNode_lined {trav : List NodeId → Nat → Printer → Result} {h : Heap}
    (hsafe : h.LineSafe) {node : NodeId} {d : Nat} {p q : Printer} (hv : node ∉ p.visited)
    (htrav : ∀ ns a b, trav ns (d + 1) a = .ok b → Lined (d + 1) a b)
    (hq : visitNode trav h node d (p.mark node) = .ok q) : Lined d p q := by
  have hext : Ext p q := visitNode_ext hv (fun ns a b hab => (htrav ns a b hab).1) hq
  refine ⟨hext, ?_⟩
  cases visitNode_lines hsafe hq with
  | silent hs => exact ⟨[], by rw [hs]; simp [render_nil], by simp⟩
  | leaf body hb hs =>
    refine ⟨[⟨node, d, body⟩], by rw [hs]; simp [render_cons, render_nil], ?_⟩
    intro l hl
    rw [List.mem_singleton] at hl
    subst hl
    exact ⟨hb, Nat.le_refl _, by rw [hs]; simp⟩
  | marking t body hb hs =>
    refine ⟨[⟨node, d, body⟩], by rw [hs]; simp [render_cons, render_nil], ?_⟩
    intro l hl
    rw [List.mem_singleton] at hl
    subst hl
    exact ⟨hb, Nat.le_refl _, by rw [hs]; simp⟩
  | block body ns a hb ha hs =>
    obtain ⟨ea, ls, oa, ma⟩ := htrav _ _ _ ha
    have hmem : (node, d) ∈ q.calls := by
      rw [hs, write_calls]
      exact ea.calls_subset (by simp)
    refine ⟨⟨node, d, body⟩ :: ls ++ [⟨node, d, "\x7d"⟩], ?_, ?_⟩
    · rw [hs, write_output, oa]
      simp [render_append, render_cons, render_nil, String.append_assoc]
    · intro l hl
      simp only [List.cons_append, List.mem_cons, List.mem_append, List.mem_singleton,
        List.not_mem_nil, or_false] at hl
      rcases hl with rfl | hl | rfl
      · exact ⟨hb, Nat.le_refl _, hmem⟩
      · refine ⟨(ma l hl).1, by have := (ma l hl).2.1; omega, ?_⟩
        rw [hs, write_calls]
        exact (ma l hl).2.2
      · exact ⟨(by decide : LineBody "\x7d"), Nat.le_refl _, hmem⟩

/-- Every traversal of a line-safe arena that returns has appended whole lines. -/
theorem traverseNodes_lined {h : Heap} (hsafe : h.LineSafe) {fuel : Nat}
    {nodes : List NodeId} {d : Nat} {p q : Printer}
    (hq : traverseNodes h fuel nodes d p = .ok q) : Lined d p q :=
  traverseNodes_induct h Lined Lined.same (fun _ _ _ _ h1 h2 => h1.chain h2)
    (fun _ _ _ h1 => h1.lift)
    (fun _ _ _ _ _ hv htrav hvis => visitNode_lined hsafe hv htrav hvis) fuel nodes d p q hq

/-- A text of whole lines is empty or ends with a newline. -/
theorem render_last (ls : List Line) :
    render ls = "" ∨ (render ls).data.getLast? = some '\n' := by
  induction ls with
  | nil => exact Or.inl rfl
  | cons l rest ih =>
    right
    rw [render_cons]
    rcases ih with h0 | h1
    · rw [h0]
      simp [lineText]
    · rw [String.data_append]
      cases hr : (render rest).data with
      | nil => rw [hr] at h1; simp at h1
      | cons c cs =>
        rw [hr] at h1
        rw [List.getLast?_append_of_ne_nil _ (by simp)]
        exact h1

/-! ## Leaf formatters -/

theorem mem_spaces {c : Char} {n : Nat} (hc : c ∈ (spaces n).data) : c = ' ' := by
  simp only [spaces] at hc
  exact (List.mem_replicate.mp hc).2

/-- A traversal of source units without children appends nothing. -/
theorem traverseNodes_sourceUnits {h : Heap} (fuel d : Nat) (nodes : List NodeId)
    (p : Printer) (hn : ∀ n ∈ nodes, IsEmptySourceUnit h n) :
    ∃ q, traverseNodes h (fuel + 1) nodes d p = .ok q ∧ q.output = p.output := by
  induction nodes generalizing p with
  | nil => exact ⟨p, rfl, rfl⟩
  | cons node rest ih =>
    have hrest : ∀ n ∈ rest, IsEmptySourceUnit h n := fun n hm =>
      hn n (List.mem_cons_of_mem _ hm)
    obtain ⟨nd, hnode, hk, hf, hch⟩ := hn node (List.mem_cons_self _ _)
    rcases nd with ⟨ty, form, ch⟩
    simp only at hk hf hch
    subst hk hf hch
    by_cases hv : node ∈ p.visited
    · obtain ⟨q, hq, ho⟩ := ih p hrest
      refine ⟨q, ?_, ho⟩
      rw [traverseNodes_succ, List.foldlM_cons, traverseBody_visited hv]
      exact hq
    · obtain ⟨q, hq, ho⟩ := ih ((p.mark node).log node d) hrest
      refine ⟨q, ?_, ho⟩
      rw [traverseNodes_succ, List.foldlM_cons, traverseBody_fresh hv]
      have hvis : visitNode (traverseNodes h fuel) h node d (p.mark node) =
          .ok ((p.mark node).log node d) := by
        simp [visitNode, hnode, VisitSourceUnit]
      have hch : h.GetNodes node = [] := by simp [Heap.GetNodes, hnode]
      rw [hvis, hch]
      exact hq

/-! ## Append-only state -/

/-- A formatter only appends text, when the traversal it calls does. -/
theorem visitNode_output {trav : List NodeId → Nat → Printer → Result} {h : Heap}
    {node : NodeId} {d : Nat} {p q : Printer}
    (htrav : ∀ ns a b, trav ns (d + 1) a = .ok b → Ext a b)
    (hq : visitNode trav h node d p = .ok q) : ∃ t, q.output = p.output ++ t := by
  cases visitNode_ok hq with
  | leaf s hs => exact ⟨s, by rw [hs]; simp⟩
  | marking t s hs => exact ⟨s, by rw [hs]; simp⟩
  | block s1 ns a s2 ha hs =>
    obtain ⟨t, ht⟩ := (htrav _ _ _ ha).output
    exact ⟨s1 ++ t ++ s2, by rw [hs, write_output, ht]; simp [String.append_assoc]⟩

theorem data_prefix_of_append {a b t : String} (hb : b = a ++ t) : a.data <+: b.data := by
  rw [hb, String.data_append]
  exact List.prefix_append _ _

theorem Keeps.wrote (p : Printer) (s : String) : Keeps p (p.write s) :=
  ⟨data_prefix_of_append rfl, Finset.Subset.refl _⟩

theorem Keeps.after {p q r : Printer} (h1 : Keeps p q) (h2 : Keeps q r) : Keeps p r :=
  ⟨h1.1.trans h2.1, h1.2.trans h2.2⟩

theorem Keeps.ofExt {p q : Printer} (hpq : Ext p q) : Keeps p q := by
  obtain ⟨t, ht⟩ := hpq.output
  exact ⟨data_prefix_of_append ht, hpq.visited⟩

theorem Keeps.marked (p : Printer) (t : NodeId) (s : String) :
    Keeps p ((p.mark t).write s) :=
  ⟨data_prefix_of_append rfl, Finset.subset_insert _ _⟩

/-! ## The recursion budget -/

theorem bind_ne_outOfFuel {x : Result} {f : Printer → Result}
    (hx : x ≠ .error .outOfFuel) (hf : ∀ a, x = .ok a → f a ≠ .error .outOfFuel) :
    (x >>= f) ≠ .error .outOfFuel := by
  cases x with
  | error e => simpa using hx
  | ok a => simpa using hf a rfl

theorem writeBaseContracts_ne_outOfFuel (bs : List (Option BaseContract)) (i : Nat)
    (p : Printer) : writeBaseContracts bs i p ≠ .error .outOfFuel := by
  induction bs generalizing i p with
  | nil => simp [writeBaseContracts]
  | cons b rest ih =>
    rcases b with _ | ⟨_ | bn⟩
    · simp [writeBaseContracts]
    · simp [writeBaseContracts]
    · simp only [writeBaseContracts]
      exact ih _ _

/-- A formatter does not run out of budget unless the traversal it calls does. -/
theorem visitNode_ne_outOfFuel {trav : List NodeId → Nat → Printer → Result} {h : Heap}
    (node : NodeId) (d : Nat) (p : Printer)
    (htrav : ∀ ns a, a.visited = p.visited → trav ns (d + 1) a ≠ .error .outOfFuel) :
    visitNode trav h node d p ≠ .error .outOfFuel := by
  cases hn : h.node node with
  | none => simp [visitNode, hn]
  | some n =>
    rcases n with ⟨ty, form, ch⟩
    cases ty
    case CONTRACT_DEFINITION =>
      cases form
      case Contract Name bs ns =>
        rw [visitNode_contract hn]
        unfold VisitContractDefinition
        refine bind_ne_outOfFuel (writeBaseContracts_ne_outOfFuel _ _ _) (fun a ha => ?_)
        obtain ⟨s, hs⟩ := writeBaseContracts_ok ha
        refine bind_ne_outOfFuel (htrav _ _ (by rw [hs]; simp)) (fun b _ => ?_)
        simp
      all_goals simp [visitNode, hn]
    case STRUCT_DEFINITION =>
      cases form
      case StructDefinition Name ms =>
        rw [visitNode_struct hn]
        unfold VisitStructDefinition
        refine bind_ne_outOfFuel (htrav _ _ (by simp)) (fun b _ => ?_)
        simp
      all_goals simp [visitNode, hn]
    case VARIABLE_DECLARATION =>
      cases form
      case StateVariableDeclaration Name t =>
        rw [visitNode_stateVariable hn]
        unfold VisitStateVariableDeclaration
        split <;> simp
      case Parameter Name t =>
        rw [visitNode_parameter hn]
        unfold VisitVariableDeclaration
        split <;> simp
      all_goals simp [visitNode, hn]
    all_goals cases form <;> simp [visitNode, hn]

theorem Heap.lt_of_node {h : Heap} {node : NodeId} {n : Node} (hn : h.node node = some n) :
    node < h.length := by
  by_contra hlt
  have : h.node node = none := List.get?_eq_none.mpr (Nat.le_of_not_lt hlt)
  rw [this] at hn
  cases hn

/-- A traversal does not run out of budget when the budget exceeds the number of nodes of
the arena that are not yet emitted, whatever the arena. -/
theorem traverseNodes_ne_outOfFuel (h : Heap) :
    ∀ (fuel : Nat) (nodes : List NodeId) (d : Nat) (p : Printer),
      unvisited h p < fuel → traverseNodes h fuel nodes d p ≠ .error .outOfFuel := by
  intro fuel
  induction fuel with
  | zero => intro nodes d p hf; omega
  | succ fuel ih =>
    intro nodes
    induction nodes with
    | nil => intro d p _; simp [traverseNodes_succ]
    | cons node rest ihr =>
      intro d p hf
      rw [traverseNodes_succ, List.foldlM_cons]
      refine bind_ne_outOfFuel ?_ (fun a ha => ?_)
      · by_cases hv : node ∈ p.visited
        · rw [traverseBody_visited hv]; simp
        · rw [traverseBody_fresh hv]
          cases hn : h.node node with
          | none => simp [visitNode, hn]
          | some n =>
            have hlt : unvisited h (p.mark node) < fuel := by
              have := unvisited_mark_lt (Heap.lt_of_node hn) hv
              omega
            refine bind_ne_outOfFuel ?_ (fun b hb => ?_)
            · apply visitNode_ne_outOfFuel
              intro ns a ha
              apply ih
              have : unvisited h a = unvisited h (p.mark node) := by simp [unvisited, ha]
              omega
            · split
              · apply ih
                have hsub : (p.mark node).visited ⊆ b.visited :=
                  visitNode_visited (fun _ _ _ hx => traverseNodes_ext hx) hb
                exact lt_of_le_of_lt (unvisited_mono hsub) hlt
              · simp
      · have hext := (traverseBody_ext ha).1
        exact ihr d a (lt_of_le_of_lt (unvisited_mono hext.visited) hf)

theorem bind_below {x : Result} {f g : Printer → Result}
    (hfg : ∀ a, x = .ok a → f a ≠ .error .outOfFuel → g a = f a)
    (hne : (x >>= f) ≠ .error .outOfFuel) : (x >>= g) = (x >>= f) := by
  cases x with
  | error e => rfl
  | ok a => exact hfg a rfl hne

/-- A formatter returns the same with a traversal that returns the same. -/
theorem visitNode_below {t1 t2 : List NodeId → Nat → Printer → Result} (hb : Below t1 t2)
    (h : Heap) (node : NodeId) (d : Nat) (p : Printer)
    (hne : visitNode t1 h node d p ≠ .error .outOfFuel) :
    visitNode t2 h node d p = visitNode t1 h node d p := by
  cases hn : h.node node with
  | none => simp [visitNode, hn]
  | some n =>
    rcases n with ⟨ty, form, ch⟩
    cases ty
    case CONTRACT_DEFINITION =>
      cases form
      case Contract Name bs ns =>
        rw [visitNode_contract hn] at hne ⊢
        rw [visitNode_contract hn]
        unfold VisitContractDefinition at hne ⊢
        refine bind_below (fun a _ hne2 => ?_) hne
        have hne3 : t1 ns (d + 1) (a.write " \x7b\n") ≠ .error .outOfFuel := by
          intro hc
          apply hne2
          simp [hc]
        simp only [hb _ _ _ hne3]
      all_goals simp [visitNode, hn]
    case STRUCT_DEFINITION =>
      cases form
      case StructDefinition Name ms =>
        rw [visitNode_struct hn] at hne ⊢
        rw [visitNode_struct hn]
        unfold VisitStructDefinition at hne ⊢
        have hne3 : t1 ms (d + 1)
            ((p.log node d).write (Repeat "  " d ++ "struct " ++ Name ++ " \x7b\n")) ≠
            .error .outOfFuel := by
          intro hc
          apply hne
          simp [hc]
        simp only [hb _ _ _ hne3]
      all_goals simp [visitNode, hn]
    all_goals cases form <;> simp [visitNode, hn]

theorem traverseBody_below {t1 t2 : List NodeId → Nat → Printer → Result}
    (hb : Below t1 t2) (h : Heap) (d : Nat) (p : Printer) (node : NodeId)
    (hne : traverseBody t1 t1 h d p node ≠ .error .outOfFuel) :
    traverseBody t2 t2 h d p node = traverseBody t1 t1 h d p node := by
  by_cases hv : node ∈ p.visited
  · rw [traverseBody_visited hv, traverseBody_visited hv]
  · rw [traverseBody_fresh hv] at hne ⊢
    rw [traverseBody_fresh hv]
    have hvn : visitNode t1 h node d (p.mark node) ≠ .error .outOfFuel := by
      intro hc
      apply hne
      simp [hc]
    rw [visitNode_below hb h node d (p.mark node) hvn]
    refine bind_below (fun a _ hne2 => ?_) hne
    split
    · next hlen =>
      simp only [hlen, if_true] at hne2
      exact hb _ _ _ hne2
    · rfl

theorem foldlM_below {t1 t2 : List NodeId → Nat → Printer → Result} (hb : Below t1 t2)
    (h : Heap) (d : Nat) (nodes : List NodeId) (p : Printer)
    (hne : nodes.foldlM (traverseBody t1 t1 h d) p ≠ .error .outOfFuel) :
    nodes.foldlM (traverseBody t2 t2 h d) p = nodes.foldlM (traverseBody t1 t1 h d) p := by
  induction nodes generalizing p with
  | nil => rfl
  | cons node rest ih =>
    rw [List.foldlM_cons] at hne ⊢
    rw [List.foldlM_cons]
    have hbn : traverseBody t1 t1 h d p node ≠ .error .outOfFuel := by
      intro hc
      apply hne
      simp [hc]
    rw [traverseBody_below hb h d p node hbn]
    exact bind_below (fun a _ hne2 => ih a hne2) hne

/-- One more unit of budget does not change a result that is not the exhaustion of the
budget. -/
theorem traverseNodes_below_succ (h : Heap) (fuel : Nat) :
    Below (traverseNodes h fuel) (traverseNodes h (fuel + 1)) := by
  induction fuel with
  | zero => intro ns d p hne; exact absurd rfl hne
  | succ k ih =>
    intro ns d p hne
    rw [traverseNodes_succ] at hne
    rw [traverseNodes_succ, traverseNodes_succ]
    exact foldlM_below ih h d ns p hne

/-- A larger budget does not change a result that is not the exhaustion of the budget. -/
theorem traverseNodes_fuel_le (h : Heap) {fuel fuel2 : Nat} (hle : fuel ≤ fuel2)
    (nodes : List NodeId) (d : Nat) (p : Printer)
    (hne : traverseNodes h fuel nodes d p ≠ .error .outOfFuel) :
    traverseNodes h fuel2 nodes d p = traverseNodes h fuel nodes d p := by
  induction hle with
  | refl => rfl
  | step _ ih =>
    rw [← ih]
    exact traverseNodes_below_succ h _ nodes d p (by rw [ih]; exact hne)

/-! ## Braces -/

theorem cnt_append (c : Char) (a b : String) : cnt c (a ++ b) = cnt c a + cnt c b := by
  simp [cnt, String.data_append, List.count_append]

theorem cnt_of_not_mem {c : Char} {s : String} (hc : c ∉ s.data) : cnt c s = 0 :=
  List.count_eq_zero_of_not_mem hc

theorem cnt_Repeat {c : Char} (hc : c ≠ ' ') (d : Nat) : cnt c (Repeat "  " d) = 0 := by
  apply cnt_of_not_mem
  rw [Repeat_spaces]
  intro hm
  exact hc (List.mem_replicate.mp hm).2

theorem cnt_inferVisibility (v : Visibility) :
    cnt lbrace (inferVisibility v) = 0 ∧ cnt rbrace (inferVisibility v) = 0 := by
  cases v
  case OTHER code => exact ⟨(by decide : cnt lbrace "unknown" = 0), (by decide : cnt rbrace "unknown" = 0)⟩
  all_goals exact ⟨by decide, by decide⟩

theorem functionCalls_append (h : Heap) (a b : List (NodeId × Nat)) :
    functionCalls h (a ++ b) = functionCalls h a + functionCalls h b := by
  simp [functionCalls, List.filter_append]

theorem functionCalls_single (h : Heap) (node : NodeId) (d : Nat) :
    functionCalls h [(node, d)] = if isFunction h node then 1 else 0 := by
  simp only [functionCalls, List.filter_cons, List.filter_nil]
  split <;> rfl

theorem Heap.BraceSafe.braceTexts {h : Heap} (hsafe : h.BraceSafe) {n : Node} (hn : n ∈ h) :
    (∀ s ∈ kindTexts n.GetType, braceFree s) ∧ (∀ s ∈ n.form.texts, braceFree s) := by
  have := hsafe n hn
  simp only [Node.braceSafe, List.all_eq_true, decide_eq_true_eq, List.mem_append] at this
  exact ⟨fun s hs => this s (Or.inl hs), fun s hs => this s (Or.inr hs)⟩

theorem braceFree_cnt {s : String} (hs : braceFree s) :
    cnt lbrace s = 0 ∧ cnt rbrace s = 0 :=
  ⟨cnt_of_not_mem hs.1, cnt_of_not_mem hs.2⟩

theorem braceFree_typeName {h : Heap} (hsafe : h.BraceSafe) {t : Option NodeId} {T : String}
    (hT : typeNameName h t = some T) : braceFree T := by
  obtain ⟨n, hn, hform⟩ := typeNameName_mem hT
  have htx := (hsafe.braceTexts hn).2
  rw [hform] at htx
  exact htx T (by simp [Form.texts])

theorem braceFree_calleeName {h : Heap} (hsafe : h.BraceSafe) (e : Option NodeId) :
    braceFree (calleeName h e) := by
  rcases calleeName_cases h e with h0 | ⟨n, hn, hform⟩
  · rw [h0]; decide
  · have htx := (hsafe.braceTexts hn).2
    rw [hform] at htx
    exact htx _ (by simp [Form.texts])

theorem writeBaseContracts_braceFree {bs : List (Option BaseContract)} {i : Nat}
    {p q : Printer} (hbs : ∀ s ∈ bs.filterMap baseNameOf, braceFree s)
    (hq : writeBaseContracts bs i p = .ok q) :
    ∃ s, cnt lbrace s = 0 ∧ cnt rbrace s = 0 ∧ q = p.write s := by
  induction bs generalizing i p with
  | nil =>
    simp [writeBaseContracts] at hq
    exact ⟨"", by decide, by decide, by rw [← hq, write_empty]⟩
  | cons b rest ih =>
    rcases b with _ | ⟨_ | bn⟩
    · simp [writeBaseContracts] at hq
    · simp [writeBaseContracts] at hq
    · simp only [writeBaseContracts] at hq
      have hbn := braceFree_cnt (hbs bn.Name (by simp [baseNameOf]))
      have hrest : ∀ s ∈ rest.filterMap baseNameOf, braceFree s := by
        intro s hs
        exact hbs s (by simp only [List.filterMap_cons]; split <;> simp [hs])
      obtain ⟨s, hso, hsc, hs⟩ := ih hrest hq
      by_cases hi : i > 0
      · refine ⟨", " ++ bn.Name ++ s, ?_, ?_, ?_⟩
        · rw [cnt_append, cnt_append, hbn.1, hso]; decide
        · rw [cnt_append, cnt_append, hbn.2, hsc]; decide
        · rw [hs]; simp [hi, write_write, String.append_assoc]
      · refine ⟨bn.Name ++ s, ?_, ?_, ?_⟩
        · rw [cnt_append, hbn.1, hso]
        · rw [cnt_append, hbn.2, hsc]
        · rw [hs]; simp [hi, write_write]

theorem lbrace_ne_space : lbrace ≠ ' ' := by decide

theorem rbrace_ne_space : rbrace ≠ ' ' := by decide

/-- In a brace-safe arena the braces a formatter writes are those of its format. -/
theorem visitNode_braces {trav : List NodeId → Nat → Printer → Result} {h : Heap}
    (hsafe : h.BraceSafe) {node : NodeId} {d : Nat} {p q : Printer}
    (hq : visitNode trav h node d p = .ok q) : BraceShape h trav node d (p.log node d) q := by
  cases hn : h.node node with
  | none => simp [visitNode, hn] at hq
  | some n =>
    obtain ⟨hkt, htx⟩ := hsafe.braceTexts (List.get?_mem hn)
    rcases n with ⟨ty, form, ch⟩
    simp only at hkt htx
    have hIL := cnt_Repeat lbrace_ne_space d
    have hIR := cnt_Repeat rbrace_ne_space d
    cases ty
    case OTHER name =>
      have hb := braceFree_cnt (hkt name (by simp [kindTexts]))
      simp only [visitNode, hn] at hq
      cases hq
      refine .plain (Repeat "  " d ++ "Unknown Node: " ++ name ++ "\n") ?_ ?_
        (by simp [isFunction, hn]) rfl rfl
      · simp only [cnt_append, hIL, hb.1]; decide
      · simp only [cnt_append, hIR, hb.2]; decide
    case SOURCE_UNIT =>
      cases form <;> simp only [visitNode, hn, reduceCtorEq] at hq
      cases hq
      exact .plain "" (by decide) (by decide) (by simp [isFunction, hn]) (by simp [VisitSourceUnit])
        rfl
    case PRAGMA_DIRECTIVE =>
      cases form <;> simp only [visitNode, hn, reduceCtorEq] at hq
      case Pragma Text =>
        have hb := braceFree_cnt (htx Text (by simp [Form.texts]))
        cases hq
        refine .plain (Repeat "  " d ++ Text ++ "\n") ?_ ?_ (by simp [isFunction, hn]) rfl rfl
        · simp only [cnt_append, hIL, hb.1]; decide
        · simp only [cnt_append, hIR, hb.2]; decide
    case IMPORT_DIRECTIVE =>
      cases form <;> simp only [visitNode, hn, reduceCtorEq] at hq
      case Import Name =>
        have hb := braceFree_cnt (htx Name (by simp [Form.texts]))
        cases hq
        refine .plain (Repeat "  " d ++ "Import: " ++ Name ++ "\n") ?_ ?_
          (by simp [isFunction, hn]) rfl rfl
        · simp only [cnt_append, hIL, hb.1]; decide
        · simp only [cnt_append, hIR, hb.2]; decide
    case MODIFIER_DEFINITION =>
      cases form <;> simp only [visitNode, hn, reduceCtorEq] at hq
      case ModifierDefinition Name =>
        have hb := braceFree_cnt (htx Name (by simp [Form.texts]))
        cases hq
        refine .plain (Repeat "  " d ++ "Modifier: " ++ Name ++ "\n") ?_ ?_
          (by simp [isFunction, hn]) rfl rfl
        · simp only [cnt_append, hIL, hb.1]; decide
        · simp only [cnt_append, hIR, hb.2]; decide
    case ELEMENTARY_TYPE_NAME =>
      cases form <;> simp only [visitNode, hn, reduceCtorEq] at hq
      case TypeName Name =>
        have hb := braceFree_cnt (htx Name (by simp [Form.texts]))
        cases hq
        refine .plain (Repeat "  " d ++ "TypeName: " ++ Name ++ "\n") ?_ ?_
          (by simp [isFunction, hn]) rfl rfl
        · simp only [cnt_append, hIL, hb.1]; decide
        · simp only [cnt_append, hIR, hb.2]; decide
    case IDENTIFIER =>
      cases form <;> simp only [visitNode, hn, reduceCtorEq] at hq
      case PrimaryExpression Name =>
        have hb := braceFree_cnt (htx Name (by simp [Form.texts]))
        cases hq
        exact .plain Name hb.1 hb.2 (by simp [isFunction, hn]) rfl rfl
    case FUNCTION_CALL =>
      cases form <;> simp only [visitNode, hn, reduceCtorEq] at hq
      case FunctionCall e args =>
        have hb := braceFree_cnt (braceFree_calleeName hsafe e)
        cases hq
        refine .plain (Repeat "  " d ++ calleeName h e ++ "(args) \n") ?_ ?_
          (by simp [isFunction, hn]) rfl rfl
        · simp only [cnt_append, hIL, hb.1]; decide
        · simp only [cnt_append, hIR, hb.2]; decide
    case FUNCTION_DEFINITION =>
      cases form <;> simp only [visitNode, hn, reduceCtorEq] at hq
      case Function Name vis ps rs =>
        have hb := braceFree_cnt (htx Name (by simp [Form.texts]))
        have hv := cnt_inferVisibility vis
        cases hq
        refine .function
          (Repeat "  " d ++ "function " ++ Name ++ "() " ++ inferVisibility vis ++ " \x7b\n")
          ?_ ?_ (by simp [isFunction, hn]) rfl rfl
        · simp only [cnt_append, hIL, hb.1, hv.1]; decide
        · simp only [cnt_append, hIR, hb.2, hv.2]; decide
    case VARIABLE_DECLARATION =>
      cases form
      case StateVariableDeclaration Name t =>
        have hb := braceFree_cnt (htx Name (by simp [Form.texts]))
        rw [visitNode_stateVariable hn] at hq
        unfold VisitStateVariableDeclaration at hq
        split at hq
        · next _ _ t0 T hT =>
          have hbT := braceFree_cnt (braceFree_typeName hsafe hT)
          cases hq
          refine .plain (Repeat "  " d ++ T ++ " " ++ Name ++ "; \n") ?_ ?_
            (by simp [isFunction, hn]) rfl rfl
          · simp only [cnt_append, hIL, hb.1, hbT.1]; decide
          · simp only [cnt_append, hIR, hb.2, hbT.2]; decide
        · cases hq
      case Parameter Name t =>
        have hb := braceFree_cnt (htx Name (by simp [Form.texts]))
        rw [visitNode_parameter hn] at hq
        unfold VisitVariableDeclaration at hq
        split at hq
        · next _ _ t0 T hT =>
          have hbT := braceFree_cnt (braceFree_typeName hsafe hT)
          cases hq
          refine .plain (Repeat "  " d ++ T ++ " " ++ Name ++ "; \n") ?_ ?_
            (by simp [isFunction, hn]) rfl rfl
          · simp only [cnt_append, hIL, hb.1, hbT.1]; decide
          · simp only [cnt_append, hIR, hb.2, hbT.2]; decide
        · cases hq
      all_goals
        simp only [visitNode, hn] at hq
        cases hq
        exact .plain "" (by decide) (by decide) (by simp [isFunction, hn]) (by simp) rfl
    case STRUCT_DEFINITION =>
      cases form <;> simp only [visitNode, hn, reduceCtorEq] at hq
      case StructDefinition Name ms =>
        have hb := braceFree_cnt (htx Name (by simp [Form.texts]))
        obtain ⟨a, ha, hqa⟩ := VisitStructDefinition_ok hq
        refine .block (Repeat "  " d ++ "struct " ++ Name ++ " \x7b\n") ms a
          (Repeat "  " d ++ "\x7d\n") ?_ ?_ ?_ ?_ (by simp [isFunction, hn]) ha hqa
        · simp only [cnt_append, hIL, hb.1]; decide
        · simp only [cnt_append, hIR, hb.2]; decide
        · simp only [cnt_append, hIL]; decide
        · simp only [cnt_append, hIR]; decide
    case CONTRACT_DEFINITION =>
      cases form <;> simp only [visitNode, hn, reduceCtorEq] at hq
      case Contract Name bs ns =>
        have hb := braceFree_cnt (htx Name (by simp [Form.texts]))
        unfold VisitContractDefinition at hq
        obtain ⟨b, hbw, hq⟩ := bind_eq_ok.mp hq
        obtain ⟨a, ha, hq⟩ := bind_eq_ok.mp hq
        obtain ⟨s, hso, hsc, hs⟩ := writeBaseContracts_braceFree
          (fun x hx => htx x (by simp only [Form.texts]; exact List.mem_cons_of_mem _ hx)) hbw
        rw [hs, write_write, write_write] at ha
        refine .block (Repeat "  " d ++ "Contract " ++ Name ++ (s ++ " \x7b\n")) ns a
          (Repeat "  " d ++ "\x7d\n") ?_ ?_ ?_ ?_ (by simp [isFunction, hn]) ha
          (Except.ok.inj hq).symm
        · simp only [cnt_append, hIL, hb.1, hso]; decide
        · simp only [cnt_append, hIR, hb.2, hsc]; decide
        · simp only [cnt_append, hIL]; decide
        · simp only [cnt_append, hIR]; decide

theorem Braced.here (h : Heap) (p : Printer) : Braced h p p :=
  ⟨"", [], by simp, by simp, by simp [functionCalls]; decide⟩

theorem Braced.next {h : Heap} {p q r : Printer} (h1 : Braced h p q) (h2 : Braced h q r) :
    Braced h p r := by
  obtain ⟨t1, n1, o1, c1, e1⟩ := h1
  obtain ⟨t2, n2, o2, c2, e2⟩ := h2
  refine ⟨t1 ++ t2, n1 ++ n2, ?_, ?_, ?_⟩
  · rw [o2, o1, String.append_assoc]
  · rw [c2, c1, List.append_assoc]
  · rw [cnt_append, cnt_append, functionCalls_append]
    omega

/-- Marking and formatting one node of a brace-safe arena keeps the braces in balance up
to the function definitions. -/
theorem visitNode_braced {trav : List NodeId → Nat → Printer → Result} {h : Heap}
    (hsafe : h.BraceSafe) {node : NodeId} {d : Nat} {p q : Printer}
    (htrav : ∀ ns a b, trav ns (d + 1) a = .ok b → Braced h a b)
    (hq : visitNode trav h node d (p.mark node) = .ok q) : Braced h p q := by
  cases visitNode_braces hsafe hq with
  | plain s ho hc hf hout hcalls =>
    refine ⟨s, [(node, d)], by rw [hout]; simp, by rw [hcalls]; simp, ?_⟩
    rw [functionCalls_single, hf, ho, hc]
    rfl
  | function s ho hc hf hout hcalls =>
    refine ⟨s, [(node, d)], by rw [hout]; simp, by rw [hcalls]; simp, ?_⟩
    rw [functionCalls_single, hf, ho, hc]
    rfl
  | block s1 ns a s2 ho1 hc1 ho2 hc2 hf ha hs =>
    obtain ⟨t, new, o, c, e⟩ := htrav _ _ _ ha
    refine ⟨s1 ++ t ++ s2, (node, d) :: new, ?_, ?_, ?_⟩
    · rw [hs, write_output, o]
      simp [String.append_assoc]
    · rw [hs, write_calls, c]
      simp
    · have hsplit : functionCalls h ((node, d) :: new) =
          functionCalls h [(node, d)] + functionCalls h new := by
        rw [← functionCalls_append]
        rfl
      rw [hsplit, functionCalls_single, hf, cnt_append, cnt_append, cnt_append, cnt_append,
        ho1, hc1, ho2, hc2]
      simp only [Bool.false_eq_true, if_false]
      omega

/-- Every traversal of a brace-safe arena that returns keeps the braces in balance up to
the function definitions. -/
theorem traverseNodes_braced {h : Heap} (hsafe : h.BraceSafe) {fuel : Nat}
    {nodes : List NodeId} {d : Nat} {p q : Printer}
    (hq : traverseNodes h fuel nodes d p = .ok q) : Braced h p q :=
  traverseNodes_induct h (fun _ a b => Braced h a b) (fun _ a => Braced.here h a)
    (fun _ _ _ _ h1 h2 => h1.next h2) (fun _ _ _ hab => hab)
    (fun _ _ _ _ _ _ htrav hvis => visitNode_braced hsafe htrav hvis) fuel nodes d p q hq

/-! ## Formatters that call no traversal -/

/-- The formatter of a node that is neither a contract nor a struct calls no traversal. -/
theorem visitNode_trav_irrelevant {h : Heap} {node : NodeId} {nd : Node}
    (hn : h.node node = some nd) (hc : nd.GetType ≠ .CONTRACT_DEFINITION)
    (hs : nd.GetType ≠ .STRUCT_DEFINITION)
    (t1 t2 : List NodeId → Nat → Printer → Result) (d : Nat) (p : Printer) :
    visitNode t1 h node d p = visitNode t2 h node d p := by
  rcases nd with ⟨ty, form, ch⟩
  simp only at hc hs
  cases ty
  case CONTRACT_DEFINITION => exact absurd rfl hc
  case STRUCT_DEFINITION => exact absurd rfl hs
  all_goals simp [visitNode, hn]

/-! ## Renaming of node identities -/

@[simp] theorem rename_output (f : NodeId → NodeId) (p : Printer) :
    (p.rename f).output = p.output := rfl

@[simp] theorem renameResult_error (f : NodeId → NodeId) (e : Fault) :
    renameResult f (.error e) = .error e := rfl

theorem renameResult_bind (f : NodeId → NodeId) (x : Result) (g : Printer → Result) :
    renameResult f (x >>= g) = (x >>= fun a => renameResult f (g a)) := by
  cases x <;> rfl

theorem bind_renameResult (f : NodeId → NodeId) (x : Result) (g : Printer → Result) :
    (renameResult f x >>= g) = (x >>= fun a => g (a.rename f)) := by
  cases x <;> rfl

theorem Renaming.GetNodes {f : NodeId → NodeId} {S : Set NodeId} {h1 h2 : Heap}
    (hr : Renaming f S h1 h2) {node : NodeId} (hnode : node ∈ S) :
    h2.GetNodes (f node) = (h1.GetNodes node).map f := by
  cases e1 : h1.node node with
  | none => simp [Heap.GetNodes, e1, hr.absent node hnode e1]
  | some n1 =>
    obtain ⟨n2, e2, hn⟩ := hr.present node hnode n1 e1
    simp only [Node.agreeVia, Bool.and_eq_true, decide_eq_true_eq] at hn
    simp [Heap.GetNodes, e1, e2, hn.1.2]

/-- C1: a node whose kind is none of the eleven recognised kinds is formatted without
error, at every depth `d`, by appending `2 * d` spaces, the text "Unknown Node: ", the name
of the kind and a newline; and the traversal of such a node, when it is not yet emitted,
marks it, formats it so, and goes on into its child list at depth `d + 1`. -/
theorem C1_unknown_kind_placeholder (trav : List NodeId → Nat → Printer → Result)
    (h : Heap) (node : NodeId) (n : Node) (d : Nat) (p : Printer)
    (hn : h.node node = some n) (hk : n.GetType ∉ recognised) :
    visitNode trav h node d p =
        .ok ((p.log node d).write
          (spaces (2 * d) ++ "Unknown Node: " ++ n.GetType.String ++ "\n")) ∧
      ∀ fuel, node ∉ p.visited →
        traverseNodes h (fuel + 1) [node] d p =
          if n.GetNodes.length > 0 then
            traverseNodes h fuel n.GetNodes (d + 1)
              (((p.mark node).log node d).write
                (spaces (2 * d) ++ "Unknown Node: " ++ n.GetType.String ++ "\n"))
          else
            .ok (((p.mark node).log node d).write
                (spaces (2 * d) ++ "Unknown Node: " ++ n.GetType.String ++ "\n")) := by
  have key : ∀ (tr : List NodeId → Nat → Printer → Result) (q : Printer),
      visitNode tr h node d q =
        .ok ((q.log node d).write
          (spaces (2 * d) ++ "Unknown Node: " ++ n.GetType.String ++ "\n")) := by
    intro tr q
    rcases n with ⟨ty, form, ch⟩
    cases ty <;> simp [recognised] at hk
    simp [visitNode, hn, spaces, Repeat_spaces]
  refine ⟨key trav p, fun fuel hv => ?_⟩
  have hch : h.GetNodes node = n.GetNodes := by simp [Heap.GetNodes, hn]
  rw [traverseNodes_single, traverseBody_fresh hv, key, hch]
  rfl

/-- Witness of C1 on the example arena: node 3 has the kind `IF_STATEMENT`. -/
theorem C1_unknown_kind_placeholder_witness :
    visitNode (traverseNodes demoHeap 2) demoHeap 3 1 New =
        .ok ((New.log 3 1).write (spaces (2 * 1) ++ "Unknown Node: " ++ "IF_STATEMENT" ++ "\n")) ∧
      ∀ fuel, 3 ∉ New.visited →
        traverseNodes demoHeap (fuel + 1) [3] 1 New =
          if [0].length > 0 then
            traverseNodes demoHeap fuel [0] (1 + 1)
              (((New.mark 3).log 3 1).write
                (spaces (2 * 1) ++ "Unknown Node: " ++ "IF_STATEMENT" ++ "\n"))
          else
            .ok (((New.mark 3).log 3 1).write
                (spaces (2 * 1) ++ "Unknown Node: " ++ "IF_STATEMENT" ++ "\n")) :=
  C1_unknown_kind_placeholder (traverseNodes demoHeap 2) demoHeap 3
    ⟨.OTHER "IF_STATEMENT", .Other, [0]⟩ 1 New rfl (by decide)

/-- C2, counterexample: `Print` does not complete normally on a node whose concrete form is
not the one asserted for its kind (a pragma-kind node that is an import), nor on a
parameter declaration without a type node: with every budget the call fails to return a
state, and it fails by a panic. -/
theorem C2_counterexample :
    (∀ fuel q, New.Print wrongFormHeap fuel ⟨[0]⟩ ≠ .ok q) ∧
      New.Print wrongFormHeap 1 ⟨[0]⟩ = .error .panic ∧
      (∀ fuel q, New.Print noTypeHeap fuel ⟨[0]⟩ ≠ .ok q) ∧
      New.Print noTypeHeap 1 ⟨[0]⟩ = .error .panic := by
  refine ⟨?_, rfl, ?_, rfl⟩
  · intro fuel q
    cases fuel with
    | zero => simp [Printer.Print, traverseNodes]
    | succ k =>
      have hv : (0 : NodeId) ∉ New.visited := by decide
      simp only [Printer.Print]
      rw [traverseNodes_single, traverseBody_fresh hv]
      simp [visitNode, wrongFormHeap, Heap.node]
  · intro fuel q
    cases fuel with
    | zero => simp [Printer.Print, traverseNodes]
    | succ k =>
      have hv : (0 : NodeId) ∉ New.visited := by decide
      simp only [Printer.Print]
      rw [traverseNodes_single, traverseBody_fresh hv]
      simp [visitNode, noTypeHeap, Heap.node, VisitVariableDeclaration, typeNameName]

/-- C2, amended: on a well-formed arena (every node has the concrete form asserted for its
kind, every state-level or parameter-level declaration its type node, every base contract
its base name, every node reference points into the arena; names and texts are arbitrary,
the empty string included) `Print` completes normally from every state and for every root,
as soon as the recursion budget exceeds the number of nodes of the arena. -/
theorem C2_print_completes_on_well_formed (h : Heap) (hwf : h.WellFormed) (root : RootNode)
    (hroot : ∀ n ∈ root.GetNodes, n < h.length) (p : Printer) (fuel : Nat)
    (hfuel : h.length < fuel) : ∃ q, p.Print h fuel root = .ok q :=
  traverseNodes_total hwf fuel root.GetNodes 0 p hroot
    (lt_of_le_of_lt (unvisited_le h p) hfuel)

/-- Witness of C2 (amended): the example arena, with a node of a kind without a case and a
reference cycle, and an import with an empty name. -/
theorem C2_print_completes_on_well_formed_witness :
    (∃ q, New.Print demoHeap 14 ⟨[12, 0, 4, 9]⟩ = .ok q) ∧
      (∃ q, New.Print emptyNameHeap 2 ⟨[0]⟩ = .ok q) :=
  ⟨C2_print_completes_on_well_formed demoHeap (by decide) ⟨[12, 0, 4, 9]⟩ (by decide) New 14
      (by decide),
    C2_print_completes_on_well_formed emptyNameHeap (by decide) ⟨[0]⟩ (by decide) New 2
      (by decide)⟩

/-- C3: over any run of `Print` calls on one instance that starts fresh, the formatter
is invoked at most once for each node identity: the logged invocations are of pairwise
different nodes, so no node, however often it occurs in node lists or as the type of a
variable declaration, is formatted twice. -/
theorem C3_formatter_at_most_once (runs : List (Heap × Nat × RootNode)) (q : Printer)
    (hq : printAll runs New = .ok q) :
    (q.calls.map Prod.fst).Nodup ∧ ∀ node, (q.calls.map Prod.fst).count node ≤ 1 := by
  have hn := (printAll_calls_nodup runs New q (by simp [New]) hq).1
  exact ⟨hn, fun node => List.nodup_iff_count_le_one.mp hn node⟩

/-- Witness of C3: two `Print` calls on the example arena, with the top-level lists
`[0, 2, 0]` and `[4, 0, 1]`; the type node 2 is the type of variable 1, a child of
variable 1, a member of the node list of contract 0 and a top-level node. -/
theorem C3_formatter_at_most_once_witness :
    printAll [(demoHeap, 5, ⟨[0, 2, 0]⟩), (demoHeap, 5, ⟨[4, 0, 1]⟩)] New =
        .ok ⟨"Contract AB, C \x7b\n  uint256 x; \n  Unknown Node: IF_STATEMENT\n\x7d\n" ++
          "struct S \x7b\n  uint8 a; \n  uint16 b; \n\x7d\n",
          {8, 6, 7, 5, 4, 3, 2, 1, 0}, [(0, 0), (1, 1), (3, 1), (4, 0), (5, 1), (6, 1)]⟩ ∧
      (([(0, 0), (1, 1), (3, 1), (4, 0), (5, 1), (6, 1)] : List (NodeId × Nat)).map
        Prod.fst).Nodup ∧
      ∀ node, (([(0, 0), (1, 1), (3, 1), (4, 0), (5, 1), (6, 1)] : List (NodeId × Nat)).map
        Prod.fst).count node ≤ 1 :=
  ⟨rfl, C3_formatter_at_most_once
    [(demoHeap, 5, ⟨[0, 2, 0]⟩), (demoHeap, 5, ⟨[4, 0, 1]⟩)]
    ⟨"Contract AB, C \x7b\n  uint256 x; \n  Unknown Node: IF_STATEMENT\n\x7d\n" ++
      "struct S \x7b\n  uint8 a; \n  uint16 b; \n\x7d\n",
      {8, 6, 7, 5, 4, 3, 2, 1, 0}, [(0, 0), (1, 1), (3, 1), (4, 0), (5, 1), (6, 1)]⟩ rfl⟩

/-- C4: when `Print` has returned for a root, a second `Print` of the same root on the
same instance returns the state unchanged: no text is appended and the emitted-set is as
it was after the first call. -/
theorem C4_second_print_adds_nothing (h : Heap) (fuel fuel2 : Nat) (r : RootNode)
    (s s1 : Printer) (h1 : s.Print h fuel r = .ok s1) (hf : 0 < fuel2) :
    s1.Print h fuel2 r = .ok s1 ∧
      ∀ s2, s1.Print h fuel2 r = .ok s2 →
        s2.Output = s1.Output ∧ s2.visited = s1.visited := by
  obtain ⟨k, rfl⟩ : ∃ k, fuel2 = k + 1 := ⟨fuel2 - 1, by omega⟩
  have h2 : s1.Print h (k + 1) r = .ok s1 :=
    traverseNodes_all_visited k 0 (traverseNodes_marks h1)
  refine ⟨h2, fun s2 hs2 => ?_⟩
  rw [h2] at hs2
  cases hs2
  exact ⟨rfl, rfl⟩

/-- Witness of C4 on the example arena: the first `Print` of the contract and the pragma,
and the second one, which returns the same state. -/
theorem C4_second_print_adds_nothing_witness :
    New.Print demoHeap 4 ⟨[0, 12]⟩ =
        .ok (Printer.mk ("Contract AB, C \x7b\n  uint256 x; \n  Unknown Node: IF_STATEMENT\n" ++
          "\x7d\npragma solidity ^0.8.0;\n") {12, 3, 2, 1, 0}
          [(0, 0), (1, 1), (3, 1), (12, 0)]) ∧
      (Printer.mk ("Contract AB, C \x7b\n  uint256 x; \n  Unknown Node: IF_STATEMENT\n" ++
          "\x7d\npragma solidity ^0.8.0;\n") {12, 3, 2, 1, 0}
          [(0, 0), (1, 1), (3, 1), (12, 0)]).Print demoHeap 4 ⟨[0, 12]⟩ =
        .ok (Printer.mk ("Contract AB, C \x7b\n  uint256 x; \n  Unknown Node: IF_STATEMENT\n" ++
          "\x7d\npragma solidity ^0.8.0;\n") {12, 3, 2, 1, 0}
          [(0, 0), (1, 1), (3, 1), (12, 0)]) :=
  ⟨rfl, (C4_second_print_adds_nothing demoHeap 4 4 ⟨[0, 12]⟩ New _ rfl (by decide)).1⟩

/-- C6, counterexample: the text a node's formatter writes does not all come before the
text of its child list.  The contract 0 of the example arena has the child list
`[1, 2, 3]`; its formatter writes the header, then the children are rendered, and only
then the formatter writes the closing line. -/
theorem C6_counterexample :
    demoHeap.GetNodes 0 = [1, 2, 3] ∧
      (traverseNodes demoHeap 3 [1, 2, 3] 1
          (((New.mark 0).log 0 0).write "Contract AB, C \x7b\n")).toOption.map Printer.Output =
        some ("Contract AB, C \x7b\n" ++ "  uint256 x; \n  Unknown Node: IF_STATEMENT\n") ∧
      (traverseNodes demoHeap 4 [0] 0 New).toOption.map Printer.Output =
        some ("Contract AB, C \x7b\n" ++ "  uint256 x; \n  Unknown Node: IF_STATEMENT\n" ++
          "\x7d\n") ∧
      (traverseNodes demoHeap 4 [0] 0 New).toOption.map Printer.Output ≠
        some (("Contract AB, C \x7b\n" ++ "\x7d\n") ++
          "  uint256 x; \n  Unknown Node: IF_STATEMENT\n") := by
  refine ⟨rfl, by decide, by decide, by decide⟩

/-- C6, amended: a traversal of `xs ++ ys` is the traversal of `xs` followed by the
traversal of `ys` from the state reached, so the text of `xs` (subtrees included) comes
before the text of `ys`.  The traversal of one node that is not yet emitted runs the
node's formatter first and the walk of its child list afterwards.  The formatter of a node
that is neither a contract nor a struct calls no traversal and no other formatter, so the
node's own text comes before all text of its children.  The formatter of a contract or struct writes its header,
then renders its body list, and writes its closing line after the body. -/
theorem C6_list_order_preorder (h : Heap) (fuel : Nat) (xs ys : List NodeId) (d : Nat)
    (s : Printer) :
    traverseNodes h fuel (xs ++ ys) d s =
        (traverseNodes h fuel xs d s >>= traverseNodes h fuel ys d) ∧
      (∀ s1 s2, traverseNodes h fuel xs d s = .ok s1 →
        traverseNodes h fuel ys d s1 = .ok s2 →
        ∃ t1 t2, s1.output = s.output ++ t1 ∧ s2.output = s.output ++ t1 ++ t2) ∧
      (∀ node, node ∉ s.visited →
        traverseNodes h (fuel + 1) [node] d s =
          (visitNode (traverseNodes h fuel) h node d (s.mark node) >>= fun s1 =>
            if (h.GetNodes node).length > 0 then
              traverseNodes h fuel (h.GetNodes node) (d + 1) s1
            else .ok s1)) ∧
      (∀ node nd, h.node node = some nd → nd.GetType ≠ .CONTRACT_DEFINITION →
        nd.GetType ≠ .STRUCT_DEFINITION → node ∉ s.visited →
        (∀ t1 t2, visitNode t1 h node d (s.mark node) = visitNode t2 h node d (s.mark node)) ∧
        ∀ s1 s2, visitNode (traverseNodes h fuel) h node d (s.mark node) = .ok s1 →
          traverseNodes h fuel (h.GetNodes node) (d + 1) s1 = .ok s2 →
          s1.calls = s.calls ++ [(node, d)] ∧
            ∃ own rest, s1.output = s.output ++ own ∧ s2.output = s.output ++ own ++ rest) ∧
      (∀ node n bs ns ch s1,
        h.node node = some ⟨.CONTRACT_DEFINITION, .Contract n bs ns, ch⟩ →
        visitNode (traverseNodes h fuel) h node d (s.mark node) = .ok s1 →
        ∃ header a body,
          traverseNodes h fuel ns (d + 1) (((s.mark node).log node d).write header) = .ok a ∧
          a.output = s.output ++ header ++ body ∧
          s1.output = s.output ++ header ++ body ++ (spaces (2 * d) ++ "\x7d\n")) ∧
      (∀ node n ms ch s1,
        h.node node = some ⟨.STRUCT_DEFINITION, .StructDefinition n ms, ch⟩ →
        visitNode (traverseNodes h fuel) h node d (s.mark node) = .ok s1 →
        ∃ a body,
          traverseNodes h fuel ms (d + 1)
            (((s.mark node).log node d).write
              (spaces (2 * d) ++ "struct " ++ n ++ " \x7b\n")) = .ok a ∧
          a.output = s.output ++ (spaces (2 * d) ++ "struct " ++ n ++ " \x7b\n") ++ body ∧
          s1.output = s.output ++ (spaces (2 * d) ++ "struct " ++ n ++ " \x7b\n") ++ body ++
            (spaces (2 * d) ++ "\x7d\n")) := by
  refine ⟨?_, ?_, ?_, ?_, ?_, ?_⟩
  · cases fuel with
    | zero => cases xs <;> rfl
    | succ k =>
      rw [traverseNodes_succ, List.foldlM_append]
      rfl
  · intro s1 s2 h1 h2
    obtain ⟨t1, e1⟩ := (traverseNodes_ext h1).output
    obtain ⟨t2, e2⟩ := (traverseNodes_ext h2).output
    exact ⟨t1, t2, e1, by rw [e2, e1]⟩
  · intro node hv
    rw [traverseNodes_single, traverseBody_fresh hv]
  · intro node nd hn hc hs hv
    refine ⟨fun t1 t2 => visitNode_trav_irrelevant hn hc hs t1 t2 d (s.mark node), ?_⟩
    intro s1 s2 h1 h2
    obtain ⟨t1, e1⟩ := (visitNode_ext hv (fun _ _ _ hx => traverseNodes_ext hx) h1).output
    obtain ⟨t2, e2⟩ := (traverseNodes_ext h2).output
    refine ⟨?_, t1, t2, e1, by rw [e2, e1]⟩
    have h0 : visitNode (fun _ _ _ => .error .panic) h node d (s.mark node) = .ok s1 := by
      rw [visitNode_trav_irrelevant hn hc hs _ (traverseNodes h fuel)]
      exact h1
    cases visitNode_ok h0 with
    | leaf t ht => rw [ht]; rfl
    | marking t0 t ht => rw [ht]; rfl
    | block _ _ _ _ ha _ => cases ha
  · intro node n bs ns ch s1 hn h1
    rw [visitNode_contract hn] at h1
    obtain ⟨header, a, ha, hq⟩ := VisitContractDefinition_ok h1
    obtain ⟨body, hb⟩ := (traverseNodes_ext ha).output
    refine ⟨header, a, body, ha, by rw [hb]; simp, ?_⟩
    rw [hq, write_output, hb]
    simp [spaces, Repeat_spaces]
  · intro node n ms ch s1 hn h1
    rw [visitNode_struct hn] at h1
    obtain ⟨a, ha, hq⟩ := VisitStructDefinition_ok h1
    have ha2 : traverseNodes h fuel ms (d + 1)
        (((s.mark node).log node d).write
          (spaces (2 * d) ++ "struct " ++ n ++ " \x7b\n")) = .ok a := by
      simpa [spaces, Repeat_spaces] using ha
    obtain ⟨body, hb⟩ := (traverseNodes_ext ha2).output
    refine ⟨a, body, ha2, by rw [hb]; simp, ?_⟩
    rw [hq, write_output, hb]
    simp [spaces, Repeat_spaces]

/-- Witness of C6 (amended) on the example arena: the state variable 1 writes its line
before its child list is walked, and the contract 0 writes its closing line after its
body. -/
theorem C6_list_order_preorder_witness :
    (∃ own rest,
        (Printer.mk "  uint256 x; \n" {2, 1} [(1, 1)]).output = New.output ++ own ∧
        (Printer.mk "  uint256 x; \n" {2, 1} [(1, 1)]).output = New.output ++ own ++ rest) ∧
      (∃ header a body,
        traverseNodes demoHeap 3 [1, 2, 3] (0 + 1) (((New.mark 0).log 0 0).write header) =
          .ok a ∧
        a.output = New.output ++ header ++ body ∧
        (Printer.mk ("Contract AB, C \x7b\n  uint256 x; \n  Unknown Node: IF_STATEMENT\n" ++
            "\x7d\n") {3, 2, 1, 0} [(0, 0), (1, 1), (3, 1)]).output =
          New.output ++ header ++ body ++ (spaces (2 * 0) ++ "\x7d\n")) :=
  ⟨(((C6_list_order_preorder demoHeap 3 [] [] 1 New).2.2.2.1 1 _ rfl (by decide) (by decide)
      (by decide)).2 _ _ rfl rfl).2,
    (C6_list_order_preorder demoHeap 3 [] [] 0 New).2.2.2.2.1 0 _ _ _ _ _ rfl rfl⟩

/-- C7, counterexample: with names that hold no newline and do not start with a space, the
output need not consist of lines indented by twice the depth of the node that wrote them.
An identifier node writes its name without indentation and without newline: the call of
`g` with the identifier `g` as child gives "g(args) " and then a last line "g", written at
depth 1, that starts with no space and is not ended.  A declaration whose type node has
the empty name gives, at depth 0, a line that starts with a space. -/
theorem C7_counterexample :
    (∀ n ∈ identifierHeap ++ emptyTypeHeap, ∀ s ∈ n.form.texts, LineBody s) ∧
      (∃ q, New.Print identifierHeap 3 ⟨[0]⟩ = .ok q ∧ q.output = "g(args) \ng" ∧
        q.calls = [(0, 0), (1, 1)] ∧ ¬ Indented q) ∧
      (∃ q, New.Print emptyTypeHeap 3 ⟨[0]⟩ = .ok q ∧ q.output = " x; \n" ∧
        q.calls = [(0, 0)] ∧ ¬ Indented q) := by
  refine ⟨by decide, ⟨⟨"g(args) \ng", {1, 0}, [(0, 0), (1, 1)]⟩, rfl, rfl, rfl, ?_⟩,
    ⟨⟨" x; \n", {1, 0}, [(0, 0)]⟩, rfl, rfl, rfl, ?_⟩⟩
  · rintro ⟨ls, hout, -⟩
    simp only at hout
    rcases render_last ls with h0 | h1
    · rw [h0] at hout
      exact absurd hout (by decide)
    · rw [← hout] at h1
      exact absurd h1 (by decide)
  · rintro ⟨ls, hout, hl⟩
    simp only at hout hl
    cases ls with
    | nil => exact absurd hout (by decide)
    | cons l rest =>
      obtain ⟨hbody, hmem⟩ := hl l (List.mem_cons_self _ _)
      have hd : l.depth = 0 := by
        simp only [List.mem_singleton, Prod.mk.injEq] at hmem
        exact hmem.2
      rw [render_cons, hd] at hout
      have hdata := congrArg String.data hout
      simp only [lineText, spaces, String.data_append] at hdata
      cases hb : l.body.data with
      | nil =>
        rw [hb] at hdata
        simp at hdata
      | cons c cs =>
        rw [hb] at hdata
        have hc : c = ' ' := by
          simp at hdata
          exact hdata.1.symm
        exact hbody.2 (by rw [hb, hc]; rfl)

/-- C7, amended: in an arena without identifier-kind nodes, whose names, texts and kind
names hold no newline and do not start with a space and whose type names are not empty,
every formatter invoked for a node at depth `d` writes nothing, or one line of `2 * d`
spaces and a body that does not start with a space, or (contract, struct) such an opening
line, a nested traversal at depth `d + 1`, and the closing line of `2 * d` spaces and a
brace; and the output of `Print` on a fresh printer is a sequence of such lines, each
indented by twice the depth at which the formatter of its node was invoked. -/
theorem C7_lines_indented (h : Heap) (hsafe : h.LineSafe) :
    (∀ trav node d p q, visitNode trav h node d p = .ok q →
        LineShape trav d (p.log node d) q) ∧
      (∀ fuel root q, New.Print h fuel root = .ok q → Indented q) := by
  refine ⟨fun trav node d p q hq => visitNode_lines hsafe hq, ?_⟩
  intro fuel root q hq
  obtain ⟨_, ls, hout, hl⟩ := traverseNodes_lined hsafe hq
  refine ⟨ls, ?_, fun l hm => ⟨(hl l hm).1, (hl l hm).2.2⟩⟩
  rw [hout]
  simp [New]

/-- Witness of C7 (amended): the output of the example arena without identifier nodes,
with an empty pragma text, a call of an unnamed callee at depth 2 and a reference cycle. -/
theorem C7_lines_indented_witness :
    Indented
      (Printer.mk ("\nContract AB, C \x7b\n  uint256 x; \n  Unknown Node: IF_STATEMENT\n" ++
        "    (args) \n\x7d\n") {4, 3, 2, 1, 0, 5} [(5, 0), (0, 0), (1, 1), (3, 1), (4, 2)]) :=
  (C7_lines_indented lineHeap (by decide)).2 5 ⟨[5, 0]⟩ _ rfl

/-- C8: the formatter of a state-level or parameter-level variable declaration `v` with
name `n` whose type node `t` has the name `T` appends, at depth `d`, exactly `2 * d` spaces,
`T`, a space, `n` and "; " with a newline, and leaves `t` in the emitted-set.  So the
traversal of a not-yet-emitted `v` whose only child is `t` contributes that one line and
skips `t`; and no later traversal on this instance invokes the formatter for `t`. -/
theorem C8_variable_declaration_marks_type (h : Heap) (v t : NodeId) (nv nt : Node)
    (n T : String) (d : Nat) (hv : h.node v = some nv)
    (hk : nv.GetType = .VARIABLE_DECLARATION)
    (hf : nv.form = .StateVariableDeclaration n (some t) ∨ nv.form = .Parameter n (some t))
    (ht : h.node t = some nt) (hT : nt.form = .TypeName T) :
    (∀ trav p, ∃ q, visitNode trav h v d p = .ok q ∧
        q.output = p.output ++ (spaces (2 * d) ++ T ++ " " ++ n ++ "; \n") ∧
        q.visited = insert t p.visited) ∧
      (∀ fuel p, v ∉ p.visited → nv.GetNodes = [t] →
        ∃ q, traverseNodes h (fuel + 2) [v] d p = .ok q ∧
          q.output = p.output ++ (spaces (2 * d) ++ T ++ " " ++ n ++ "; \n") ∧
          q.visited = insert t (insert v p.visited) ∧
          q.calls = p.calls ++ [(v, d)]) ∧
      (∀ fuel nodes d2 q r, t ∈ q.visited → traverseNodes h fuel nodes d2 q = .ok r →
        t ∈ r.visited ∧
          r.calls.filter (fun c => c.1 = t) = q.calls.filter (fun c => c.1 = t)) := by
  have hTn := typeNameName_of_node ht hT
  refine ⟨?_, ?_, ?_⟩
  · intro trav p
    refine ⟨_, visitNode_variable hv hk hf hTn d p, ?_, ?_⟩
    · simp [spaces, Repeat_spaces]
    · simp
  · intro fuel p hfresh hch
    have hrun : traverseNodes h (fuel + 2) [v] d p =
        .ok ((((p.mark v).log v d).mark t).write (Repeat "  " d ++ T ++ " " ++ n ++ "; \n")) := by
      rw [traverseNodes_single]
      exact traverseBody_variable hv hk hf hTn (by simp [hch]) fuel d hfresh
    refine ⟨_, hrun, ?_, ?_, ?_⟩
    · simp [spaces, Repeat_spaces]
    · simp
    · simp
  · intro fuel nodes d2 q r htq hr
    exact traverseNodes_no_call htq hr

/-- Witness of C8 on the example arena: the state variable 1 of type node 2. -/
theorem C8_variable_declaration_marks_type_witness :
    (∀ trav p, ∃ q, visitNode trav demoHeap 1 1 p = .ok q ∧
        q.output = p.output ++ (spaces (2 * 1) ++ "uint256" ++ " " ++ "x" ++ "; \n") ∧
        q.visited = insert 2 p.visited) ∧
      (∀ fuel p, 1 ∉ p.visited → [2] = [2] →
        ∃ q, traverseNodes demoHeap (fuel + 2) [1] 1 p = .ok q ∧
          q.output = p.output ++ (spaces (2 * 1) ++ "uint256" ++ " " ++ "x" ++ "; \n") ∧
          q.visited = insert 2 (insert 1 p.visited) ∧
          q.calls = p.calls ++ [(1, 1)]) ∧
      (∀ fuel nodes d2 q r, 2 ∈ q.visited → traverseNodes demoHeap fuel nodes d2 q = .ok r →
        2 ∈ r.visited ∧
          r.calls.filter (fun c => c.1 = 2) = q.calls.filter (fun c => c.1 = 2)) :=
  C8_variable_declaration_marks_type demoHeap 1 2
    ⟨.VARIABLE_DECLARATION, .StateVariableDeclaration "x" (some 2), [2]⟩
    ⟨.ELEMENTARY_TYPE_NAME, .TypeName "uint256", []⟩ "x" "uint256" 1 rfl rfl (Or.inl rfl)
    rfl rfl

/-- C9: the formatter of a contract named `n` with base-contract names `bs` and body `ns`
appends `2 * d` spaces, "Contract ", `n`, the base names joined by ", " and " {" with a
newline, then renders `ns` at depth `d + 1`, then appends `2 * d` spaces and "}" with a
newline; for a contract that is not yet emitted the closing line comes after the whole
body, and when the contract's child list is `ns` the child walk that follows appends
nothing. -/
theorem C9_contract_formatter (h : Heap) (c : NodeId) (n : String) (bs : List String)
    (ns ch : List NodeId) (d : Nat) (s : Printer)
    (hc : h.node c = some ⟨.CONTRACT_DEFINITION, .Contract n (basesOf bs) ns, ch⟩)
    (hfresh : c ∉ s.visited) (fuel : Nat) (a : Printer)
    (hbody : traverseNodes h (fuel + 1) ns (d + 1)
        (((s.mark c).log c d).write
          (spaces (2 * d) ++ "Contract " ++ n ++ ", ".intercalate bs ++ " \x7b\n")) = .ok a) :
    (∀ trav p, visitNode trav h c d p =
        (trav ns (d + 1)
          ((p.log c d).write
            (spaces (2 * d) ++ "Contract " ++ n ++ ", ".intercalate bs ++ " \x7b\n")) >>=
          fun b => .ok (b.write (spaces (2 * d) ++ "\x7d\n")))) ∧
      visitNode (traverseNodes h (fuel + 1)) h c d (s.mark c) =
        .ok (a.write (spaces (2 * d) ++ "\x7d\n")) ∧
      (∃ body, a.output =
          s.output ++ (spaces (2 * d) ++ "Contract " ++ n ++ ", ".intercalate bs ++ " \x7b\n")
            ++ body ∧
        (a.write (spaces (2 * d) ++ "\x7d\n")).output =
          s.output ++ (spaces (2 * d) ++ "Contract " ++ n ++ ", ".intercalate bs ++ " \x7b\n")
            ++ body ++ (spaces (2 * d) ++ "\x7d\n")) ∧
      (ch = ns →
        traverseNodes h (fuel + 2) [c] d s = .ok (a.write (spaces (2 * d) ++ "\x7d\n"))) := by
  have hvisit : visitNode (traverseNodes h (fuel + 1)) h c d (s.mark c) =
      .ok (a.write (spaces (2 * d) ++ "\x7d\n")) := by
    rw [visitNode_contract_names hc, hbody]
    rfl
  refine ⟨fun trav p => visitNode_contract_names hc d p, hvisit, ?_, ?_⟩
  · obtain ⟨body, hb⟩ := (traverseNodes_ext hbody).output
    refine ⟨body, ?_, ?_⟩
    · rw [hb]; simp
    · rw [write_output, hb]; simp
  · intro hch
    rw [traverseNodes_single, traverseBody_fresh hfresh, hvisit]
    simp only [ok_bind]
    have hnodes : h.GetNodes c = ns := by simp [Heap.GetNodes, hc, hch]
    rw [hnodes]
    split
    · apply traverseNodes_all_visited
      intro x hx
      exact traverseNodes_marks hbody x hx
    · rfl

/-- Witness of C9 on the example arena: the contract 0, `A is B, C`. -/
theorem C9_contract_formatter_witness :
    traverseNodes demoHeap 4 [0] 0 New =
      .ok ((Printer.mk "Contract AB, C \x7b\n  uint256 x; \n  Unknown Node: IF_STATEMENT\n"
        {3, 2, 1, 0} [(0, 0), (1, 1), (3, 1)]).write (spaces (2 * 0) ++ "\x7d\n")) :=
  (C9_contract_formatter demoHeap 0 "A" ["B", "C"] [1, 2, 3] [1, 2, 3] 0 New rfl
    (by decide) 2 _ rfl).2.2.2 rfl

/-- C10, counterexample: a struct whose one member is a not yet emitted parameter
declaration (type `uint8`, name `a`) does not render to the header, the one line of the
member and the closing line when the member has a child beside its type node: the child is
walked after the member's line and gives a line of its own in the body. -/
theorem C10_counterexample :
    extraChildHeap.node 0 = some ⟨.STRUCT_DEFINITION, .StructDefinition "S" [1], [1]⟩ ∧
      extraChildHeap.node 1 = some ⟨.VARIABLE_DECLARATION, .Parameter "a" (some 2), [2, 3]⟩ ∧
      typeNameName extraChildHeap (some 2) = some "uint8" ∧ 1 ∉ New.visited ∧
      (visitNode (traverseNodes extraChildHeap 3) extraChildHeap 0 0 New).toOption.map
          Printer.Output =
        some ("struct S \x7b\n" ++ "  uint8 a; \n" ++ "    Unknown Node: COMMENT\n" ++ "\x7d\n") ∧
      (visitNode (traverseNodes extraChildHeap 3) extraChildHeap 0 0 New).toOption.map
          Printer.Output ≠
        some ((spaces (2 * 0) ++ "struct " ++ "S" ++ " \x7b\n") ++ variableLine (0 + 1) "uint8" "a"
          ++ (spaces (2 * 0) ++ "\x7d\n")) := by
  refine ⟨rfl, rfl, rfl, by decide, by decide, by decide⟩

/-- C10, amended: for every struct named `n` with member list `ms`, the formatter appends
`2 * d` spaces, "struct ", `n` and " {" with a newline, then renders `ms` in member order
at depth `d + 1` (by the general traversal, which the struct-member traversal equals),
then appends `2 * d` spaces and "}" with a newline; when the members are pairwise
different, not yet emitted parameter declarations whose child lists hold nothing but their
type node, the body is one line of `2 * (d + 1)` spaces, type name, space, name and "; "
for each member, in member order. -/
theorem C10_struct_formatter (h : Heap) (st : NodeId) (n : String) (ms ch : List NodeId)
    (d : Nat)
    (hs : h.node st = some ⟨.STRUCT_DEFINITION, .StructDefinition n ms, ch⟩) :
    (∀ trav q, visitNode trav h st d q =
        (trav ms (d + 1)
          ((q.log st d).write (spaces (2 * d) ++ "struct " ++ n ++ " \x7b\n")) >>=
          fun b => .ok (b.write (spaces (2 * d) ++ "\x7d\n")))) ∧
      (∀ k q, visitNode (traverseNodes h k) h st d q =
        (traverseStructMembers h k ms (d + 1)
          ((q.log st d).write (spaces (2 * d) ++ "struct " ++ n ++ " \x7b\n")) >>=
          fun b => .ok (b.write (spaces (2 * d) ++ "\x7d\n")))) ∧
      (∀ k q a,
        traverseStructMembers h k ms (d + 1)
          ((q.log st d).write (spaces (2 * d) ++ "struct " ++ n ++ " \x7b\n")) = .ok a →
        visitNode (traverseNodes h k) h st d q = .ok (a.write (spaces (2 * d) ++ "\x7d\n")) ∧
          ∃ body, a.output = q.output ++ (spaces (2 * d) ++ "struct " ++ n ++ " \x7b\n") ++ body ∧
            (a.write (spaces (2 * d) ++ "\x7d\n")).output =
              q.output ++ (spaces (2 * d) ++ "struct " ++ n ++ " \x7b\n") ++ body ++
                (spaces (2 * d) ++ "\x7d\n")) ∧
      (∀ (fs : List Field) (fuel : Nat) (p : Printer), ms = fs.map Field.node →
        (fs.map Field.node).Nodup → (∀ f ∈ fs, f.node ∉ p.visited ∧ IsField h f) →
        ∃ q, visitNode (traverseNodes h (fuel + 2)) h st d p = .ok q ∧
          q.output = p.output ++ (spaces (2 * d) ++ "struct " ++ n ++ " \x7b\n") ++
            String.join (fs.map (fun f => variableLine (d + 1) f.T f.n)) ++
            (spaces (2 * d) ++ "\x7d\n")) := by
  have hgen : ∀ (trav : List NodeId → Nat → Printer → Result) (q : Printer),
      visitNode trav h st d q =
        (trav ms (d + 1)
          ((q.log st d).write (spaces (2 * d) ++ "struct " ++ n ++ " \x7b\n")) >>=
          fun b => .ok (b.write (spaces (2 * d) ++ "\x7d\n"))) := by
    intro trav q
    rw [visitNode_struct hs]
    simp only [VisitStructDefinition, spaces, Repeat_spaces]
    rfl
  refine ⟨hgen, ?_, ?_, ?_⟩
  · intro k q
    rw [traverseStructMembers_eq]
    exact hgen (traverseNodes h k) q
  · intro k q a ha
    rw [traverseStructMembers_eq] at ha
    refine ⟨by rw [hgen, ha]; rfl, ?_⟩
    obtain ⟨body, hb⟩ := (traverseNodes_ext ha).output
    refine ⟨body, ?_, ?_⟩
    · rw [hb]; simp
    · rw [write_output, hb]; simp
  · intro fs fuel p hms hnd hfs
    subst hms
    obtain ⟨b, hb, hout, _⟩ := traverseNodes_fields fuel (d + 1) fs
      ((p.log st d).write (spaces (2 * d) ++ "struct " ++ n ++ " \x7b\n")) hnd
      (by simpa using hfs)
    refine ⟨b.write (spaces (2 * d) ++ "\x7d\n"), ?_, ?_⟩
    · rw [hgen, hb]
      rfl
    · rw [write_output, hout]
      simp

/-- Witness of C10 (amended) on the example arena: the struct 4 with the fields `uint8 a`
and `uint16 b`. -/
theorem C10_struct_formatter_witness :
    ∃ q, visitNode (traverseNodes demoHeap (1 + 2)) demoHeap 4 0 New = .ok q ∧
      q.output = New.output ++ (spaces (2 * 0) ++ "struct " ++ "S" ++ " \x7b\n") ++
        String.join (([⟨5, "uint8", "a", 7⟩, ⟨6, "uint16", "b", 8⟩] : List Field).map
          (fun f => variableLine (0 + 1) f.T f.n)) ++
        (spaces (2 * 0) ++ "\x7d\n") :=
  (C10_struct_formatter demoHeap 4 "S" [5, 6] [5, 6] 0 rfl).2.2.2
    [⟨5, "uint8", "a", 7⟩, ⟨6, "uint16", "b", 8⟩] 1 New rfl (by decide) (by
      intro f hf
      simp only [List.mem_cons, List.mem_singleton, List.not_mem_nil, or_false] at hf
      rcases hf with rfl | rfl
      · exact ⟨by decide, _, _, rfl, rfl, rfl, by decide, rfl, rfl⟩
      · exact ⟨by decide, _, _, rfl, rfl, rfl, by decide, rfl, rfl⟩)

/-- C11: the formatter of a function named `n` with visibility `v` appends, at depth `d`,
exactly `2 * d` spaces, "function ", `n`, "() ", the visibility text and " {" with a
newline; the visibility text is "public", "internal", "private", "external" for the four
listed values and "unknown" for every other; the result is the same whatever the
parameters, the return parameters and the child list of the function; and the text holds
no closing brace unless the name does. -/
theorem C11_function_formatter (trav : List NodeId → Nat → Printer → Result) (h : Heap)
    (f : NodeId) (n : String) (v : Visibility) (ps rs ch : List NodeId) (d : Nat)
    (p : Printer)
    (hf : h.node f = some ⟨.FUNCTION_DEFINITION, .Function n v ps rs, ch⟩) :
    visitNode trav h f d p =
        .ok ((p.log f d).write
          (spaces (2 * d) ++ "function " ++ n ++ "() " ++ inferVisibility v ++ " \x7b\n")) ∧
      (inferVisibility .PUBLIC = "public" ∧ inferVisibility .INTERNAL = "internal" ∧
        inferVisibility .PRIVATE = "private" ∧ inferVisibility .EXTERNAL = "external" ∧
        ∀ code, inferVisibility (.OTHER code) = "unknown") ∧
      (∀ (h2 : Heap) (ps2 rs2 ch2 : List NodeId),
        h2.node f = some ⟨.FUNCTION_DEFINITION, .Function n v ps2 rs2, ch2⟩ →
        visitNode trav h2 f d p = visitNode trav h f d p) ∧
      (rbrace ∉ n.data →
        rbrace ∉ (spaces (2 * d) ++ "function " ++ n ++ "() " ++ inferVisibility v ++
          " \x7b\n").data) := by
  have key : ∀ (h0 : Heap) (ps0 rs0 ch0 : List NodeId),
      h0.node f = some ⟨.FUNCTION_DEFINITION, .Function n v ps0 rs0, ch0⟩ →
      visitNode trav h0 f d p =
        .ok ((p.log f d).write
          (spaces (2 * d) ++ "function " ++ n ++ "() " ++ inferVisibility v ++ " \x7b\n")) := by
    intro h0 ps0 rs0 ch0 h0f
    simp [visitNode, h0f, VisitFunctionDefinition, spaces, Repeat_spaces]
  refine ⟨key h ps rs ch hf, ⟨rfl, rfl, rfl, rfl, fun _ => rfl⟩, ?_, ?_⟩
  · intro h2 ps2 rs2 ch2 h2f
    rw [key h ps rs ch hf, key h2 ps2 rs2 ch2 h2f]
  · intro hn hmem
    simp only [String.data_append, List.mem_append] at hmem
    rcases hmem with ((((hm | hm) | hm) | hm) | hm) | hm
    · exact absurd (mem_spaces hm) (by decide)
    · exact absurd hm (by decide)
    · exact hn hm
    · exact absurd hm (by decide)
    · cases v
      case OTHER code => exact absurd hm (show rbrace ∉ "unknown".data by decide)
      all_goals exact absurd hm (by decide)
    · exact absurd hm (by decide)

/-- Witness of C11 on the example arena: the public function `f`, node 9. -/
theorem C11_function_formatter_witness :
    visitNode (traverseNodes demoHeap 1) demoHeap 9 1 New =
      .ok ((New.log 9 1).write
        (spaces (2 * 1) ++ "function " ++ "f" ++ "() " ++ inferVisibility .PUBLIC ++ " \x7b\n")) :=
  (C11_function_formatter (traverseNodes demoHeap 1) demoHeap 9 "f" .PUBLIC [] [] [10] 1 New
    rfl).1

/-- C12, counterexample: the text contributed by rendering a not-yet-emitted call is not
the single line of the formatter, and differs between two calls that differ only in their
arguments: after the line, the traversal walks the child list of the call, where the
identifier nodes of the callee and of the arguments append their names.  The call of `g`
whose only child is the callee gives "g(args) " and then "g"; `g(a)` and `g(b)` give the
same line and then "ga" and "gb". -/
theorem C12_counterexample :
    (New.Print identifierHeap 3 ⟨[0]⟩).toOption.map Printer.Output = some "g(args) \ng" ∧
      (New.Print callsHeap 3 ⟨[0]⟩).toOption.map Printer.Output = some "g(args) \nga" ∧
      (New.Print callsHeap 3 ⟨[1]⟩).toOption.map Printer.Output = some "g(args) \ngb" ∧
      (New.Print callsHeap 3 ⟨[0]⟩).toOption.map Printer.Output ≠
        (New.Print callsHeap 3 ⟨[1]⟩).toOption.map Printer.Output ∧
      (New.Print callsHeap 3 ⟨[0]⟩).toOption.map Printer.Output ≠
        some (spaces (2 * 0) ++ "g" ++ "(args) \n") := by
  refine ⟨by decide, by decide, by decide, by decide, by decide⟩

/-- C12, amended: the formatter of a call writes, at depth `d`, the one line of `2 * d`
spaces, the callee name and "(args) " with a newline, where the callee name is the name of
the callee expression when that is a primary expression and empty otherwise; the line is
the same for every call with the same callee, whatever its arguments.  The traversal of a
not-yet-emitted call writes that line and then walks the child list of the call at depth
`d + 1`; it contributes the line alone when every child is emitted already. -/
theorem C12_function_call_line (h : Heap) (c : NodeId) (e : Option NodeId)
    (args ch : List NodeId) (d : Nat) (p : Printer)
    (hc : h.node c = some ⟨.FUNCTION_CALL, .FunctionCall e args, ch⟩) :
    (∀ trav, visitNode trav h c d p =
        .ok ((p.log c d).write (spaces (2 * d) ++ calleeName h e ++ "(args) \n"))) ∧
      ((∀ x nx name, e = some x → h.node x = some nx → nx.form = .PrimaryExpression name →
          calleeName h e = name) ∧
        (e = none → calleeName h e = "") ∧
        (∀ x nx, e = some x → h.node x = some nx →
          (∀ name, nx.form ≠ .PrimaryExpression name) → calleeName h e = "")) ∧
      (∀ c2 args2 ch2 trav q,
        h.node c2 = some ⟨.FUNCTION_CALL, .FunctionCall e args2, ch2⟩ →
        visitNode trav h c2 d q =
          .ok ((q.log c2 d).write (spaces (2 * d) ++ calleeName h e ++ "(args) \n"))) ∧
      (∀ fuel, c ∉ p.visited →
        traverseNodes h (fuel + 1) [c] d p =
          if ch.length > 0 then
            traverseNodes h fuel ch (d + 1)
              (((p.mark c).log c d).write (spaces (2 * d) ++ calleeName h e ++ "(args) \n"))
          else
            .ok (((p.mark c).log c d).write
              (spaces (2 * d) ++ calleeName h e ++ "(args) \n"))) ∧
      (∀ fuel, c ∉ p.visited → (∀ x ∈ ch, x ∈ p.visited ∨ x = c) →
        traverseNodes h (fuel + 2) [c] d p =
          .ok (((p.mark c).log c d).write
            (spaces (2 * d) ++ calleeName h e ++ "(args) \n"))) := by
  have key : ∀ (c2 : NodeId) (args2 ch2 : List NodeId)
      (trav : List NodeId → Nat → Printer → Result) (q : Printer),
      h.node c2 = some ⟨.FUNCTION_CALL, .FunctionCall e args2, ch2⟩ →
      visitNode trav h c2 d q =
        .ok ((q.log c2 d).write (spaces (2 * d) ++ calleeName h e ++ "(args) \n")) := by
    intro c2 args2 ch2 trav q hc2
    simp [visitNode, hc2, visitFunctionCall, spaces, Repeat_spaces]
  have hch : h.GetNodes c = ch := by simp [Heap.GetNodes, hc]
  have hstep : ∀ fuel, c ∉ p.visited →
      traverseNodes h (fuel + 1) [c] d p =
        if ch.length > 0 then
          traverseNodes h fuel ch (d + 1)
            (((p.mark c).log c d).write (spaces (2 * d) ++ calleeName h e ++ "(args) \n"))
        else
          .ok (((p.mark c).log c d).write
            (spaces (2 * d) ++ calleeName h e ++ "(args) \n")) := by
    intro fuel hv
    rw [traverseNodes_single, traverseBody_fresh hv, key c args ch _ _ hc, hch]
    rfl
  refine ⟨fun trav => key c args ch trav p hc, ⟨?_, ?_, ?_⟩, ?_, hstep, ?_⟩
  · intro x nx name he hx hf
    simp [calleeName, he, hx, hf]
  · intro he
    simp [calleeName, he]
  · intro x nx he hx hf
    subst he
    cases hform : nx.form with
    | PrimaryExpression name => exact absurd hform (hf name)
    | _ => simp [calleeName, hx, hform]
  · intro c2 args2 ch2 trav q hc2
    exact key c2 args2 ch2 trav q hc2
  · intro fuel hv hall
    rw [hstep (fuel + 1) hv]
    split
    · apply traverseNodes_all_visited
      intro x hx
      rcases hall x hx with hxv | rfl
      · simp [hxv]
      · simp
    · rfl

/-- Witness of C12 (amended): the call `g(a)` of the example with two calls, rendered when
the callee and the argument are emitted already. -/
theorem C12_function_call_line_witness :
    traverseNodes callsHeap (0 + 2) [0] 1 (Printer.mk "" {2, 3} []) =
      .ok ((((Printer.mk "" {2, 3} []).mark 0).log 0 1).write
        (spaces (2 * 1) ++ calleeName callsHeap (some 2) ++ "(args) \n")) :=
  (C12_function_call_line callsHeap 0 (some 2) [3] [2, 3] 1 (Printer.mk "" {2, 3} [])
    rfl).2.2.2.2 0 (by decide) (by decide)

/-- C13: at every depth `d`, the formatter of a pragma appends `2 * d` spaces, the pragma
text and a newline; of an import, the indent, "Import: ", the name and a newline; of a
modifier, the indent, "Modifier: ", the name and a newline; of an elementary type name, the
indent, "TypeName: ", the name and a newline; of an identifier, the bare name; of a source
unit, nothing.  None of them changes the emitted-set. -/
theorem C13_leaf_formatters (trav : List NodeId → Nat → Printer → Result) (h : Heap)
    (node : NodeId) (ch : List NodeId) (d : Nat) (p : Printer) :
    (∀ Text, h.node node = some ⟨.PRAGMA_DIRECTIVE, .Pragma Text, ch⟩ →
        visitNode trav h node d p =
          .ok ((p.log node d).write (spaces (2 * d) ++ Text ++ "\n"))) ∧
      (∀ Name, h.node node = some ⟨.IMPORT_DIRECTIVE, .Import Name, ch⟩ →
        visitNode trav h node d p =
          .ok ((p.log node d).write (spaces (2 * d) ++ "Import: " ++ Name ++ "\n"))) ∧
      (∀ Name, h.node node = some ⟨.MODIFIER_DEFINITION, .ModifierDefinition Name, ch⟩ →
        visitNode trav h node d p =
          .ok ((p.log node d).write (spaces (2 * d) ++ "Modifier: " ++ Name ++ "\n"))) ∧
      (∀ Name, h.node node = some ⟨.ELEMENTARY_TYPE_NAME, .TypeName Name, ch⟩ →
        visitNode trav h node d p =
          .ok ((p.log node d).write (spaces (2 * d) ++ "TypeName: " ++ Name ++ "\n"))) ∧
      (∀ Name, h.node node = some ⟨.IDENTIFIER, .PrimaryExpression Name, ch⟩ →
        visitNode trav h node d p = .ok ((p.log node d).write Name)) ∧
      (h.node node = some ⟨.SOURCE_UNIT, .SourceUnit, ch⟩ →
        visitNode trav h node d p = .ok (p.log node d)) ∧
      (∀ nd q, h.node node = some nd →
        nd.GetType ∈ [NodeType.PRAGMA_DIRECTIVE, .IMPORT_DIRECTIVE, .MODIFIER_DEFINITION,
          .ELEMENTARY_TYPE_NAME, .IDENTIFIER, .SOURCE_UNIT] →
        visitNode trav h node d p = .ok q → q.visited = p.visited) := by
  refine ⟨?_, ?_, ?_, ?_, ?_, ?_, ?_⟩
  · intro Text hn
    simp [visitNode, hn, VisitPragma, spaces, Repeat_spaces]
  · intro Name hn
    simp [visitNode, hn, VisitImport, spaces, Repeat_spaces]
  · intro Name hn
    simp [visitNode, hn, VisitModifierDefinition, spaces, Repeat_spaces]
  · intro Name hn
    simp [visitNode, hn, VisitTypeName, spaces, Repeat_spaces]
  · intro Name hn
    simp [visitNode, hn]
  · intro hn
    simp [visitNode, hn, VisitSourceUnit]
  · intro nd q hn hk hq
    rcases nd with ⟨ty, form, c⟩
    simp only [List.mem_cons, List.mem_singleton, List.not_mem_nil, or_false] at hk
    rcases hk with rfl | rfl | rfl | rfl | rfl | rfl <;>
      cases form <;> simp only [visitNode, hn, reduceCtorEq] at hq <;>
      (cases hq; rfl)

/-- Witness of C13 on the example arena: the pragma, node 12. -/
theorem C13_leaf_formatters_witness :
    visitNode (traverseNodes demoHeap 1) demoHeap 12 0 New =
      .ok ((New.log 12 0).write (spaces (2 * 0) ++ "pragma solidity ^0.8.0;" ++ "\n")) :=
  (C13_leaf_formatters (traverseNodes demoHeap 1) demoHeap 12 [] 0 New).1 _ rfl

/-- C14: on every arena, child lists sharing nodes or forming reference cycles included,
and for every root, `Print` terminates: once the recursion budget exceeds the number of
nodes it is never used up, and every larger budget gives the same result; more precisely
a traversal needs no more budget than the number of nodes not yet emitted plus one.  The
formatter invocations of a `Print` that returns are of pairwise different nodes, none
emitted before; a turn of the loop on an emitted node returns at once, and a turn that
returns leaves its node emitted for good: so the loop formats a node and enters its child
list at most once. -/
theorem C14_print_terminates (h : Heap) (root : RootNode) (p : Printer) (fuel : Nat)
    (hfuel : h.length < fuel) :
    p.Print h fuel root ≠ .error .outOfFuel ∧
      (∀ fuel2, fuel ≤ fuel2 → p.Print h fuel2 root = p.Print h fuel root) ∧
      (∀ fuel1 nodes d s, unvisited h s < fuel1 →
        traverseNodes h fuel1 nodes d s ≠ .error .outOfFuel) ∧
      (∀ q, p.Print h fuel root = .ok q →
        ∃ new, q.calls = p.calls ++ new ∧ (new.map Prod.fst).Nodup ∧
          ∀ c ∈ new, c.1 ∉ p.visited ∧ c.1 ∈ q.visited) ∧
      (∀ vt ct d s node, node ∈ s.visited → traverseBody vt ct h d s node = .ok s) ∧
      (∀ k d s q node,
        traverseBody (traverseNodes h k) (traverseNodes h k) h d s node = .ok q →
        node ∈ q.visited ∧ s.visited ⊆ q.visited) := by
  have hne : p.Print h fuel root ≠ .error .outOfFuel :=
    traverseNodes_ne_outOfFuel h fuel root.GetNodes 0 p
      (lt_of_le_of_lt (unvisited_le h p) hfuel)
  refine ⟨hne, ?_, ?_, ?_, fun vt ct d s node hv => traverseBody_visited hv,
    fun k d s q node hq => ⟨(traverseBody_ext hq).2, (traverseBody_ext hq).1.visited⟩⟩
  · intro fuel2 hle
    exact traverseNodes_fuel_le h hle root.GetNodes 0 p hne
  · intro fuel1 nodes d s hs
    exact traverseNodes_ne_outOfFuel h fuel1 nodes d s hs
  · intro q hq
    exact (traverseNodes_ext hq).calls

/-- Witness of C14: an arena of two nodes in a reference cycle, one of them its own
child. -/
theorem C14_print_terminates_witness :
    New.Print cycleHeap 3 ⟨[0]⟩ =
        .ok (Printer.mk "Unknown Node: LOOP_A\n  Unknown Node: LOOP_B\n" {1, 0}
          [(0, 0), (1, 1)]) ∧
      New.Print cycleHeap 3 ⟨[0]⟩ ≠ .error .outOfFuel ∧
      (∀ fuel2, 3 ≤ fuel2 → New.Print cycleHeap fuel2 ⟨[0]⟩ = New.Print cycleHeap 3 ⟨[0]⟩) :=
  ⟨rfl, (C14_print_terminates cycleHeap ⟨[0]⟩ New 3 (by decide)).1,
    (C14_print_terminates cycleHeap ⟨[0]⟩ New 3 (by decide)).2.1⟩

/-- C15: every operation that returns leaves the old output text a prefix of the new one
and the old emitted-set a subset of the new one: `Print`, the two traversal routines, and
the formatter dispatch `visitNode`, and each formatter called on its own; `Output()`
returns the text and has no state to change. -/
theorem C15_append_only (h : Heap) (fuel : Nat) (nodes : List NodeId) (node : NodeId)
    (d : Nat) (root : RootNode) (s : Printer) :
    (∀ q, s.Print h fuel root = .ok q →
        s.output.data <+: q.output.data ∧ s.visited ⊆ q.visited) ∧
      (∀ q, traverseNodes h fuel nodes d s = .ok q →
        s.output.data <+: q.output.data ∧ s.visited ⊆ q.visited) ∧
      (∀ q, traverseStructMembers h fuel nodes d s = .ok q →
        s.output.data <+: q.output.data ∧ s.visited ⊆ q.visited) ∧
      (∀ q, visitNode (traverseNodes h fuel) h node d s = .ok q →
        s.output.data <+: q.output.data ∧ s.visited ⊆ q.visited) ∧
      (Keeps s (VisitSourceUnit d s) ∧
        ∀ text, Keeps s (VisitPragma text d s) ∧ Keeps s (VisitImport text d s) ∧
          Keeps s (VisitModifierDefinition text d s) ∧ Keeps s (VisitTypeName text d s) ∧
          (∀ vis, Keeps s (VisitFunctionDefinition text vis d s)) ∧
          (∀ e, Keeps s (visitFunctionCall h e d s)) ∧
          (∀ t q, VisitVariableDeclaration h text t d s = .ok q → Keeps s q) ∧
          (∀ t q, VisitStateVariableDeclaration h text t d s = .ok q → Keeps s q) ∧
          (∀ bs ns q,
            VisitContractDefinition (traverseNodes h fuel) text bs ns d s = .ok q →
            Keeps s q) ∧
          (∀ ms q, VisitStructDefinition (traverseNodes h fuel) text ms d s = .ok q →
            Keeps s q)) ∧
      s.Output = s.output := by
  have htr : ∀ (ns : List NodeId) (k : Nat) (a b : Printer),
      traverseNodes h fuel ns k a = .ok b → a.output.data <+: b.output.data ∧
        a.visited ⊆ b.visited := by
    intro ns k a b hab
    have hext := traverseNodes_ext hab
    obtain ⟨t, ht⟩ := hext.output
    exact ⟨data_prefix_of_append ht, hext.visited⟩
  refine ⟨fun q hq => htr _ _ _ _ hq, fun q hq => htr _ _ _ _ hq, ?_, ?_, ?_, rfl⟩
  · intro q hq
    rw [traverseStructMembers_eq] at hq
    exact htr _ _ _ _ hq
  · intro q hq
    obtain ⟨t, ht⟩ := visitNode_output (fun _ _ _ hx => traverseNodes_ext hx) hq
    exact ⟨data_prefix_of_append ht,
      visitNode_visited (fun _ _ _ hx => traverseNodes_ext hx) hq⟩
  · refine ⟨⟨List.prefix_refl _, Finset.Subset.refl _⟩, fun text => ?_⟩
    refine ⟨Keeps.wrote _ _, Keeps.wrote _ _, Keeps.wrote _ _, Keeps.wrote _ _,
      fun vis => Keeps.wrote _ _, fun e => Keeps.wrote _ _, ?_, ?_, ?_, ?_⟩
    · intro t q hq
      obtain ⟨t0, w, hw⟩ := VisitVariableDeclaration_ok hq
      rw [hw]
      exact Keeps.marked _ _ _
    · intro t q hq
      obtain ⟨t0, w, hw⟩ := VisitStateVariableDeclaration_ok hq
      rw [hw]
      exact Keeps.marked _ _ _
    · intro bs ns q hq
      obtain ⟨s1, a, ha, hqa⟩ := VisitContractDefinition_ok hq
      rw [hqa]
      exact ((Keeps.wrote s s1).after (Keeps.ofExt (traverseNodes_ext ha))).after
        (Keeps.wrote _ _)
    · intro ms q hq
      obtain ⟨a, ha, hqa⟩ := VisitStructDefinition_ok hq
      rw [hqa]
      exact ((Keeps.wrote s _).after (Keeps.ofExt (traverseNodes_ext ha))).after
        (Keeps.wrote _ _)

/-- Witness of C15: the struct of the example arena printed from a state that already
holds text and an emitted node. -/
theorem C15_append_only_witness :
    (Printer.mk "old" {5} []).output.data <+:
        (Printer.mk "oldstruct S \x7b\n  uint16 b; \n\x7d\n" {8, 6, 4, 5}
          [(4, 0), (6, 1)]).output.data ∧
      (Printer.mk "old" {5} []).visited ⊆
        (Printer.mk "oldstruct S \x7b\n  uint16 b; \n\x7d\n" {8, 6, 4, 5}
          [(4, 0), (6, 1)]).visited :=
  (C15_append_only demoHeap 3 [] 0 0 ⟨[4]⟩ (Printer.mk "old" {5} [])).1 _ rfl

/-- C17: a fresh printer has an empty output and an empty emitted-set; `Print` on a root
without top-level nodes returns the fresh state unchanged; and `Print` on a root whose
nodes are all source units without children returns with an empty output. -/
theorem C17_empty_program (h : Heap) (fuel : Nat) (root : RootNode)
    (hroot : ∀ n ∈ root.GetNodes, IsEmptySourceUnit h n) :
    New.Output = "" ∧ New.visited = ∅ ∧ New.Print h (fuel + 1) ⟨[]⟩ = .ok New ∧
      ∃ q, New.Print h (fuel + 1) root = .ok q ∧ q.Output = "" := by
  refine ⟨rfl, rfl, rfl, ?_⟩
  obtain ⟨q, hq, ho⟩ := traverseNodes_sourceUnits fuel 0 root.GetNodes New hroot
  exact ⟨q, hq, ho⟩

/-- Witness of C17: two source units without children, one of them listed twice. -/
theorem C17_empty_program_witness :
    New.Output = "" ∧ New.visited = ∅ ∧ New.Print sourceUnitHeap (0 + 1) ⟨[]⟩ = .ok New ∧
      ∃ q, New.Print sourceUnitHeap (0 + 1) ⟨[0, 1, 0]⟩ = .ok q ∧ q.Output = "" :=
  C17_empty_program sourceUnitHeap 0 ⟨[0, 1, 0]⟩ (by
    intro n hn
    simp only [List.mem_cons, List.mem_singleton, List.not_mem_nil, or_false] at hn
    rcases hn with rfl | rfl | rfl <;> exact ⟨_, rfl, rfl, rfl, rfl⟩)

/-- C18: from every state, for every node list and depth, and with every budget, the
struct-member traversal and the general traversal give the same result: the same output
text and the same emitted-set, or the same fault. -/
theorem C18_traversals_in_lock_step (h : Heap) (fuel : Nat) (ns : List NodeId) (d : Nat)
    (s : Printer) :
    traverseStructMembers h fuel ns d s = traverseNodes h fuel ns d s ∧
      (traverseStructMembers h fuel ns d s).toOption.map Printer.Output =
        (traverseNodes h fuel ns d s).toOption.map Printer.Output ∧
      (traverseStructMembers h fuel ns d s).toOption.map Printer.visited =
        (traverseNodes h fuel ns d s).toOption.map Printer.visited := by
  have heq : traverseStructMembers h fuel ns d s = traverseNodes h fuel ns d s := by
    rw [traverseStructMembers_eq]
  exact ⟨heq, by rw [heq], by rw [heq]⟩

/-- C19: in an arena none of whose names, texts and kind names holds a brace, the output
of `Print` on a fresh printer holds as many opening braces as closing braces and formatted
function definitions together, so the opening braces exceed the closing ones by the number
of function definitions formatted; a function formatter writes one opening brace and no
closing one, a contract or struct formatter one opening brace before its body and one
closing brace after it, every other formatter none. -/
theorem C19_unbalanced_braces (h : Heap) (hsafe : h.BraceSafe) (fuel : Nat)
    (root : RootNode) (q : Printer) (hq : New.Print h fuel root = .ok q) :
    cnt lbrace q.output = cnt rbrace q.output + functionCalls h q.calls ∧
      ((cnt lbrace q.output : Int) - (cnt rbrace q.output : Int) =
        (functionCalls h q.calls : Int)) ∧
      (∀ trav node d p r, visitNode trav h node d p = .ok r →
        BraceShape h trav node d (p.log node d) r) := by
  obtain ⟨t, new, o, c, e⟩ := traverseNodes_braced hsafe hq
  have ho : q.output = t := by rw [o]; simp [New]
  have hc : q.calls = new := by rw [c]; simp [New]
  have hmain : cnt lbrace q.output = cnt rbrace q.output + functionCalls h q.calls := by
    rw [ho, hc]
    exact e
  refine ⟨hmain, ?_, fun trav node d p r hr => visitNode_braces hsafe hr⟩
  rw [hmain]
  push_cast
  ring

/-- Witness of C19 on the example arena: one contract, one struct and one function are
formatted, and the output holds three opening braces and two closing ones. -/
theorem C19_unbalanced_braces_witness :
    ∃ q, New.Print demoHeap 14 ⟨[12, 0, 4, 9]⟩ = .ok q ∧
      cnt lbrace q.output = 3 ∧ cnt rbrace q.output = 2 ∧ functionCalls demoHeap q.calls = 1 ∧
      cnt lbrace q.output = cnt rbrace q.output + functionCalls demoHeap q.calls :=
  ⟨_, rfl, by decide, by decide, by decide,
    (C19_unbalanced_braces demoHeap (by decide) 14 ⟨[12, 0, 4, 9]⟩ _ rfl).1⟩

/-- C20, counterexample: a node of the parameter-level form does not always give exactly
one line: the parameter `x` without a type node makes its formatter panic, and `Print`
with it, before anything is written. -/
theorem C20_counterexample :
    noTypeHeap.node 0 = some ⟨.VARIABLE_DECLARATION, .Parameter "x" none, []⟩ ∧
      visitNode (traverseNodes noTypeHeap 1) noTypeHeap 0 0 New = .error .panic ∧
      New.Print noTypeHeap 2 ⟨[0]⟩ = .error .panic := by
  refine ⟨rfl, rfl, rfl⟩

/-- C20, amended: the formatter of a variable-declaration-kind node whose concrete form is
neither the state-level nor the parameter-level declaration returns without writing and
without marking, and the traversal of such a node, when it is not yet emitted, marks it
and walks its child list at depth `d + 1`; the formatter of a node of one of the two forms
writes exactly the one line of that form when the declaration has its type node, named
`T`, and panics, writing nothing, when it has none; one of the two cases holds of every
node of either form. -/
theorem C20_variable_declaration_forms (h : Heap) (node : NodeId) (nd : Node) (d : Nat)
    (p : Printer) (hn : h.node node = some nd) (hk : nd.GetType = .VARIABLE_DECLARATION) :
    ((∀ n t, nd.form ≠ .StateVariableDeclaration n t) → (∀ n t, nd.form ≠ .Parameter n t) →
        (∀ trav, visitNode trav h node d p = .ok (p.log node d)) ∧
        (p.log node d).output = p.output ∧ (p.log node d).visited = p.visited ∧
        (∀ fuel, node ∉ p.visited →
          traverseNodes h (fuel + 1) [node] d p =
            if nd.GetNodes.length > 0 then
              traverseNodes h fuel nd.GetNodes (d + 1) ((p.mark node).log node d)
            else .ok ((p.mark node).log node d))) ∧
      (∀ n t T,
        nd.form = .StateVariableDeclaration n (some t) ∨ nd.form = .Parameter n (some t) →
        typeNameName h (some t) = some T →
        ∀ trav, visitNode trav h node d p =
          .ok (((p.log node d).mark t).write (spaces (2 * d) ++ T ++ " " ++ n ++ "; \n"))) ∧
      (∀ n t, nd.form = .StateVariableDeclaration n t ∨ nd.form = .Parameter n t →
        typeNameName h t = none →
        ∀ trav, visitNode trav h node d p = .error .panic) ∧
      (∀ n t, nd.form = .StateVariableDeclaration n t ∨ nd.form = .Parameter n t →
        (∃ t0 T, t = some t0 ∧ typeNameName h (some t0) = some T) ∨
          typeNameName h t = none) := by
  refine ⟨?_, ?_, ?_, ?_⟩
  · intro hs hp
    have key : ∀ (trav : List NodeId → Nat → Printer → Result) (q : Printer),
        visitNode trav h node d q = .ok (q.log node d) := by
      intro trav q
      rcases nd with ⟨ty, form, ch⟩
      simp only at hk hs hp
      subst hk
      cases form
      case StateVariableDeclaration n t => exact absurd rfl (hs n t)
      case Parameter n t => exact absurd rfl (hp n t)
      all_goals simp [visitNode, hn]
    refine ⟨fun trav => key trav p, rfl, rfl, fun fuel hv => ?_⟩
    have hch : h.GetNodes node = nd.GetNodes := by simp [Heap.GetNodes, hn]
    rw [traverseNodes_single, traverseBody_fresh hv, key, hch]
    rfl
  · intro n t T hf hT trav
    rw [visitNode_variable hn hk hf hT]
    simp [spaces, Repeat_spaces]
  · intro n t hf hT trav
    rcases nd with ⟨ty, form, ch⟩
    simp only at hk hf
    subst hk
    rcases hf with rfl | rfl
    · rw [visitNode_stateVariable hn]
      unfold VisitStateVariableDeclaration
      split
      · next _ _ t0 T0 hT0 => rw [hT0] at hT; cases hT
      · rfl
    · rw [visitNode_parameter hn]
      unfold VisitVariableDeclaration
      split
      · next _ _ t0 T0 hT0 => rw [hT0] at hT; cases hT
      · rfl
  · intro n t _
    cases hT : typeNameName h t with
    | none => exact Or.inr rfl
    | some T =>
      obtain ⟨t0, T0, ht, hT0⟩ := typeNameName_isSome (by rw [hT]; rfl)
      exact Or.inl ⟨t0, T0, ht, hT0⟩

/-- Witness of C20 (amended): a variable-declaration-kind node of another form with a
pragma as child; its traversal writes only the pragma line, at depth 1. -/
theorem C20_variable_declaration_forms_witness :
    (∀ trav, visitNode trav otherDeclarationHeap 0 0 New = .ok (New.log 0 0)) ∧
      (New.log 0 0).output = New.output ∧ (New.log 0 0).visited = New.visited ∧
      (∀ fuel, 0 ∉ New.visited →
        traverseNodes otherDeclarationHeap (fuel + 1) [0] 0 New =
          if [1].length > 0 then
            traverseNodes otherDeclarationHeap fuel [1] (0 + 1) ((New.mark 0).log 0 0)
          else .ok ((New.mark 0).log 0 0)) :=
  (C20_variable_declaration_forms otherDeclarationHeap 0 ⟨.VARIABLE_DECLARATION, .Other, [1]⟩
    0 New rfl rfl).1 (by intro n t hc; cases hc) (by intro n t hc; cases hc)

end printer
